import Mathlib

/-!
The command execution layer of the git-managed dashboards.

A shallow embedding of `src/dashboards/git-integration.js` (class `GitIntegration`) and
`src/dashboards/real-git-executor.js` (class `RealGitExecutor`).

* JavaScript strings are Lean strings; the string methods the code uses (`trim`, `split`,
  `startsWith`) are defined on the character list so that they evaluate.
* An object of the class is a record of its fields together with the collaborators it writes
  to (notifications, local storage, the commands handed to a backend).
* Everything the code reads from outside (process exits, service replies, dialog clicks, the
  clock) comes from an `Env`.
* An `async` method is a function returning its settled value: `Except.ok` for a resolved
  promise, `Except.error` for a rejected one.
-/

/-! ## JavaScript strings -/

/-- Code points removed by `String.prototype.trim` (WhiteSpace and LineTerminator). -/
def jsIsWhiteSpace (c : Char) : Bool :=
  let n := c.toNat
  (9 ≤ n && n ≤ 13) || n == 32 || n == 160 || n == 5760 || (8192 ≤ n && n ≤ 8202) ||
    n == 8232 || n == 8233 || n == 8239 || n == 8287 || n == 12288 || n == 65279

/-- Removal of the leading white space of a character list. -/
def trimStartChars (cs : List Char) : List Char :=
  cs.dropWhile jsIsWhiteSpace

/-- Removal of the leading and the trailing white space of a character list. -/
def trimChars (cs : List Char) : List Char :=
  (trimStartChars (trimStartChars cs).reverse).reverse

/-- The method `s.trim()`. -/
def jsTrim (s : String) : String :=
  ⟨trimChars s.data⟩

/-- Splitting of a character list at every occurrence of a separator character. -/
def splitChars (sep : Char) : List Char → List (List Char)
  | [] => [[]]
  | c :: cs =>
    if c = sep then [] :: splitChars sep cs
    else
      match splitChars sep cs with
      | [] => [[c]]
      | l :: ls => (c :: l) :: ls

/-- The method `s.split(sep)` for a one-character separator. -/
def jsSplit (sep : Char) (s : String) : List String :=
  (splitChars sep s.data).map String.mk

/-- The method `s.startsWith(p)`. -/
def jsStartsWith (s p : String) : Bool :=
  p.data.isPrefixOf s.data

/-- Truthiness of a string: every string but the empty one. -/
def jsTruthy (s : String) : Bool :=
  !s.data.isEmpty

/-- The expression `s.split('\n').filter(line => line.trim())`. -/
def nonBlankLines (s : String) : List String :=
  (jsSplit '\n' s).filter fun line => jsTruthy (jsTrim line)

/-- A property value that is a string, `null`, or missing. -/
inductive JsStr where
  | undefined
  | null
  | str (s : String)
  deriving DecidableEq, Repr

namespace JsStr

/-- Truthiness of the value. -/
def truthy : JsStr → Bool
  | str s => jsTruthy s
  | _ => false

/-- The expression `a || b`. -/
def or (a b : JsStr) : JsStr :=
  if a.truthy then a else b

/-- The text of the value inside a template literal. -/
def text : JsStr → String
  | undefined => "undefined"
  | null => "null"
  | str s => s

end JsStr

/-! ## Data model -/

/-- The object a command settles with. A field the object does not have is `undefined`
(`none` for the boolean fields, which the code only tests for truthiness). -/
structure CommandResult where
  command : JsStr
  success : Option Bool
  stdout : JsStr
  stderr : JsStr
  error : JsStr
  timestamp : JsStr
  manual : Option Bool
  simulated : Option Bool
  cancelled : Option Bool
  deriving DecidableEq, Repr

/-- The object without any field. -/
def CommandResult.empty : CommandResult :=
  ⟨.undefined, none, .undefined, .undefined, .undefined, .undefined, none, none, none⟩

/-- Truthiness of an optional boolean field. -/
def flag (b : Option Bool) : Bool :=
  b.getD false

/-- What a rejected promise or a `throw` carries. -/
inductive Thrown where
  | result (r : CommandResult)
  | error (name message : String)
  deriving DecidableEq, Repr

/-- The snapshot stored in `currentStatus`. -/
structure GitStatus where
  currentBranch : String
  uncommittedFiles : Nat
  totalBranches : Nat
  recentCommits : List String
  stashCount : Nat
  isClean : Bool
  timestamp : String
  deriving DecidableEq, Repr

/-- An element of the ledger kept under `git-command-history`. -/
structure HistoryEntry extends CommandResult where
  branch : String
  deriving DecidableEq, Repr

/-- The arguments `child_process.exec` hands to its callback: the message of `error` when
there is one, and the two output streams. -/
structure ProcExit where
  error : Option String
  stdout : String
  stderr : String
  deriving DecidableEq, Repr

/-- The outcome of `fetch` followed by `response.json()`: the request fails, the response is
not `ok`, the body is not JSON, or the body is an object, read through the fields of
`CommandResult`, each of which may be missing. -/
inductive FetchReply where
  | networkError (message : String)
  | notOk (statusText : String)
  | badJson (message : String)
  | ok (body : CommandResult)
  deriving DecidableEq, Repr

/-- The click that settles a command dialog of `RealGitExecutor`. -/
inductive UserChoice where
  | execute
  | cancel
  deriving DecidableEq, Repr

/-- Everything read from outside. `exec`, `fetch` and `dialog` answer the command issued
when `n` commands had been issued before; `now` is the clock at its `n`-th reading;
`processCwd` is `process.cwd()`, or `none` where no global `process` exists. -/
structure Env where
  processCwd : Option String
  exec : Nat → String → ProcExit
  fetch : Nat → String → FetchReply
  dialog : Nat → String → UserChoice
  now : Nat → String

/-- The second argument of `executeCommand`. -/
structure Options where
  showOutput : Option Bool
  cwd : Option String
  deriving DecidableEq, Repr

/-- An object of class `GitIntegration` with what it writes to: `history` is the array stored
under `git-command-history`, `notifications` the calls of `showNotification`, `issued` the
commands handed to a backend (process, service or manual dialog), `display` the values last
written by `updateStatusDisplay`, `dispatched` the details of the `gitStatusUpdate` events,
`ticks` the number of clock readings. -/
structure GitIntegration where
  canExecuteCommands : Bool
  serverAvailable : Option Bool
  currentStatus : Option GitStatus
  history : List HistoryEntry
  notifications : List (String × String)
  issued : List String
  display : Option (String × Nat × Nat)
  dispatched : List (Option GitStatus)
  ticks : Nat
  deriving DecidableEq, Repr

/-- What a compound operation of `GitIntegration` returns. -/
structure OpResult where
  success : Bool
  branchName : Option String
  error : Option Thrown
  deriving DecidableEq, Repr

/-! ## `GitIntegration` (git-integration.js) -/

namespace GitIntegration

/-- The method `showNotification(message, type)`. -/
def showNotification (message type : String) (g : GitIntegration) : GitIntegration :=
  { g with notifications := g.notifications ++ [(message, type)] }

/-- The expression `this.currentStatus?.currentBranch || fallback`. -/
def currentBranchOr (fallback : String) (g : GitIntegration) : String :=
  match g.currentStatus with
  | some st => if jsTruthy st.currentBranch then st.currentBranch else fallback
  | none => fallback

/-- The method `logToHistory(result)`: put the entry first, keep the first 50. -/
def logToHistory (env : Env) (result : CommandResult) (g : GitIntegration) : GitIntegration :=
  let entry : HistoryEntry :=
    { result with timestamp := .str (env.now g.ticks), branch := currentBranchOr "unknown" g }
  let history := entry :: g.history
  let history := if history.length > 50 then history.take 50 else history
  { g with history := history, ticks := g.ticks + 1 }

/-- The method `displayCommandResult(result)`. -/
def displayCommandResult (env : Env) (result : CommandResult) (g : GitIntegration) :
    GitIntegration :=
  let message := "Command: " ++ result.command.text ++ "\n\n"
  let g1 :=
    if flag result.success then
      showNotification (message ++ "✅ Success!\n" ++ result.stdout.text) "success" g
    else
      showNotification (message ++ "❌ Error!\n" ++ (result.stderr.or result.error).text)
        "error" g
  logToHistory env result g1

/-- The method `markCommandAsExecuted(command)`. -/
def markCommandAsExecuted (env : Env) (command : String) (g : GitIntegration) :
    GitIntegration :=
  let g1 := logToHistory env
    { CommandResult.empty with
      command := .str command, success := some true, stdout := .str "Manually executed",
      manual := some true } g
  showNotification "Command marked as executed" "info" g1

/-- The result object built in the callback of `exec`. -/
def localResult (command : String) (p : ProcExit) : CommandResult :=
  { CommandResult.empty with
    command := .str command
    success := some p.error.isNone
    stdout := .str (jsTrim p.stdout)
    stderr := .str (jsTrim p.stderr)
    error := match p.error with
      | some m => .str m
      | none => .null }

/-- The result object of the manual fallback. -/
def manualResult (command : String) : CommandResult :=
  { CommandResult.empty with
    command := .str command
    success := some true
    stdout := .str "Command prepared for manual execution"
    manual := some true }

/-- The method `executeViaServer(command, options)`, given the reply of the service. -/
def executeViaServer (reply : FetchReply) : Except Thrown CommandResult :=
  match reply with
  | .networkError m => .error (.error "TypeError" m)
  | .notOk statusText => .error (.error "Error" ("Server error: " ++ statusText))
  | .badJson m => .error (.error "SyntaxError" m)
  | .ok body => .ok body

/-- The method `executeCommand(command, options)`. The default of `cwd` is evaluated first
and throws where `process` is not defined; then the command goes to the process backend, to
the service, or to the manual dialog. -/
def executeCommand (env : Env) (command : String) (options : Options) (g : GitIntegration) :
    Except Thrown CommandResult × GitIntegration :=
  let showOutput := options.showOutput.getD true
  match options.cwd.orElse (fun _ => env.processCwd) with
  | none => (.error (.error "ReferenceError" "process is not defined"), g)
  | some _ =>
    if g.canExecuteCommands then
      let p := env.exec g.issued.length command
      let result := localResult command p
      let g1 := { g with issued := g.issued ++ [command] }
      let g2 := if showOutput then displayCommandResult env result g1 else g1
      if p.error.isSome then (.error (.result result), g2) else (.ok result, g2)
    else if flag g.serverAvailable then
      let reply := env.fetch g.issued.length command
      (executeViaServer reply, { g with issued := g.issued ++ [command] })
    else
      (.ok (manualResult command), { g with issued := g.issued ++ [command] })

/-- The five queries of `getGitStatus`, in the order of the array. -/
def statusCommands : List String :=
  ["git branch --show-current", "git status --porcelain", "git branch -a",
    "git log --oneline -5", "git stash list"]

/-- The expression `r.stdout.split('\n').filter(line => line.trim())`, which throws when
`stdout` is not a string. -/
def stdoutLines (r : CommandResult) : Except Thrown (List String) :=
  match r.stdout with
  | .str s => .ok (nonBlankLines s)
  | _ => .error (.error "TypeError" "Cannot read properties of undefined")

/-- The object literal assigned to `currentStatus`, fields evaluated in source order. -/
def composeStatus (now : String)
    (currentBranch statusFiles branches recentCommits stashes : CommandResult) :
    Except Thrown GitStatus := do
  let branch := (currentBranch.stdout.or (.str "unknown")).text
  let files ← stdoutLines statusFiles
  let all ← stdoutLines branches
  let commits ← stdoutLines recentCommits
  let stashed ← stdoutLines stashes
  let clean ← match statusFiles.stdout with
    | .str s => pure (jsTrim s == "")
    | _ => throw (.error "TypeError" "Cannot read properties of undefined")
  pure
    { currentBranch := branch
      uncommittedFiles := files.length
      totalBranches := all.length
      recentCommits := commits
      stashCount := stashed.length
      isClean := clean
      timestamp := now }

/-- The method `getGitStatus()`: the five queries are issued, all are awaited, and the
snapshot is stored only when none rejected and the object literal was built. -/
def getGitStatus (env : Env) (g : GitIntegration) : Option GitStatus × GitIntegration :=
  let quiet : Options := ⟨some false, none⟩
  let (r1, g1) := executeCommand env "git branch --show-current" quiet g
  let (r2, g2) := executeCommand env "git status --porcelain" quiet g1
  let (r3, g3) := executeCommand env "git branch -a" quiet g2
  let (r4, g4) := executeCommand env "git log --oneline -5" quiet g3
  let (r5, g5) := executeCommand env "git stash list" quiet g4
  match r1, r2, r3, r4, r5 with
  | .ok currentBranch, .ok statusFiles, .ok branches, .ok recentCommits, .ok stashes =>
    match composeStatus (env.now g5.ticks) currentBranch statusFiles branches recentCommits
      stashes with
    | .ok status => (some status, { g5 with currentStatus := some status, ticks := g5.ticks + 1 })
    | .error _ => (none, g5)
  | _, _, _, _, _ => (none, g5)

/-- The method `updateStatusDisplay()`. -/
def updateStatusDisplay (g : GitIntegration) : GitIntegration :=
  match g.currentStatus with
  | none => g
  | some st => { g with display := some (st.currentBranch, st.totalBranches, st.uncommittedFiles) }

/-- The method `triggerStatusUpdate()`. -/
def triggerStatusUpdate (g : GitIntegration) : GitIntegration :=
  { g with dispatched := g.dispatched ++ [g.currentStatus] }

/-- The method `refreshStatus()`. -/
def refreshStatus (env : Env) (g : GitIntegration) : GitIntegration :=
  triggerStatusUpdate (updateStatusDisplay (getGitStatus env g).2)


/-- The method `getBranchType(branchName)`. -/
def getBranchType (branchName : String) : String :=
  if ["main", "master", "staging", "develop", "draft"].contains branchName then "core"
  else if jsStartsWith branchName "feature/" then "feature"
  else if jsStartsWith branchName "experiment/" then "experiment"
  else if jsStartsWith branchName "personal/" then "personal"
  else if jsStartsWith branchName "hotfix/" then "hotfix"
  else "other"

/-- The method `getCurrentUser()`. -/
def getCurrentUser : String :=
  "user"

/-- The loop `for (const command of commands) await this.executeCommand(command)` inside a
`try`: the first rejection leaves the loop. -/
def runCommands (env : Env) : List String → GitIntegration → Except Thrown Unit × GitIntegration
  | [], g => (.ok (), g)
  | command :: rest, g =>
    match executeCommand env command ⟨none, none⟩ g with
    | (.ok _, g1) => runCommands env rest g1
    | (.error e, g1) => (.error e, g1)

/-- The expression `error.stderr || error.error` inside a template literal, for the value
caught by a compound operation. -/
def errorText (e : Thrown) : String :=
  match e with
  | .result r => (r.stderr.or r.error).text
  | .error _ _ => "undefined"

/-- The name `fullBranchName` of `createBranch`. -/
def fullBranchName (branchName branchType : String) : String :=
  if branchType = "personal" then "personal/" ++ getCurrentUser ++ "/" ++ branchName
  else branchType ++ "/" ++ branchName

/-- The array `commands` of `createBranch`. -/
def createBranchCommands (startFrom full : String) : List String :=
  ["git checkout " ++ startFrom, "git pull origin " ++ startFrom, "git checkout -b " ++ full]

/-- The method `createBranch(branchName, startFrom = 'develop', branchType = 'feature')`. -/
def createBranch (env : Env) (branchName : String) (startFrom branchType : Option String)
    (g : GitIntegration) : OpResult × GitIntegration :=
  let startFrom := startFrom.getD "develop"
  let branchType := branchType.getD "feature"
  let full := fullBranchName branchName branchType
  match runCommands env (createBranchCommands startFrom full) g with
  | (.ok _, g1) =>
    let g2 := showNotification ("✅ Created branch: " ++ full) "success" g1
    (⟨true, some full, none⟩, refreshStatus env g2)
  | (.error e, g1) =>
    (⟨false, none, some e⟩,
      showNotification ("❌ Failed to create branch: " ++ errorText e) "error" g1)

/-- The commands `commitChanges` hands to `executeCommand`, in order. -/
def commitCommands (commitMessage : String) (addAll : Bool) : List String :=
  (if addAll then ["git add ."] else []) ++ ["git commit -m \"" ++ commitMessage ++ "\""]

/-- The method `commitChanges(message, type = 'feat', addAll = true)`. -/
def commitChanges (env : Env) (message : String) (type : Option String) (addAll : Option Bool)
    (g : GitIntegration) : OpResult × GitIntegration :=
  let type := type.getD "feat"
  let addAll := addAll.getD true
  let commitMessage := type ++ ": " ++ message
  match runCommands env (commitCommands commitMessage addAll) g with
  | (.ok _, g1) =>
    let g2 := showNotification ("✅ Committed: " ++ commitMessage) "success" g1
    (⟨true, none, none⟩, refreshStatus env g2)
  | (.error e, g1) =>
    (⟨false, none, some e⟩, showNotification ("❌ Commit failed: " ++ errorText e) "error" g1)

/-- The array `commands` of `mergeBranch`. -/
def mergeBranchCommands (sourceBranch targetBranch strategy : String) : List String :=
  ["git checkout " ++ targetBranch, "git pull origin " ++ targetBranch,
    "git merge " ++ strategy ++ " " ++ sourceBranch, "git push origin " ++ targetBranch]

/-- The method `mergeBranch(sourceBranch, targetBranch = 'develop', strategy = '--no-ff')`. -/
def mergeBranch (env : Env) (sourceBranch : String) (targetBranch strategy : Option String)
    (g : GitIntegration) : OpResult × GitIntegration :=
  let targetBranch := targetBranch.getD "develop"
  let strategy := strategy.getD "--no-ff"
  match runCommands env (mergeBranchCommands sourceBranch targetBranch strategy) g with
  | (.ok _, g1) =>
    let g2 := showNotification ("✅ Merged " ++ sourceBranch ++ " into " ++ targetBranch)
      "success" g1
    (⟨true, none, none⟩, refreshStatus env g2)
  | (.error e, g1) =>
    (⟨false, none, some e⟩, showNotification ("❌ Merge failed: " ++ errorText e) "error" g1)

/-- A name begins with `p` when its first `p.length` characters are those of `p`. -/
def beginsWith (name p : String) : Bool :=
  name.data.take p.data.length = p.data

/-- The classifier as the specification words it: an ordered list of rules, each a test and
the type it gives. -/
def classifierRules : List ((String → Bool) × String) :=
  [ (fun name => name ∈ ["main", "master", "staging", "develop", "draft"], "core"),
    (fun name => beginsWith name "feature/", "feature"),
    (fun name => beginsWith name "experiment/", "experiment"),
    (fun name => beginsWith name "personal/", "personal"),
    (fun name => beginsWith name "hotfix/", "hotfix") ]

/-- The first rule that matches wins; `other` when none does. -/
def classifyFirstMatch (name : String) : String :=
  match classifierRules.find? (fun rule => rule.1 name) with
  | some rule => rule.2
  | none => "other"

end GitIntegration

/-! ## `RealGitExecutor` (real-git-executor.js) -/

/-- An element of `commandHistory`: pushed by `logCommand` or by `logResult`. -/
inductive LogEntry where
  | command (command description timestamp : String)
  | result (r : CommandResult)
  deriving DecidableEq, Repr

/-- The second argument of `executeGitCommand`. -/
structure GitOptions where
  showCommand : Option Bool
  autoExecute : Option Bool
  tutorial : Option Bool
  description : Option String
  deriving DecidableEq, Repr

/-- The call bound to a tutorial step as its `action`, in the four shapes the tutorials use:
`executeGitCommand(command, { tutorial: true })`, `createBranch(branchName)`,
`commitChanges(type, message)` and `mergeBranch(sourceBranch)`. -/
inductive TutorialAction where
  | executeGitCommand (command : String)
  | createBranch (branchName : String)
  | commitChanges (type message : String)
  | mergeBranch (sourceBranch : String)
  deriving DecidableEq, Repr

/-- An element of a tutorial: `action` and `highlight` are `null` in some steps. -/
structure TutorialStep where
  title : String
  content : String
  action : Option TutorialAction
  highlight : Option String
  deriving DecidableEq, Repr

/-- A value of `currentTutorial`: an array of steps, or what the lookup `tutorials[name]`
finds on `Object.prototype` under a name that is not in the table, a function (its `length`
is its arity) or the prototype object itself (no `length`); such a value has no element. -/
inductive Tutorial where
  | steps (steps : List TutorialStep)
  | inherited (length : Option Nat)
  deriving DecidableEq, Repr

/-- An object of class `RealGitExecutor` with what it writes to: `dialogs` are the commands
of the dialogs appended to the page, `executed` the commands handed to `exec`,
`notifications` the calls of `showNotification`, `ticks` the number of clock readings,
`popup` the step of the tutorial popup on the page, `highlight` the selector last handed to
`highlightElement` and not yet cleared. `currentTutorial` is `none` until `startTutorial`
assigns it. -/
structure RealGitExecutor where
  canExecuteDirectly : Bool
  commandHistory : List LogEntry
  tutorialActive : Bool
  currentTutorialStep : Nat
  currentTutorial : Option Tutorial
  dialogs : List String
  executed : List String
  notifications : List (String × String)
  ticks : Nat
  popup : Option TutorialStep
  highlight : Option String
  deriving DecidableEq, Repr

namespace RealGitExecutor

/-- The state the constructor leaves, for either outcome of `typeof require`. -/
def init (canExecuteDirectly : Bool) : RealGitExecutor :=
  { canExecuteDirectly := canExecuteDirectly
    commandHistory := []
    tutorialActive := false
    currentTutorialStep := 0
    currentTutorial := none
    dialogs := []
    executed := []
    notifications := []
    ticks := 0
    popup := none
    highlight := none }

/-- The method `logCommand(command, description)`. -/
def logCommand (env : Env) (command description : String) (r : RealGitExecutor) :
    RealGitExecutor :=
  { r with
    commandHistory := r.commandHistory ++ [.command command description (env.now r.ticks)]
    ticks := r.ticks + 1 }

/-- The method `logResult(result)`: push, then keep the last 100. -/
def logResult (result : CommandResult) (r : RealGitExecutor) : RealGitExecutor :=
  let history := r.commandHistory ++ [.result result]
  let history := if history.length > 100 then history.drop (history.length - 100) else history
  { r with commandHistory := history }

/-- The names `simulations[command]` finds on `Object.prototype` rather than in the table. -/
def objectPrototypeKeys : List String :=
  ["constructor", "__defineGetter__", "__defineSetter__", "hasOwnProperty",
    "__lookupGetter__", "__lookupSetter__", "isPrototypeOf", "propertyIsEnumerable",
    "toString", "valueOf", "__proto__", "toLocaleString"]

/-- The value of `simulations[command] || fallback` in `simulateExecution`, before `command`
and `timestamp` are set on it. -/
def simulationFor (command : String) : CommandResult :=
  if command = "git status" then
    { CommandResult.empty with
      success := some true
      stdout := .str ("On branch develop\nYour branch is up to date with " ++
        "\x27origin/develop\x27.\n\nnothing to commit, working tree clean") }
  else if command = "git branch" then
    { CommandResult.empty with
      success := some true, stdout := .str "  main\n* develop\n  feature/user-auth" }
  else if command = "git log --oneline -5" then
    { CommandResult.empty with
      success := some true
      stdout := .str ("abc123f feat: add user authentication\ndef456a fix: resolve login " ++
        "timeout\nghi789b docs: update README") }
  else if objectPrototypeKeys.contains command then CommandResult.empty
  else
    { CommandResult.empty with
      success := some true
      stdout := .str ("Simulated execution of: " ++ command)
      stderr := .str ""
      simulated := some true }

/-- The method `simulateExecution(command)`. -/
def simulateExecution (env : Env) (command : String) (r : RealGitExecutor) :
    CommandResult × RealGitExecutor :=
  let result :=
    { simulationFor command with command := .str command, timestamp := .str (env.now r.ticks) }
  (result, logResult result { r with ticks := r.ticks + 1 })

/-- The method `executeDirectly(command)`. -/
def executeDirectly (env : Env) (command : String) (r : RealGitExecutor) :
    CommandResult × RealGitExecutor :=
  if !r.canExecuteDirectly then simulateExecution env command r
  else
    let p := env.exec r.executed.length command
    let result : CommandResult :=
      { CommandResult.empty with
        command := .str command
        success := some p.error.isNone
        stdout := .str (jsTrim p.stdout)
        stderr := .str (jsTrim p.stderr)
        error := match p.error with
          | some m => .str m
          | none => .null
        timestamp := .str (env.now r.ticks) }
    (result, logResult result { r with executed := r.executed ++ [command], ticks := r.ticks + 1 })

/-- The method `showCommandDialog(command, description, tutorial)`, settled by the click the
environment gives: Execute runs the command and resolves with its result, Cancel resolves
with the object whose only field is `cancelled`. -/
def showCommandDialog (env : Env) (command : String) (r : RealGitExecutor) :
    CommandResult × RealGitExecutor :=
  let r1 := { r with dialogs := r.dialogs ++ [command] }
  match env.dialog r.dialogs.length command with
  | .execute => executeDirectly env command r1
  | .cancel => ({ CommandResult.empty with cancelled := some true }, r1)

/-- The method `executeGitCommand(command, options)`. -/
def executeGitCommand (env : Env) (command : String) (options : GitOptions)
    (r : RealGitExecutor) : CommandResult × RealGitExecutor :=
  let showCommand := options.showCommand.getD true
  let autoExecute := options.autoExecute.getD false
  let description := options.description.getD ""
  let r1 := logCommand env command description r
  if showCommand && !autoExecute then showCommandDialog env command r1
  else if r1.canExecuteDirectly && autoExecute then executeDirectly env command r1
  else simulateExecution env command r1

/-- The condition under which the loop of a compound operation breaks. -/
def stops (result : CommandResult) : Bool :=
  !flag result.success && !flag result.cancelled

/-- The loop shared by `createBranch`, `commitChanges` and `mergeBranch`: run the command,
push its result, break when the result is neither a success nor a cancellation. -/
def runCommands (env : Env) (description : String) :
    List String → List CommandResult → RealGitExecutor → List CommandResult × RealGitExecutor
  | [], results, r => (results, r)
  | command :: rest, results, r =>
    let (result, r1) := executeGitCommand env command ⟨some true, none, none, some description⟩ r
    let results := results ++ [result]
    if stops result then (results, r1) else runCommands env description rest results r1

/-- The array `commands` of `createBranch`. -/
def createBranchCommands (branchName startFrom : String) : List String :=
  ["git checkout " ++ startFrom, "git pull origin " ++ startFrom,
    "git checkout -b " ++ branchName]

/-- The method `createBranch(branchName, startFrom = 'develop')`. -/
def createBranch (env : Env) (branchName : String) (startFrom : Option String)
    (r : RealGitExecutor) : List CommandResult × RealGitExecutor :=
  let startFrom := startFrom.getD "develop"
  runCommands env ("Creating branch " ++ branchName ++ " from " ++ startFrom)
    (createBranchCommands branchName startFrom) [] r

/-- The array `commands` of `commitChanges`. -/
def commitCommands (type message files : String) : List String :=
  ["git add " ++ files, "git commit -m \"" ++ type ++ ": " ++ message ++ "\""]

/-- The method `commitChanges(type, message, files = '.')`. -/
def commitChanges (env : Env) (type message : String) (files : Option String)
    (r : RealGitExecutor) : List CommandResult × RealGitExecutor :=
  let files := files.getD "."
  runCommands env ("Committing changes: " ++ type ++ ": " ++ message)
    (commitCommands type message files) [] r

/-- The array `commands` of `mergeBranch`. -/
def mergeBranchCommands (sourceBranch targetBranch : String) : List String :=
  ["git checkout " ++ targetBranch, "git pull origin " ++ targetBranch,
    "git merge --no-ff " ++ sourceBranch, "git push origin " ++ targetBranch]

/-- The method `mergeBranch(sourceBranch, targetBranch = 'develop')`. -/
def mergeBranch (env : Env) (sourceBranch : String) (targetBranch : Option String)
    (r : RealGitExecutor) : List CommandResult × RealGitExecutor :=
  let targetBranch := targetBranch.getD "develop"
  runCommands env ("Merging " ++ sourceBranch ++ " to " ++ targetBranch)
    (mergeBranchCommands sourceBranch targetBranch) [] r


/-- The object a cancelled dialog resolves with. -/
def cancelledResult : CommandResult :=
  { CommandResult.empty with cancelled := some true }

/-- Abort on first failure, for a run of `commands` from state `before` that ended in state
`after` and returned `results`: the dialogs shown are exactly those of the first
`results.length` commands, entry `k` of the results answers command `k` (it is the
cancellation object or carries that command), an entry on which the loop breaks is the last
one, and when the loop breaks on no entry there is one entry per command. -/
def StopsAtFirstFailure (commands : List String) (before after : RealGitExecutor)
    (results : List CommandResult) : Prop :=
  results.length ≤ commands.length ∧
  after.dialogs = before.dialogs ++ commands.take results.length ∧
  List.Forall₂ (fun result command => result = cancelledResult ∨ result.command = .str command)
    results (commands.take results.length) ∧
  (∀ k result, results[k]? = some result → stops result = true → results.length = k + 1) ∧
  ((∀ result ∈ results, stops result = false) → results.length = commands.length)

end RealGitExecutor

namespace GitIntegration

/-- The settled value of the query of `getGitStatus` that is issued after `i` others: a
query with `showOutput: false` writes nothing but the list of issued commands. -/
def statusQuery (env : Env) (g : GitIntegration) (i : Nat) (command : String) :
    Except Thrown CommandResult :=
  (executeCommand env command ⟨some false, none⟩
    { g with issued := g.issued ++ statusCommands.take i }).1

/-- The snapshot built from the five settled queries alone: there is none when a query
rejected or when building the object literal threw. -/
def composedStatus (env : Env) (g : GitIntegration) : Option GitStatus :=
  match statusQuery env g 0 "git branch --show-current",
    statusQuery env g 1 "git status --porcelain", statusQuery env g 2 "git branch -a",
    statusQuery env g 3 "git log --oneline -5", statusQuery env g 4 "git stash list" with
  | .ok currentBranch, .ok statusFiles, .ok branches, .ok recentCommits, .ok stashes =>
    (composeStatus (env.now g.ticks) currentBranch statusFiles branches recentCommits
      stashes).toOption
  | _, _, _, _, _ => none

/-- A line is blank when every character of it is white space. -/
def isBlank (line : String) : Bool :=
  line.data.all jsIsWhiteSpace

/-- The lines of an output that are not blank, in their order. -/
def linesNotBlank (output : String) : List String :=
  (jsSplit '\n' output).filter fun line => !isBlank line

end GitIntegration

/-! ## `GitIntegration`: branch list, pull and push, choice of the backend -/

/-- An element of the list `getBranches` returns. -/
structure BranchInfo where
  name : String
  lastCommit : String
  author : String
  subject : String
  type : String
  isCurrent : Bool
  deriving DecidableEq, Repr

/-- The method `array.map(f)` for a callback that may throw: the first throw ends the
traversal. -/
def mapThrowing {α β : Type} (f : α → Except Thrown β) : List α → Except Thrown (List β)
  | [] => .ok []
  | a :: rest =>
    match f a with
    | .error e => .error e
    | .ok b =>
      match mapThrowing f rest with
      | .error e => .error e
      | .ok bs => .ok (b :: bs)

/-- What `response.ok` of the liveness probe was, or that `fetch` threw. -/
inductive ProbeReply where
  | response (ok : Bool)
  | failed
  deriving DecidableEq, Repr

/-- The three execution variants of the specification. -/
inductive Variant where
  | localProcess
  | remote
  | manual
  deriving DecidableEq, Repr

namespace GitIntegration

/-- The state the constructor leaves, before the liveness probe has answered. -/
def init (canExecuteCommands : Bool) : GitIntegration :=
  { canExecuteCommands := canExecuteCommands
    serverAvailable := none
    currentStatus := none
    history := []
    notifications := []
    issued := []
    display := none
    dispatched := []
    ticks := 0 }

/-- The method `testServerConnection()`, given the reply to the probe. -/
def testServerConnection (reply : ProbeReply) (g : GitIntegration) : GitIntegration :=
  match reply with
  | .response ok => { g with serverAvailable := some ok }
  | .failed => { g with serverAvailable := some false }

/-- The query of `getBranches`. -/
def branchListCommand : String :=
  "git for-each-ref --format=\"%(refname:short)|%(committerdate:relative)|%(authorname)|" ++
    "%(subject)\" refs/heads/"

/-- The callback of `map` in `getBranches`: the first four fields of the line are bound;
`trim` of a field the line does not have throws. -/
def branchInfo (g : GitIntegration) (line : String) : Except Thrown BranchInfo :=
  match jsSplit '|' line with
  | name :: date :: author :: subject :: _ =>
    .ok
      { name := jsTrim name
        lastCommit := jsTrim date
        author := jsTrim author
        subject := jsTrim subject
        type := getBranchType (jsTrim name)
        isCurrent := match g.currentStatus with
          | some status => decide (jsTrim name = status.currentBranch)
          | none => false }
  | _ => .error (.error "TypeError" "Cannot read properties of undefined (reading trim)")

/-- The method `getBranches()`: whatever is thrown inside is caught and gives `[]`. -/
def getBranches (env : Env) (g : GitIntegration) : List BranchInfo × GitIntegration :=
  match executeCommand env branchListCommand ⟨some false, none⟩ g with
  | (.ok result, g1) =>
    match result.stdout with
    | .str output =>
      match mapThrowing (branchInfo g1) (nonBlankLines output) with
      | .ok infos => (infos, g1)
      | .error _ => ([], g1)
    | _ => ([], g1)
  | (.error _, g1) => ([], g1)

/-- The method `pullLatest()`. -/
def pullLatest (env : Env) (g : GitIntegration) : OpResult × GitIntegration :=
  let currentBranch := currentBranchOr "main" g
  match executeCommand env ("git pull origin " ++ currentBranch) ⟨none, none⟩ g with
  | (.ok _, g1) =>
    let g2 := showNotification ("✅ Pulled latest changes for " ++ currentBranch) "success" g1
    (⟨true, none, none⟩, refreshStatus env g2)
  | (.error e, g1) =>
    (⟨false, none, some e⟩, showNotification ("❌ Pull failed: " ++ errorText e) "error" g1)

/-- The method `pushChanges()`. -/
def pushChanges (env : Env) (g : GitIntegration) : OpResult × GitIntegration :=
  let currentBranch := currentBranchOr "main" g
  match executeCommand env ("git push origin " ++ currentBranch) ⟨none, none⟩ g with
  | (.ok _, g1) =>
    let g2 := showNotification ("✅ Pushed changes to " ++ currentBranch) "success" g1
    (⟨true, none, none⟩, refreshStatus env g2)
  | (.error e, g1) =>
    (⟨false, none, some e⟩, showNotification ("❌ Push failed: " ++ errorText e) "error" g1)

/-- The resolution order of the specification: Local if process execution is present, else
Remote if the cached probe succeeded, else Manual. -/
def resolveVariant (canExecute : Bool) (probe : Option Bool) : Variant :=
  if canExecute then .localProcess
  else if probe = some true then .remote
  else .manual

/-- What a command settles with under a variant, when `n` commands were issued before: the
exit of the process, the reply of the service, or the placeholder of the manual dialog. -/
def variantOutcome (env : Env) (variant : Variant) (n : Nat) (command : String) :
    Except Thrown CommandResult :=
  match variant with
  | .localProcess =>
    if (env.exec n command).error.isSome then
      .error (.result (localResult command (env.exec n command)))
    else .ok (localResult command (env.exec n command))
  | .remote => executeViaServer (env.fetch n command)
  | .manual => .ok (manualResult command)

end GitIntegration

/-! ## `RealGitExecutor`: tutorial system -/

namespace RealGitExecutor

/-- The method `showNotification(message, type)`. -/
def showNotification (message type : String) (r : RealGitExecutor) : RealGitExecutor :=
  { r with notifications := r.notifications ++ [(message, type)] }

/-- The method `getBasicWorkflowTutorial()`. -/
def getBasicWorkflowTutorial : List TutorialStep :=
  [ { title := "Welcome to Git Workflow Tutorial!"
      content := "Let\x27s learn the basic Git workflow with real commands."
      action := none
      highlight := some ".dashboard-nav" },
    { title := "Check Current Status"
      content := "First, let\x27s see what\x27s happening in your repository."
      action := some (.executeGitCommand "git status")
      highlight := some ".status-bar" },
    { title := "Create a Feature Branch"
      content := "Now let\x27s create a new feature branch for our work."
      action := some (.createBranch "tutorial/my-first-feature")
      highlight := some ".action-card:first-child" },
    { title := "Make Some Changes"
      content := "In a real workflow, you\x27d edit files here. For the tutorial, " ++
        "we\x27ll simulate this."
      action := none
      highlight := none },
    { title := "Commit Your Changes"
      content := "Let\x27s commit our changes with a good commit message."
      action := some (.commitChanges "feat" "add tutorial feature")
      highlight := some ".action-card:nth-child(2)" },
    { title := "Tutorial Complete!"
      content := "Great! You\x27ve completed the basic workflow. Try the other tutorials next."
      action := none
      highlight := none } ]

/-- The method `getIndividualChaosTutorial()`. -/
def getIndividualChaosTutorial : List TutorialStep :=
  [ { title := "Individual Developer Workflow"
      content := "Learn how to manage personal experiments and chaos!"
      action := none
      highlight := none },
    { title := "Create Personal Branch"
      content := "Personal branches are your playground - experiment freely!"
      action := some (.createBranch "personal/tutorial/crazy-experiment")
      highlight := some ".individual-tools" },
    { title := "Make Messy Commits"
      content := "In personal branches, commit often with any message."
      action := some (.commitChanges "WIP" "trying this approach")
      highlight := none },
    { title := "Backup Your Work"
      content := "Always backup before cleanup!"
      action := some
        (.executeGitCommand "git checkout -b backup/personal-tutorial-$(date +%Y%m%d)")
      highlight := none },
    { title := "Clean Up for Delivery"
      content := "Now create a clean feature branch and cherry-pick good commits."
      action := some (.createBranch "feature/tutorial-cleaned-up")
      highlight := none } ]

/-- The method `getTeamCoordinationTutorial()`. -/
def getTeamCoordinationTutorial : List TutorialStep :=
  [ { title := "Team Coordination"
      content := "Learn how teams work together effectively!"
      action := none
      highlight := some ".team-dashboard" },
    { title := "Check Team Status"
      content := "Always check what the team is doing before starting work."
      action := some (.executeGitCommand "git fetch --all")
      highlight := none },
    { title := "Coordinate Branch Creation"
      content := "Create branches with clear, descriptive names."
      action := some (.createBranch "feature/team-tutorial-coordination")
      highlight := none },
    { title := "Safe Merge Process"
      content := "Always merge safely with proper review process."
      action := some (.mergeBranch "feature/team-tutorial-coordination")
      highlight := none } ]

/-- The property `length` of the member of `Object.prototype` with the given name: the arity
of the function, nothing for `__proto__`, which is the prototype object. -/
def inheritedLength (name : String) : Option Nat :=
  if name = "__proto__" then none
  else if name = "toString" ∨ name = "valueOf" ∨ name = "toLocaleString" then some 0
  else if name = "__defineGetter__" ∨ name = "__defineSetter__" then some 2
  else some 1

/-- The expression `tutorials[tutorialName] || tutorials['basic-workflow']`: the lookup
finds the three entries of the table and the members of `Object.prototype`, all of them
truthy; any other name gives `undefined` and with it the basic workflow. -/
def tutorialNamed (tutorialName : String) : Tutorial :=
  if tutorialName = "basic-workflow" then .steps getBasicWorkflowTutorial
  else if tutorialName = "individual-chaos" then .steps getIndividualChaosTutorial
  else if tutorialName = "team-coordination" then .steps getTeamCoordinationTutorial
  else if objectPrototypeKeys.contains tutorialName then
    .inherited (inheritedLength tutorialName)
  else .steps getBasicWorkflowTutorial

/-- The method `endTutorial()`. -/
def endTutorial (r : RealGitExecutor) : RealGitExecutor :=
  showNotification "Tutorial completed! 🎉" "success"
    { r with tutorialActive := false, currentTutorialStep := 0, popup := none, highlight := none }

/-- The method `highlightElement(selector)`. -/
def highlightElement (selector : String) (r : RealGitExecutor) : RealGitExecutor :=
  { r with highlight := some selector }

/-- The method `showTutorialPopup(step)` for a step that exists: the popup on the page is
replaced and the target of the step, if it has one, is highlighted. -/
def showTutorialPopup (step : TutorialStep) (r : RealGitExecutor) : RealGitExecutor :=
  let r1 := { r with popup := some step }
  match step.highlight with
  | some selector => if jsTruthy selector then highlightElement selector r1 else r1
  | none => r1

/-- The method `showTutorialPopup(undefined)`: the popup on the page is removed, then reading
`step.title` throws. -/
def showTutorialPopupUndefined (r : RealGitExecutor) : Except Thrown Unit × RealGitExecutor :=
  (.error (.error "TypeError" "Cannot read properties of undefined (reading title)"),
    { r with popup := none })

/-- The method `showTutorialStep()`. Reading `length` of a `currentTutorial` that was never
assigned throws; the comparison with a missing `length` is false. -/
def showTutorialStep (r : RealGitExecutor) : Except Thrown Unit × RealGitExecutor :=
  if !r.tutorialActive then (.ok (), endTutorial r)
  else
    match r.currentTutorial with
    | none =>
      (.error (.error "TypeError" "Cannot read properties of undefined (reading length)"), r)
    | some (.steps steps) =>
      if r.currentTutorialStep ≥ steps.length then (.ok (), endTutorial r)
      else
        match steps[r.currentTutorialStep]? with
        | some step => (.ok (), showTutorialPopup step r)
        | none => showTutorialPopupUndefined r
    | some (.inherited (some length)) =>
      if r.currentTutorialStep ≥ length then (.ok (), endTutorial r)
      else showTutorialPopupUndefined r
    | some (.inherited none) => showTutorialPopupUndefined r

/-- The method `startTutorial(tutorialName)`. -/
def startTutorial (tutorialName : String) (r : RealGitExecutor) :
    Except Thrown Unit × RealGitExecutor :=
  showTutorialStep
    { r with
      tutorialActive := true
      currentTutorialStep := 0
      currentTutorial := some (tutorialNamed tutorialName) }

/-- The method `nextTutorialStep()`. -/
def nextTutorialStep (r : RealGitExecutor) : Except Thrown Unit × RealGitExecutor :=
  showTutorialStep { r with currentTutorialStep := r.currentTutorialStep + 1 }

/-- The state after `k` calls of `nextTutorialStep`, the Next button pressed `k` times. -/
def advances : Nat → RealGitExecutor → RealGitExecutor
  | 0, r => r
  | k + 1, r => advances k (nextTutorialStep r).2

end RealGitExecutor

/-! ## `RealGitExecutor`: the action of a step, sequences of calls -/

/-- A call of one of the two logging methods of `RealGitExecutor`. -/
inductive LogCall where
  | command (command description : String)
  | result (result : CommandResult)
  deriving DecidableEq, Repr

/-- A call of one of the three tutorial methods: `startTutorial(name)`,
`nextTutorialStep()`, `endTutorial()`. -/
inductive TutorialCall where
  | start (tutorialName : String)
  | next
  | skip
  deriving DecidableEq, Repr

namespace RealGitExecutor

/-- The call `await step.action()` of the handler of the Try It! button, for the four
shapes of action; parameters the action leaves out take their defaults. -/
def runAction (env : Env) (action : TutorialAction) (r : RealGitExecutor) : RealGitExecutor :=
  match action with
  | .executeGitCommand command =>
    (executeGitCommand env command ⟨none, none, some true, none⟩ r).2
  | .createBranch branchName => (createBranch env branchName none r).2
  | .commitChanges type message => (commitChanges env type message none r).2
  | .mergeBranch sourceBranch => (mergeBranch env sourceBranch none r).2

/-- The handler installed on the Try It! button of the popup of `step`: the action is
awaited, then `nextTutorialStep()` is called. A step without action has no such button. -/
def runStepAction (env : Env) (step : TutorialStep) (r : RealGitExecutor) :
    Except Thrown Unit × RealGitExecutor :=
  match step.action with
  | some action => nextTutorialStep (runAction env action r)
  | none => (.ok (), r)

/-- The state `r` with the four logs (command history, dialogs shown, commands executed,
clock readings) of another state. -/
def withLogsOf (r logs : RealGitExecutor) : RealGitExecutor :=
  { r with
    commandHistory := logs.commandHistory
    dialogs := logs.dialogs
    executed := logs.executed
    ticks := logs.ticks }

/-- The state after one call of a logging method. -/
def logCall (env : Env) (call : LogCall) (r : RealGitExecutor) : RealGitExecutor :=
  match call with
  | .command command description => logCommand env command description r
  | .result result => logResult result r

/-- The state after a sequence of calls of the logging methods. -/
def logCalls (env : Env) (calls : List LogCall) (r : RealGitExecutor) : RealGitExecutor :=
  calls.foldl (fun r call => logCall env call r) r

/-- The state after `n` calls `executeGitCommand(command)` in a row. -/
def repeatCommand (env : Env) (command : String) : Nat → RealGitExecutor → RealGitExecutor
  | 0, r => r
  | n + 1, r =>
    repeatCommand env command n (executeGitCommand env command ⟨none, none, none, none⟩ r).2

/-- The state after one call of a tutorial method; what the call throws is not the
business of the next call. -/
def tutorialCall (call : TutorialCall) (r : RealGitExecutor) : RealGitExecutor :=
  match call with
  | .start tutorialName => (startTutorial tutorialName r).2
  | .next => (nextTutorialStep r).2
  | .skip => endTutorial r

/-- The state after a sequence of calls of the tutorial methods. -/
def tutorialCalls (calls : List TutorialCall) (r : RealGitExecutor) : RealGitExecutor :=
  calls.foldl (fun r call => tutorialCall call r) r

/-- The value of `this.currentTutorial.length`, when there is one. -/
def tutorialLength (r : RealGitExecutor) : Option Nat :=
  match r.currentTutorial with
  | some (.steps steps) => some steps.length
  | some (.inherited length) => length
  | none => none

/-- The invariant of the tutorial state: an active session has its index below the length
of the loaded sequence, an inactive one has index 0. -/
def tutorialInvariant (r : RealGitExecutor) : Bool :=
  if r.tutorialActive then
    match tutorialLength r with
    | some length => decide (r.currentTutorialStep < length)
    | none => false
  else r.currentTutorialStep == 0

/-- The step at the current index exists and is the one in the popup. -/
def stepDisplayed (r : RealGitExecutor) : Bool :=
  match r.currentTutorial with
  | some (.steps steps) =>
    match steps[r.currentTutorialStep]? with
    | some step => r.popup == some step
    | none => false
  | _ => false

end RealGitExecutor

/-! ## Sample environments and states -/

namespace Samples

/-- A clock that always shows the same instant. -/
def noon : Nat → String :=
  fun _ => "2024-01-01T12:00:00.000Z"

/-- A process exit without error and without output. -/
def quietExit : ProcExit :=
  ⟨none, "", ""⟩

/-- A host with process execution where the second command issued fails and where the user
clicks Execute in every dialog. -/
def pullFails : Env :=
  { processCwd := some "/repo"
    exec := fun n _ =>
      if n = 1 then ⟨some "Command failed: git pull origin develop", "", "fatal: no remote\n"⟩
      else quietExit
    fetch := fun _ _ => .notOk "Service Unavailable"
    dialog := fun _ _ => .execute
    now := noon }

/-- The result of the failed pull under `pullFails`. -/
def pullFailure : CommandResult :=
  { CommandResult.empty with
    command := .str "git pull origin develop"
    success := some false
    stdout := .str ""
    stderr := .str "fatal: no remote"
    error := .str "Command failed: git pull origin develop"
    timestamp := .str "2024-01-01T12:00:00.000Z" }

/-- A host with process execution where the third command issued fails. -/
def mergeConflicts : Env :=
  { processCwd := some "/repo"
    exec := fun n _ =>
      if n = 2 then ⟨some "Command failed: git merge", "CONFLICT (content)\n", ""⟩
      else quietExit
    fetch := fun _ _ => .notOk "Service Unavailable"
    dialog := fun _ _ => .execute
    now := noon }

/-- A host with process execution where every command succeeds, with a fixed output for the
status queries. -/
def allSucceed : Env :=
  { processCwd := some "/repo"
    exec := fun _ command =>
      if command = "git branch --show-current" then ⟨none, "develop\n", ""⟩
      else if command = "git status --porcelain" then ⟨none, " M a.txt\n\n?? b.txt\n", ""⟩
      else if command = "git branch -a" then ⟨none, "* develop\n  main\n  feature/login\n", ""⟩
      else if command = "git log --oneline -5" then ⟨none, "abc123f feat: add x\n", ""⟩
      else quietExit
    fetch := fun _ _ => .notOk "Service Unavailable"
    dialog := fun _ _ => .execute
    now := noon }

/-- A page without process execution, with a global `process`, whose service answers every
command with a 2xx response and a body that reports failure. -/
def serviceReportsFailure : Env :=
  { processCwd := some "/"
    exec := fun _ _ => quietExit
    fetch := fun _ command =>
      .ok { CommandResult.empty with
        command := .str command
        success := some false
        stdout := .str ""
        stderr := .str "fatal: not a git repository"
        error := .str "Command failed" }
    dialog := fun _ _ => .cancel
    now := noon }

/-- A new `GitIntegration` with process execution. -/
def localIntegration : GitIntegration :=
  { canExecuteCommands := true
    serverAvailable := none
    currentStatus := none
    history := []
    notifications := []
    issued := []
    display := none
    dispatched := []
    ticks := 0 }

/-- A new `GitIntegration` without process execution whose probe of the service succeeded. -/
def remoteIntegration : GitIntegration :=
  { localIntegration with canExecuteCommands := false, serverAvailable := some true }

/-- A snapshot on branch `develop`. -/
def developStatus : GitStatus :=
  { currentBranch := "develop"
    uncommittedFiles := 0
    totalBranches := 3
    recentCommits := ["abc123f feat: add x"]
    stashCount := 0
    isClean := true
    timestamp := "2024-01-01T11:59:00.000Z" }

/-- A host with process execution where every command fails. -/
def alwaysFails : Env :=
  { processCwd := some "/repo"
    exec := fun _ _ => ⟨some "Command failed", "", "fatal: not a git repository\n"⟩
    fetch := fun _ _ => .notOk "Service Unavailable"
    dialog := fun _ _ => .execute
    now := noon }

/-- A host with process execution in a repository with a detached head: every command
succeeds and the current-branch query prints nothing. -/
def detachedHead : Env :=
  { processCwd := some "/repo"
    exec := fun _ _ => quietExit
    fetch := fun _ _ => .notOk "Service Unavailable"
    dialog := fun _ _ => .execute
    now := noon }

/-- A page of a browser: no global `process`, no service. -/
def plainBrowser : Env :=
  { processCwd := none
    exec := fun _ _ => quietExit
    fetch := fun _ _ => .networkError "Failed to fetch"
    dialog := fun _ _ => .cancel
    now := noon }

/-- A page on which a global `process` with `cwd()` exists, without service. -/
def shimmedBrowser : Env :=
  { plainBrowser with processCwd := some "/" }

/-- A host with process execution whose branch query prints two branches. -/
def twoBranches : Env :=
  { processCwd := some "/repo"
    exec := fun _ _ =>
      ⟨none, "main|2 days ago|Alice|initial commit\n\n feature/login |3 hours ago|Bob|add login\n",
        ""⟩
    fetch := fun _ _ => .notOk "Service Unavailable"
    dialog := fun _ _ => .execute
    now := noon }

/-- A host with process execution whose branch query prints a line of three fields after a
line of four. -/
def shortBranchLine : Env :=
  { processCwd := some "/repo"
    exec := fun _ _ => ⟨none, "main|2 days ago|Alice|initial commit\ndevelop|1 day ago|Bob\n", ""⟩
    fetch := fun _ _ => .notOk "Service Unavailable"
    dialog := fun _ _ => .execute
    now := noon }

/-- A `GitIntegration` without process execution whose probe of the service failed. -/
def manualIntegration : GitIntegration :=
  { localIntegration with canExecuteCommands := false, serverAvailable := some false }

/-- A `GitIntegration` with process execution and a snapshot on `develop`. -/
def onDevelop : GitIntegration :=
  { localIntegration with currentStatus := some developStatus }

/-- The basic tutorial after two clicks on Next, on a host with process execution: the step
`Create a Feature Branch` is shown. -/
def atBranchStep : RealGitExecutor :=
  RealGitExecutor.advances 2
    (RealGitExecutor.startTutorial "basic-workflow" (RealGitExecutor.init true)).2

/-- The step `Create a Feature Branch` of the basic tutorial, bound to `createBranch`. -/
def branchStep : TutorialStep :=
  { title := "Create a Feature Branch"
    content := "Now let\x27s create a new feature branch for our work."
    action := some (.createBranch "tutorial/my-first-feature")
    highlight := some ".action-card:first-child" }

/-- A page of a browser without a global `process` whose service answers every command with
a 2xx response and a body that reports success. -/
def browserWithService : Env :=
  { plainBrowser with
    fetch := fun _ command =>
      .ok { CommandResult.empty with
        command := .str command, success := some true, stdout := .str "", stderr := .str "" } }

end Samples

/-! ## Theorems -/

/-! ### String helpers -/

section Strings

open GitIntegration

theorem jsStartsWith_eq_beginsWith (name p : String) :
    jsStartsWith name p = beginsWith name p := by
  unfold jsStartsWith beginsWith
  rw [Bool.eq_iff_iff]
  simp only [List.isPrefixOf_iff_prefix, decide_eq_true_eq]
  rw [List.prefix_iff_eq_take]
  exact eq_comm

theorem trimChars_eq_nil_iff (cs : List Char) :
    trimChars cs = [] ↔ ∀ c ∈ cs, jsIsWhiteSpace c = true := by
  unfold trimChars trimStartChars
  rw [List.reverse_eq_nil_iff, List.dropWhile_eq_nil_iff]
  constructor
  · intro h
    by_contra hne
    have hd : cs.dropWhile jsIsWhiteSpace ≠ [] := by
      rwa [Ne, List.dropWhile_eq_nil_iff]
    have h1 := List.head_dropWhile_not jsIsWhiteSpace cs hd
    have h2 := h _ (List.mem_reverse.mpr (List.head_mem hd))
    rw [h2] at h1
    exact Bool.noConfusion h1
  · intro h c hc
    exact h c ((List.dropWhile_sublist _).subset (List.mem_reverse.mp hc))

theorem jsTruthy_jsTrim (line : String) : jsTruthy (jsTrim line) = !isBlank line := by
  unfold jsTruthy jsTrim isBlank
  rw [Bool.eq_iff_iff]
  simp only [Bool.not_eq_true', List.isEmpty_eq_false, ne_eq, trimChars_eq_nil_iff,
    List.all_eq_false]
  push_neg
  simp

theorem nonBlankLines_eq (s : String) : nonBlankLines s = linesNotBlank s := by
  unfold nonBlankLines linesNotBlank
  congr 1
  funext line
  exact jsTruthy_jsTrim line

theorem jsTruthy_iff (s : String) : jsTruthy s = true ↔ s ≠ "" := by
  unfold jsTruthy
  rw [Bool.not_eq_true', List.isEmpty_eq_false]
  constructor
  · rintro h rfl; exact h rfl
  · intro h hd; exact h (String.ext hd)

end Strings

/-! ### The loop of `RealGitExecutor` -/

section ExecutorLoop

open RealGitExecutor

theorem RealGitExecutor.executeDirectly_spec (env : Env) (c : String) (r : RealGitExecutor) :
    (executeDirectly env c r).2.dialogs = r.dialogs ∧
      (executeDirectly env c r).1.command = .str c := by
  unfold executeDirectly simulateExecution logResult
  split_ifs <;> simp

theorem RealGitExecutor.executeGitCommand_dialog (env : Env) (c d : String) (r : RealGitExecutor) :
    (executeGitCommand env c ⟨some true, none, none, some d⟩ r).2.dialogs = r.dialogs ++ [c] ∧
      ((executeGitCommand env c ⟨some true, none, none, some d⟩ r).1 = cancelledResult ∨
        (executeGitCommand env c ⟨some true, none, none, some d⟩ r).1.command = .str c) := by
  simp only [executeGitCommand, showCommandDialog, Option.getD_some, Option.getD_none,
    Bool.not_false, Bool.and_self, if_true]
  cases env.dialog (logCommand env c d r).dialogs.length c with
  | execute =>
    simp only [logCommand]
    refine ⟨?_, Or.inr ?_⟩
    · rw [(RealGitExecutor.executeDirectly_spec env c _).1]
    · exact (RealGitExecutor.executeDirectly_spec env c _).2
  | cancel => simp [logCommand, cancelledResult]

theorem RealGitExecutor.runCommands_spec (env : Env) (d : String) :
    ∀ (cs : List String) (acc : List CommandResult) (r : RealGitExecutor),
      ∃ new, (runCommands env d cs acc r).1 = acc ++ new ∧
        StopsAtFirstFailure cs r (runCommands env d cs acc r).2 new := by
  intro cs
  induction cs with
  | nil =>
    intro acc r
    exact ⟨[], by simp [runCommands], by simp [StopsAtFirstFailure, runCommands]⟩
  | cons c rest ih =>
    intro acc r
    obtain ⟨hd, hc⟩ := RealGitExecutor.executeGitCommand_dialog env c d r
    simp only [runCommands]
    generalize hstep : executeGitCommand env c ⟨some true, none, none, some d⟩ r = step at hd hc
    obtain ⟨res, r1⟩ := step
    simp only at hd hc ⊢
    by_cases hs : stops res = true
    · simp only [hs, if_true]
      refine ⟨[res], rfl, ?_⟩
      refine ⟨by simp, by simp [hd], by simp [hc], ?_, ?_⟩
      · intro k result hk _
        cases k with
        | zero => rfl
        | succ k => simp at hk
      · intro hall
        have := hall res (by simp)
        simp [hs] at this
    · simp only [hs, if_false]
      obtain ⟨new, hnew, h1, h2, h3, h4, h5⟩ := ih (acc ++ [res]) r1
      refine ⟨res :: new, by simp [hnew], ?_⟩
      refine ⟨by simp; omega, by simp [h2, hd], ?_, ?_, ?_⟩
      · simp only [List.length_cons, List.take_succ_cons]
        exact List.Forall₂.cons hc h3
      · intro k result hk hst
        cases k with
        | zero =>
          simp only [List.getElem?_cons_zero, Option.some.injEq] at hk
          subst hk
          exact absurd hst hs
        | succ k =>
          simp only [List.getElem?_cons_succ] at hk
          simp only [List.length_cons, h4 k result hk hst]
      · intro hall
        simp only [List.length_cons, Nat.add_right_cancel_iff]
        exact h5 fun result hr => hall result (List.mem_cons_of_mem _ hr)

end ExecutorLoop

/-! ### Commands and status of `GitIntegration` -/

section Integration

open GitIntegration

theorem GitIntegration.logToHistory_frame (env : Env) (result : CommandResult) (g : GitIntegration) :
    (logToHistory env result g).currentStatus = g.currentStatus ∧
      (logToHistory env result g).dispatched = g.dispatched ∧
      (logToHistory env result g).canExecuteCommands = g.canExecuteCommands ∧
      (logToHistory env result g).serverAvailable = g.serverAvailable ∧
      (logToHistory env result g).issued = g.issued := by
  simp [logToHistory]

theorem GitIntegration.displayCommandResult_frame (env : Env) (result : CommandResult)
    (g : GitIntegration) :
    (displayCommandResult env result g).currentStatus = g.currentStatus ∧
      (displayCommandResult env result g).dispatched = g.dispatched ∧
      (displayCommandResult env result g).canExecuteCommands = g.canExecuteCommands ∧
      (displayCommandResult env result g).serverAvailable = g.serverAvailable ∧
      (displayCommandResult env result g).issued = g.issued := by
  unfold displayCommandResult
  simp only [GitIntegration.logToHistory_frame]
  split_ifs <;> simp [showNotification]

theorem GitIntegration.executeCommand_frame (env : Env) (c : String) (o : Options)
    (g : GitIntegration) :
    (executeCommand env c o g).2.currentStatus = g.currentStatus ∧
      (executeCommand env c o g).2.dispatched = g.dispatched ∧
      (executeCommand env c o g).2.canExecuteCommands = g.canExecuteCommands ∧
      (executeCommand env c o g).2.serverAvailable = g.serverAvailable := by
  unfold executeCommand
  cases o.cwd.orElse fun _ => env.processCwd with
  | none => simp
  | some w =>
    simp only
    split_ifs <;> simp [GitIntegration.displayCommandResult_frame]

theorem GitIntegration.executeCommand_issued (env : Env) (c : String) (o : Options)
    (g : GitIntegration) :
    (executeCommand env c o g).2.issued =
      g.issued ++ if (o.cwd.orElse fun _ => env.processCwd).isSome then [c] else [] := by
  unfold executeCommand
  cases o.cwd.orElse fun _ => env.processCwd with
  | none => simp
  | some w =>
    simp only [Option.isSome_some, if_true]
    split_ifs <;> simp [GitIntegration.displayCommandResult_frame]

theorem GitIntegration.executeCommand_ok_cwd (env : Env) (c : String) (o : Options)
    (g : GitIntegration) (r : CommandResult) (h : (executeCommand env c o g).1 = .ok r) :
    (o.cwd.orElse fun _ => env.processCwd).isSome = true := by
  unfold executeCommand at h
  cases hw : o.cwd.orElse fun _ => env.processCwd with
  | none => simp [hw] at h
  | some w => rfl

theorem GitIntegration.executeCommand_local (env : Env) (c w : String) (g : GitIntegration)
    (hw : env.processCwd = some w) (hl : g.canExecuteCommands = true) :
    (executeCommand env c ⟨none, none⟩ g).1 =
      (if (env.exec g.issued.length c).error.isSome then
        .error (.result (localResult c (env.exec g.issued.length c)))
      else .ok (localResult c (env.exec g.issued.length c))) := by
  simp only [executeCommand, Option.orElse, hw, hl, if_true]
  split_ifs <;> rfl

theorem GitIntegration.runCommands_frame (env : Env) :
    ∀ (cs : List String) (g : GitIntegration),
      (runCommands env cs g).2.currentStatus = g.currentStatus ∧
        (runCommands env cs g).2.dispatched = g.dispatched ∧
        (runCommands env cs g).2.canExecuteCommands = g.canExecuteCommands ∧
        (runCommands env cs g).2.serverAvailable = g.serverAvailable := by
  intro cs
  induction cs with
  | nil => intro g; simp [runCommands]
  | cons c rest ih =>
    intro g
    have hf := GitIntegration.executeCommand_frame env c ⟨none, none⟩ g
    simp only [runCommands]
    generalize executeCommand env c ⟨none, none⟩ g = step at hf
    obtain ⟨res, g1⟩ := step
    cases res with
    | error e => exact hf
    | ok v =>
      simp only at hf ⊢
      obtain ⟨h1, h2, h3, h4⟩ := ih g1
      exact ⟨h1.trans hf.1, h2.trans hf.2.1, h3.trans hf.2.2.1, h4.trans hf.2.2.2⟩

/-- Whatever the backend, the commands a sequence issues are the first `k` of the list, and
all of them when it ends without a rejection. -/
theorem GitIntegration.runCommands_issued (env : Env) :
    ∀ (cs : List String) (g : GitIntegration),
      ((runCommands env cs g).1 = .ok () ∧ (runCommands env cs g).2.issued = g.issued ++ cs ∧
          (cs ≠ [] → env.processCwd.isSome = true)) ∨
        (∃ e k, (runCommands env cs g).1 = .error e ∧ k ≤ cs.length ∧
          (runCommands env cs g).2.issued = g.issued ++ cs.take k) := by
  intro cs
  induction cs with
  | nil => intro g; left; simp [runCommands]
  | cons c rest ih =>
    intro g
    have hi := GitIntegration.executeCommand_issued env c ⟨none, none⟩ g
    have hc := GitIntegration.executeCommand_ok_cwd env c ⟨none, none⟩ g
    simp only [runCommands]
    generalize executeCommand env c ⟨none, none⟩ g = step at hi hc
    obtain ⟨res, g1⟩ := step
    cases res with
    | error e =>
      right
      simp only at hi ⊢
      by_cases hw : ((none : Option String).orElse fun _ => env.processCwd).isSome = true
      · rw [if_pos hw] at hi
        exact ⟨e, 1, rfl, by simp, by simp [hi]⟩
      · rw [if_neg hw] at hi
        exact ⟨e, 0, rfl, by simp, by simp [hi]⟩
    | ok v =>
      have hw := hc v rfl
      simp only [hw, if_true] at hi
      simp only at hi ⊢
      rcases ih g1 with ⟨h1, h2, _⟩ | ⟨e, k, h1, h2, h3⟩
      · left
        refine ⟨h1, by simp [h2, hi], fun _ => ?_⟩
        simpa [Option.orElse] using hw
      · right
        exact ⟨e, k + 1, h1, by simp [h2], by simp [h3, hi]⟩

theorem GitIntegration.runCommands_local (env : Env) (w : String) (hw : env.processCwd = some w) :
    ∀ (cs : List String) (g : GitIntegration), g.canExecuteCommands = true →
      (∀ k c, cs[k]? = some c →
        (∀ i c', i < k → cs[i]? = some c' → (env.exec (g.issued.length + i) c').error = none) →
        (env.exec (g.issued.length + k) c).error.isSome = true →
        (runCommands env cs g).1 =
            .error (.result (localResult c (env.exec (g.issued.length + k) c))) ∧
          (runCommands env cs g).2.issued = g.issued ++ cs.take (k + 1)) ∧
      ((∀ i c', cs[i]? = some c' → (env.exec (g.issued.length + i) c').error = none) →
        (runCommands env cs g).1 = .ok () ∧ (runCommands env cs g).2.issued = g.issued ++ cs) := by
  intro cs
  induction cs with
  | nil =>
    intro g _
    exact ⟨fun k c hk => by simp at hk, fun _ => by simp [runCommands]⟩
  | cons c rest ih =>
    intro g hl
    have hres := GitIntegration.executeCommand_local env c w g hw hl
    have hiss := GitIntegration.executeCommand_issued env c ⟨none, none⟩ g
    have hfr := (GitIntegration.executeCommand_frame env c ⟨none, none⟩ g).2.2.1
    simp only [Option.orElse, hw, Option.isSome_some, if_true] at hiss
    simp only [runCommands]
    generalize executeCommand env c ⟨none, none⟩ g = step at hres hiss hfr
    obtain ⟨res, g1⟩ := step
    simp only at hres hiss hfr
    have hlen : ∀ i, g1.issued.length + i = g.issued.length + (i + 1) := by
      intro i; rw [hiss, List.length_append, List.length_singleton]; omega
    obtain ⟨ihf, ihs⟩ := ih g1 (hfr.trans hl)
    constructor
    · intro k c' hk hprev herr
      cases k with
      | zero =>
        simp only [List.getElem?_cons_zero, Option.some.injEq] at hk
        subst hk
        simp only [Nat.add_zero] at herr ⊢
        rw [hres, if_pos herr]
        exact ⟨rfl, by simp [hiss]⟩
      | succ k =>
        simp only [List.getElem?_cons_succ] at hk
        have h0 := hprev 0 c (Nat.succ_pos k) (by simp)
        simp only [Nat.add_zero] at h0
        rw [hres, h0]
        simp only [Option.isSome_none, Bool.false_eq_true, if_false]
        have := ihf k c' hk
          (fun i c'' hi hc => by
            rw [hlen]; exact hprev (i + 1) c'' (by omega) (by simpa using hc))
          (by rw [hlen]; exact herr)
        rw [hlen] at this
        refine ⟨this.1, ?_⟩
        rw [this.2, hiss]; simp
    · intro hall
      have h0 := hall 0 c (by simp)
      simp only [Nat.add_zero] at h0
      rw [hres, h0]
      simp only [Option.isSome_none, Bool.false_eq_true, if_false]
      have := ihs fun i c'' hc => by
        rw [hlen]; exact hall (i + 1) c'' (by simpa using hc)
      refine ⟨this.1, ?_⟩
      rw [this.2, hiss]; simp

theorem GitIntegration.executeCommand_quiet (env : Env) (c : String) (g : GitIntegration) :
    (executeCommand env c ⟨some false, none⟩ g).2 =
      { g with issued := g.issued ++ if env.processCwd.isSome then [c] else [] } := by
  unfold executeCommand
  cases env.processCwd with
  | none => simp [Option.orElse]
  | some w =>
    simp only [Option.orElse, Option.getD_some, Bool.false_eq_true, if_false,
      Option.isSome_some, if_true]
    split_ifs <;> rfl

theorem GitIntegration.getGitStatus_frame (env : Env) (g : GitIntegration) :
    (getGitStatus env g).2.dispatched = g.dispatched ∧
      (getGitStatus env g).2.issued =
        g.issued ++ (if env.processCwd.isSome then statusCommands else []) ∧
      (getGitStatus env g).2.currentStatus =
        (match (getGitStatus env g).1 with
          | some st => some st
          | none => g.currentStatus) := by
  unfold getGitStatus
  dsimp only
  rcases h1 : executeCommand env "git branch --show-current" ⟨some false, none⟩ g with ⟨r1, g1⟩
  dsimp only
  rcases h2 : executeCommand env "git status --porcelain" ⟨some false, none⟩ g1 with ⟨r2, g2⟩
  dsimp only
  rcases h3 : executeCommand env "git branch -a" ⟨some false, none⟩ g2 with ⟨r3, g3⟩
  dsimp only
  rcases h4 : executeCommand env "git log --oneline -5" ⟨some false, none⟩ g3 with ⟨r4, g4⟩
  dsimp only
  rcases h5 : executeCommand env "git stash list" ⟨some false, none⟩ g4 with ⟨r5, g5⟩
  dsimp only
  have e1 := (congrArg Prod.snd h1).symm.trans (GitIntegration.executeCommand_quiet env _ g)
  have e2 := (congrArg Prod.snd h2).symm.trans (GitIntegration.executeCommand_quiet env _ g1)
  have e3 := (congrArg Prod.snd h3).symm.trans (GitIntegration.executeCommand_quiet env _ g2)
  have e4 := (congrArg Prod.snd h4).symm.trans (GitIntegration.executeCommand_quiet env _ g3)
  have e5 := (congrArg Prod.snd h5).symm.trans (GitIntegration.executeCommand_quiet env _ g4)
  dsimp only at e1 e2 e3 e4 e5
  have hd : g5.dispatched = g.dispatched := by rw [e5, e4, e3, e2, e1]
  have hc : g5.currentStatus = g.currentStatus := by rw [e5, e4, e3, e2, e1]
  have hi : g5.issued = g.issued ++ (if env.processCwd.isSome then statusCommands else []) := by
    rw [e5, e4, e3, e2, e1]
    cases env.processCwd <;> simp [statusCommands]
  split
  · split <;> simp [hd, hi, hc]
  · simp [hd, hi, hc]

theorem GitIntegration.executeCommand_congr (env : Env) (c : String) (o : Options)
    (g g' : GitIntegration) (h1 : g.canExecuteCommands = g'.canExecuteCommands)
    (h2 : g.serverAvailable = g'.serverAvailable) (h3 : g.issued = g'.issued) :
    (executeCommand env c o g).1 = (executeCommand env c o g').1 := by
  unfold executeCommand
  rw [h1, h2, h3]
  cases o.cwd.orElse fun _ => env.processCwd with
  | none => rfl
  | some w =>
    dsimp only
    split_ifs <;> rfl

theorem GitIntegration.getGitStatus_fst (env : Env) (g : GitIntegration)
    (prior : Option GitStatus) :
    (getGitStatus env { g with currentStatus := prior }).1 = composedStatus env g := by
  unfold getGitStatus
  dsimp only
  rcases h1 : executeCommand env "git branch --show-current" ⟨some false, none⟩
    { g with currentStatus := prior } with ⟨r1, g1⟩
  dsimp only
  rcases h2 : executeCommand env "git status --porcelain" ⟨some false, none⟩ g1 with ⟨r2, g2⟩
  dsimp only
  rcases h3 : executeCommand env "git branch -a" ⟨some false, none⟩ g2 with ⟨r3, g3⟩
  dsimp only
  rcases h4 : executeCommand env "git log --oneline -5" ⟨some false, none⟩ g3 with ⟨r4, g4⟩
  dsimp only
  rcases h5 : executeCommand env "git stash list" ⟨some false, none⟩ g4 with ⟨r5, g5⟩
  dsimp only
  have e1 := (congrArg Prod.snd h1).symm.trans (GitIntegration.executeCommand_quiet env _ _)
  have e2 := (congrArg Prod.snd h2).symm.trans (GitIntegration.executeCommand_quiet env _ g1)
  have e3 := (congrArg Prod.snd h3).symm.trans (GitIntegration.executeCommand_quiet env _ g2)
  have e4 := (congrArg Prod.snd h4).symm.trans (GitIntegration.executeCommand_quiet env _ g3)
  have e5 := (congrArg Prod.snd h5).symm.trans (GitIntegration.executeCommand_quiet env _ g4)
  have q1 := (congrArg Prod.fst h1).symm
  have q2 := (congrArg Prod.fst h2).symm
  have q3 := (congrArg Prod.fst h3).symm
  have q4 := (congrArg Prod.fst h4).symm
  have q5 := (congrArg Prod.fst h5).symm
  dsimp only at e1 e2 e3 e4 e5 q1 q2 q3 q4 q5
  have ht : g5.ticks = g.ticks := by rw [e5, e4, e3, e2, e1]
  cases hw : env.processCwd with
  | none =>
    have : ∀ c g', (executeCommand env c ⟨some false, none⟩ g').1 =
        .error (.error "ReferenceError" "process is not defined") := by
      intro c g'; simp [executeCommand, Option.orElse, hw]
    rw [q1, this]
    simp [composedStatus, statusQuery, this]
  | some w =>
    simp only [hw, Option.isSome_some, if_true] at e1 e2 e3 e4 e5
    have p1 : r1 = statusQuery env g 0 "git branch --show-current" :=
      q1.trans (GitIntegration.executeCommand_congr env _ _ _ _ rfl rfl (by simp))
    have p2 : r2 = statusQuery env g 1 "git status --porcelain" :=
      q2.trans (GitIntegration.executeCommand_congr env _ _ _ _ (by rw [e1]) (by rw [e1])
        (by rw [e1]; simp [statusCommands]))
    have p3 : r3 = statusQuery env g 2 "git branch -a" :=
      q3.trans (GitIntegration.executeCommand_congr env _ _ _ _ (by rw [e2, e1])
        (by rw [e2, e1]) (by rw [e2, e1]; simp [statusCommands]))
    have p4 : r4 = statusQuery env g 3 "git log --oneline -5" :=
      q4.trans (GitIntegration.executeCommand_congr env _ _ _ _ (by rw [e3, e2, e1])
        (by rw [e3, e2, e1]) (by rw [e3, e2, e1]; simp [statusCommands]))
    have p5 : r5 = statusQuery env g 4 "git stash list" :=
      q5.trans (GitIntegration.executeCommand_congr env _ _ _ _ (by rw [e4, e3, e2, e1])
        (by rw [e4, e3, e2, e1]) (by rw [e4, e3, e2, e1]; simp [statusCommands]))
    unfold composedStatus
    rw [← p1, ← p2, ← p3, ← p4, ← p5, ht]
    clear p1 p2 p3 p4 p5 q1 q2 q3 q4 q5 h1 h2 h3 h4 h5 e1 e2 e3 e4 e5 ht
    rcases r1 with _ | a <;> rcases r2 with _ | b <;> rcases r3 with _ | c <;>
      rcases r4 with _ | d <;> rcases r5 with _ | e <;> try rfl
    dsimp only
    cases composeStatus (env.now g.ticks) a b c d e <;> rfl

theorem GitIntegration.composeStatus_ok (now : String) (r1 r2 r3 r4 r5 : CommandResult)
    (files branches log stashes : String) (h2 : r2.stdout = .str files)
    (h3 : r3.stdout = .str branches) (h4 : r4.stdout = .str log)
    (h5 : r5.stdout = .str stashes) :
    composeStatus now r1 r2 r3 r4 r5 = .ok
      { currentBranch := (r1.stdout.or (.str "unknown")).text
        uncommittedFiles := (linesNotBlank files).length
        totalBranches := (linesNotBlank branches).length
        recentCommits := linesNotBlank log
        stashCount := (linesNotBlank stashes).length
        isClean := jsTrim files == ""
        timestamp := now } := by
  simp only [composeStatus, stdoutLines, h2, h3, h4, h5, nonBlankLines_eq]
  rfl

end Integration

/-! ### Compound operations -/

/-- C1: every compound operation of `RealGitExecutor` (`createBranch` with 3 declared
commands, `commitChanges` with 2, `mergeBranch` with 4) stops at the first step whose result
is neither a success nor a cancellation: the dialogs shown are those of the first
`results.length` commands, an entry on which the loop breaks is the last entry of the
returned list, entry `k` answers command `k`, a run in which no entry breaks the loop returns
one entry per command, and the cancellation object does not break the loop. -/
theorem compound_operations_stop_at_first_failure (env : Env) (r : RealGitExecutor) :
    (∀ (branchName : String) (startFrom : Option String),
      (RealGitExecutor.createBranchCommands branchName (startFrom.getD "develop")).length = 3 ∧
      RealGitExecutor.StopsAtFirstFailure
        (RealGitExecutor.createBranchCommands branchName (startFrom.getD "develop")) r
        (RealGitExecutor.createBranch env branchName startFrom r).2
        (RealGitExecutor.createBranch env branchName startFrom r).1) ∧
    (∀ (type message : String) (files : Option String),
      (RealGitExecutor.commitCommands type message (files.getD ".")).length = 2 ∧
      RealGitExecutor.StopsAtFirstFailure
        (RealGitExecutor.commitCommands type message (files.getD ".")) r
        (RealGitExecutor.commitChanges env type message files r).2
        (RealGitExecutor.commitChanges env type message files r).1) ∧
    (∀ (sourceBranch : String) (targetBranch : Option String),
      (RealGitExecutor.mergeBranchCommands sourceBranch (targetBranch.getD "develop")).length
        = 4 ∧
      RealGitExecutor.StopsAtFirstFailure
        (RealGitExecutor.mergeBranchCommands sourceBranch (targetBranch.getD "develop")) r
        (RealGitExecutor.mergeBranch env sourceBranch targetBranch r).2
        (RealGitExecutor.mergeBranch env sourceBranch targetBranch r).1) ∧
    RealGitExecutor.stops RealGitExecutor.cancelledResult = false := by
  refine ⟨fun branchName startFrom => ⟨rfl, ?_⟩, fun type message files => ⟨rfl, ?_⟩,
    fun sourceBranch targetBranch => ⟨rfl, ?_⟩, by decide⟩
  · obtain ⟨new, hnew, hspec⟩ := RealGitExecutor.runCommands_spec env
      ("Creating branch " ++ branchName ++ " from " ++ startFrom.getD "develop")
      (RealGitExecutor.createBranchCommands branchName (startFrom.getD "develop")) [] r
    rw [List.nil_append] at hnew
    unfold RealGitExecutor.createBranch
    rw [hnew]
    exact hspec
  · obtain ⟨new, hnew, hspec⟩ := RealGitExecutor.runCommands_spec env
      ("Committing changes: " ++ type ++ ": " ++ message)
      (RealGitExecutor.commitCommands type message (files.getD ".")) [] r
    rw [List.nil_append] at hnew
    unfold RealGitExecutor.commitChanges
    rw [hnew]
    exact hspec
  · obtain ⟨new, hnew, hspec⟩ := RealGitExecutor.runCommands_spec env
      ("Merging " ++ sourceBranch ++ " to " ++ targetBranch.getD "develop")
      (RealGitExecutor.mergeBranchCommands sourceBranch (targetBranch.getD "develop")) [] r
    rw [List.nil_append] at hnew
    unfold RealGitExecutor.mergeBranch
    rw [hnew]
    exact hspec

/-- C1 at a concrete run: with a failing pull, `createBranch` returns two entries, the second
being the failure, and shows no dialog for the third command. -/
theorem compound_operations_stop_at_first_failure_witness :
    (RealGitExecutor.createBranch Samples.pullFails "feature/login" (some "develop")
        (RealGitExecutor.init true)).1.length = 2 ∧
      (RealGitExecutor.createBranch Samples.pullFails "feature/login" (some "develop")
        (RealGitExecutor.init true)).1[1]? = some Samples.pullFailure ∧
      (RealGitExecutor.createBranch Samples.pullFails "feature/login" (some "develop")
        (RealGitExecutor.init true)).2.dialogs =
        ["git checkout develop", "git pull origin develop"] := by
  have h := ((compound_operations_stop_at_first_failure Samples.pullFails
    (RealGitExecutor.init true)).1 "feature/login" (some "develop")).2
  obtain ⟨-, hd, -, hk, -⟩ := h
  have hl := hk 1 Samples.pullFailure (by decide) (by decide)
  refine ⟨hl, by decide, ?_⟩
  rw [hd, hl]
  rfl

theorem GitIntegration.refreshStatus_issued (env : Env) (g : GitIntegration) :
    (GitIntegration.refreshStatus env g).issued =
      g.issued ++ (if env.processCwd.isSome then GitIntegration.statusCommands else []) := by
  have h := (GitIntegration.getGitStatus_frame env g).2.1
  unfold GitIntegration.refreshStatus GitIntegration.triggerStatusUpdate
    GitIntegration.updateStatusDisplay
  split <;> simpa using h

theorem GitIntegration.refreshStatus_dispatched (env : Env) (g : GitIntegration) :
    (GitIntegration.refreshStatus env g).dispatched =
      g.dispatched ++ [(GitIntegration.refreshStatus env g).currentStatus] := by
  have h := (GitIntegration.getGitStatus_frame env g).1
  unfold GitIntegration.refreshStatus GitIntegration.triggerStatusUpdate
    GitIntegration.updateStatusDisplay
  split <;> simp_all

/-- C2: under the Local strategy (process execution present, and with it the global
`process`) `mergeBranch` declares checkout, pull, merge, push of the target in this order;
when command `k` is the first whose execution fails, exactly the commands up to it are
issued, no refresh happens (no status query, no event, the snapshot stays) and the call
returns `success: false` with the result of that command as `error`; when none fails all
four are issued, the status refresh follows and the call returns `success: true`. -/
theorem mergeBranch_local_stops_at_first_failure (env : Env) (g : GitIntegration)
    (sourceBranch : String) (targetBranch strategy : Option String) (w : String)
    (hcwd : env.processCwd = some w) (hlocal : g.canExecuteCommands = true) :
    GitIntegration.mergeBranchCommands sourceBranch (targetBranch.getD "develop")
        (strategy.getD "--no-ff") =
      ["git checkout " ++ targetBranch.getD "develop",
        "git pull origin " ++ targetBranch.getD "develop",
        "git merge " ++ strategy.getD "--no-ff" ++ " " ++ sourceBranch,
        "git push origin " ++ targetBranch.getD "develop"] ∧
    (∀ k c,
      (GitIntegration.mergeBranchCommands sourceBranch (targetBranch.getD "develop")
        (strategy.getD "--no-ff"))[k]? = some c →
      (∀ i c', i < k →
        (GitIntegration.mergeBranchCommands sourceBranch (targetBranch.getD "develop")
          (strategy.getD "--no-ff"))[i]? = some c' →
        (env.exec (g.issued.length + i) c').error = none) →
      (env.exec (g.issued.length + k) c).error.isSome = true →
      (GitIntegration.mergeBranch env sourceBranch targetBranch strategy g).1 =
          ⟨false, none,
            some (.result (GitIntegration.localResult c (env.exec (g.issued.length + k) c)))⟩ ∧
        (GitIntegration.mergeBranch env sourceBranch targetBranch strategy g).2.issued =
          g.issued ++ (GitIntegration.mergeBranchCommands sourceBranch
            (targetBranch.getD "develop") (strategy.getD "--no-ff")).take (k + 1) ∧
        (GitIntegration.mergeBranch env sourceBranch targetBranch strategy g).2.dispatched =
          g.dispatched ∧
        (GitIntegration.mergeBranch env sourceBranch targetBranch strategy g).2.currentStatus =
          g.currentStatus) ∧
    ((∀ i c',
        (GitIntegration.mergeBranchCommands sourceBranch (targetBranch.getD "develop")
          (strategy.getD "--no-ff"))[i]? = some c' →
        (env.exec (g.issued.length + i) c').error = none) →
      (GitIntegration.mergeBranch env sourceBranch targetBranch strategy g).1 =
          ⟨true, none, none⟩ ∧
        (GitIntegration.mergeBranch env sourceBranch targetBranch strategy g).2.issued =
          g.issued ++ GitIntegration.mergeBranchCommands sourceBranch
            (targetBranch.getD "develop") (strategy.getD "--no-ff") ++
            GitIntegration.statusCommands ∧
        (GitIntegration.mergeBranch env sourceBranch targetBranch strategy g).2.dispatched =
          g.dispatched ++
            [(GitIntegration.mergeBranch env sourceBranch targetBranch strategy
              g).2.currentStatus]) := by
  have hL := GitIntegration.runCommands_local env w hcwd
    (GitIntegration.mergeBranchCommands sourceBranch (targetBranch.getD "develop")
      (strategy.getD "--no-ff")) g hlocal
  have hF := GitIntegration.runCommands_frame env
    (GitIntegration.mergeBranchCommands sourceBranch (targetBranch.getD "develop")
      (strategy.getD "--no-ff")) g
  unfold GitIntegration.mergeBranch
  dsimp only
  generalize GitIntegration.runCommands env
    (GitIntegration.mergeBranchCommands sourceBranch (targetBranch.getD "develop")
      (strategy.getD "--no-ff")) g = out at hL hF
  obtain ⟨res, g1⟩ := out
  refine ⟨rfl, fun k c hk hprev herr => ?_, fun hall => ?_⟩
  · obtain ⟨h1, h2⟩ := hL.1 k c hk hprev herr
    dsimp only at h1 h2 hF
    subst h1
    exact ⟨rfl, h2, hF.2.1, hF.1⟩
  · obtain ⟨h1, h2⟩ := hL.2 hall
    dsimp only at h1 h2 hF
    subst h1
    dsimp only
    refine ⟨rfl, ?_, ?_⟩
    · rw [GitIntegration.refreshStatus_issued, hcwd]
      simp [GitIntegration.showNotification, h2]
    · rw [GitIntegration.refreshStatus_dispatched]
      simp [GitIntegration.showNotification, hF.2.1]

/-- C2 at a concrete run: when the merge command fails, the push is never issued, nothing is
refreshed, and the call returns the failed result. -/
theorem mergeBranch_local_stops_at_first_failure_witness :
    (GitIntegration.mergeBranch Samples.mergeConflicts "feature/login" none none
        Samples.localIntegration).1 =
      ⟨false, none, some (.result (GitIntegration.localResult "git merge --no-ff feature/login"
        ⟨some "Command failed: git merge", "CONFLICT (content)\n", ""⟩))⟩ ∧
    (GitIntegration.mergeBranch Samples.mergeConflicts "feature/login" none none
        Samples.localIntegration).2.issued =
      ["git checkout develop", "git pull origin develop", "git merge --no-ff feature/login"] ∧
    (GitIntegration.mergeBranch Samples.mergeConflicts "feature/login" none none
        Samples.localIntegration).2.dispatched = [] := by
  have h := (mergeBranch_local_stops_at_first_failure Samples.mergeConflicts
    Samples.localIntegration "feature/login" none none "/repo" rfl rfl).2.1 2
    "git merge --no-ff feature/login" (by decide)
    (fun i c' hi _ => by
      have : i = 0 ∨ i = 1 := by omega
      rcases this with rfl | rfl <;> rfl)
    (by decide)
  exact ⟨h.1, h.2.1, h.2.2.1⟩

/-- C3, the code at a failing input: under the Remote strategy the service answers every
command with a 2xx body whose `success` is `false`; `createBranch`, `commitChanges` and
`mergeBranch` nevertheless issue every command of their sequence, run the status refresh and
return `success: true`. -/
theorem remote_failure_does_not_stop_sequence :
    (GitIntegration.executeCommand Samples.serviceReportsFailure "git checkout develop"
        ⟨none, none⟩ Samples.remoteIntegration).1.toOption.map (fun r => r.success) =
      some (some false) ∧
    (GitIntegration.createBranch Samples.serviceReportsFailure "login" none none
        Samples.remoteIntegration).1 = ⟨true, some "feature/login", none⟩ ∧
    (GitIntegration.createBranch Samples.serviceReportsFailure "login" none none
        Samples.remoteIntegration).2.issued =
      ["git checkout develop", "git pull origin develop", "git checkout -b feature/login"] ++
        GitIntegration.statusCommands ∧
    (GitIntegration.commitChanges Samples.serviceReportsFailure "add x" none none
        Samples.remoteIntegration).1 = ⟨true, none, none⟩ ∧
    (GitIntegration.commitChanges Samples.serviceReportsFailure "add x" none none
        Samples.remoteIntegration).2.issued =
      ["git add .", "git commit -m \"feat: add x\""] ++ GitIntegration.statusCommands ∧
    (GitIntegration.mergeBranch Samples.serviceReportsFailure "feature/login" none none
        Samples.remoteIntegration).1 = ⟨true, none, none⟩ ∧
    (GitIntegration.mergeBranch Samples.serviceReportsFailure "feature/login" none none
        Samples.remoteIntegration).2.issued =
      ["git checkout develop", "git pull origin develop", "git merge --no-ff feature/login",
        "git push origin develop"] ++ GitIntegration.statusCommands := by
  refine ⟨by decide, by decide, by decide, by decide, by decide, by decide, by decide⟩

/-! ### Branch classification -/

/-- C4: `getBranchType` equals, for every name, the ordered first-match-wins classifier of
the specification (`core` for the five literal names, then the four type folders by the
way the name begins, `other` otherwise); `develop` is core, `feature/login` feature,
`personal/alice/x` personal, `hotfix/1.2` hotfix and `release/9` other. -/
theorem getBranchType_refines_classifier :
    (∀ name : String,
      GitIntegration.getBranchType name = GitIntegration.classifyFirstMatch name) ∧
    GitIntegration.getBranchType "develop" = "core" ∧
    GitIntegration.getBranchType "feature/login" = "feature" ∧
    GitIntegration.getBranchType "personal/alice/x" = "personal" ∧
    GitIntegration.getBranchType "hotfix/1.2" = "hotfix" ∧
    GitIntegration.getBranchType "release/9" = "other" := by
  refine ⟨fun name => ?_, by decide, by decide, by decide, by decide, by decide⟩
  unfold GitIntegration.getBranchType GitIntegration.classifyFirstMatch
    GitIntegration.classifierRules
  simp only [List.find?, jsStartsWith_eq_beginsWith]
  split_ifs <;> simp_all

/-! ### Status snapshot -/

/-- C5: `getGitStatus` is total (it never raises); what it returns is the snapshot composed
from the five new query results alone, whatever the prior snapshot was, and there is none
exactly when a query rejected or the composition threw; the stored snapshot afterwards is
the returned one when there is one and the prior one, untouched, otherwise. -/
theorem getGitStatus_replaces_snapshot_atomically (env : Env) (g : GitIntegration)
    (prior : Option GitStatus) :
    (GitIntegration.getGitStatus env { g with currentStatus := prior }).1 =
      GitIntegration.composedStatus env g ∧
    (GitIntegration.getGitStatus env { g with currentStatus := prior }).2.currentStatus =
      (match GitIntegration.composedStatus env g with
        | some status => some status
        | none => prior) := by
  have h1 := GitIntegration.getGitStatus_fst env g prior
  have h2 := (GitIntegration.getGitStatus_frame env { g with currentStatus := prior }).2.2
  rw [h1] at h2
  exact ⟨h1, h2⟩

theorem GitIntegration.getGitStatus_of_queries (env : Env) (g : GitIntegration)
    (r1 r2 r3 r4 r5 : CommandResult)
    (h1 : GitIntegration.statusQuery env g 0 "git branch --show-current" = .ok r1)
    (h2 : GitIntegration.statusQuery env g 1 "git status --porcelain" = .ok r2)
    (h3 : GitIntegration.statusQuery env g 2 "git branch -a" = .ok r3)
    (h4 : GitIntegration.statusQuery env g 3 "git log --oneline -5" = .ok r4)
    (h5 : GitIntegration.statusQuery env g 4 "git stash list" = .ok r5) :
    (GitIntegration.getGitStatus env g).1 =
      (GitIntegration.composeStatus (env.now g.ticks) r1 r2 r3 r4 r5).toOption := by
  have h := GitIntegration.getGitStatus_fst env g g.currentStatus
  have hg : ({ g with currentStatus := g.currentStatus } : GitIntegration) = g := by
    cases g; rfl
  rw [hg] at h
  rw [h]
  unfold GitIntegration.composedStatus
  rw [h1, h2, h3, h4, h5]

/-- C6: when the five status queries resolve with string outputs, `getGitStatus` returns and
stores a snapshot in which `uncommittedFiles` is the number of non-blank lines of the
change list, `totalBranches` the number of non-blank lines of the branch list, `isClean`
whether the change list trims to the empty string, and `recentCommits` the non-blank lines
of the log in their order. -/
theorem getGitStatus_composes_snapshot (env : Env) (g : GitIntegration)
    (r1 r2 r3 r4 r5 : CommandResult) (files branches log stashes : String)
    (h1 : GitIntegration.statusQuery env g 0 "git branch --show-current" = .ok r1)
    (h2 : GitIntegration.statusQuery env g 1 "git status --porcelain" = .ok r2)
    (h3 : GitIntegration.statusQuery env g 2 "git branch -a" = .ok r3)
    (h4 : GitIntegration.statusQuery env g 3 "git log --oneline -5" = .ok r4)
    (h5 : GitIntegration.statusQuery env g 4 "git stash list" = .ok r5)
    (hfiles : r2.stdout = .str files) (hbranches : r3.stdout = .str branches)
    (hlog : r4.stdout = .str log) (hstashes : r5.stdout = .str stashes) :
    ∃ status, (GitIntegration.getGitStatus env g).1 = some status ∧
      (GitIntegration.getGitStatus env g).2.currentStatus = some status ∧
      status.uncommittedFiles = (GitIntegration.linesNotBlank files).length ∧
      status.totalBranches = (GitIntegration.linesNotBlank branches).length ∧
      (status.isClean = true ↔ jsTrim files = "") ∧
      status.recentCommits = GitIntegration.linesNotBlank log := by
  have h := GitIntegration.getGitStatus_of_queries env g r1 r2 r3 r4 r5 h1 h2 h3 h4 h5
  rw [GitIntegration.composeStatus_ok _ r1 r2 r3 r4 r5 files branches log stashes hfiles
    hbranches hlog hstashes] at h
  have hs := (GitIntegration.getGitStatus_frame env g).2.2
  rw [h] at hs
  exact ⟨_, h, hs, rfl, rfl, by simp, rfl⟩

/-- C6 at a concrete run: two changed files among blank lines, three branches, one commit. -/
theorem getGitStatus_composes_snapshot_witness :
    ∃ status,
      (GitIntegration.getGitStatus Samples.allSucceed Samples.localIntegration).1 =
        some status ∧
      (GitIntegration.getGitStatus Samples.allSucceed
        Samples.localIntegration).2.currentStatus = some status ∧
      status.uncommittedFiles = 2 ∧ status.totalBranches = 3 ∧
      (status.isClean = true ↔ jsTrim "M a.txt\n\n?? b.txt" = "") ∧
      status.recentCommits = ["abc123f feat: add x"] :=
  getGitStatus_composes_snapshot Samples.allSucceed Samples.localIntegration
    (GitIntegration.localResult "git branch --show-current" ⟨none, "develop\n", ""⟩)
    (GitIntegration.localResult "git status --porcelain" ⟨none, " M a.txt\n\n?? b.txt\n", ""⟩)
    (GitIntegration.localResult "git branch -a"
      ⟨none, "* develop\n  main\n  feature/login\n", ""⟩)
    (GitIntegration.localResult "git log --oneline -5" ⟨none, "abc123f feat: add x\n", ""⟩)
    (GitIntegration.localResult "git stash list" Samples.quietExit)
    "M a.txt\n\n?? b.txt" "* develop\n  main\n  feature/login" "abc123f feat: add x" ""
    rfl rfl rfl rfl rfl (by decide) (by decide) (by decide) (by decide)

/-- The change-list query fails: the refresh returns `null` and the prior snapshot stays. -/
theorem getGitStatus_keeps_prior_when_query_fails :
    (GitIntegration.getGitStatus Samples.pullFails
        { Samples.localIntegration with currentStatus := some Samples.developStatus }).1 = none ∧
      (GitIntegration.getGitStatus Samples.pullFails
        { Samples.localIntegration with currentStatus := some Samples.developStatus
          }).2.currentStatus = some Samples.developStatus := by
  decide

/-! ### Command history -/

theorem GitIntegration.logToHistory_length (env : Env) (result : CommandResult)
    (g : GitIntegration) :
    (GitIntegration.logToHistory env result g).history.length =
      min (g.history.length + 1) 50 := by
  unfold GitIntegration.logToHistory
  simp only [List.length_cons]
  split_ifs with h
  · simp only [List.length_take, List.length_cons]; omega
  · simp only [List.length_cons]; omega

theorem GitIntegration.foldl_logToHistory_length (env : Env) :
    ∀ (results : List CommandResult) (g : GitIntegration), g.history.length ≤ 50 →
      (results.foldl (fun g result => GitIntegration.logToHistory env result g) g).history.length
        ≤ 50 := by
  intro results
  induction results with
  | nil => intro g h; exact h
  | cons result rest ih =>
    intro g _
    rw [List.foldl_cons]
    apply ih
    rw [GitIntegration.logToHistory_length]
    exact Nat.min_le_right _ _

/-- C7: after `logToHistory` the stored ledger has `min (previous length + 1) 50` entries,
whatever its previous length; hence it has at most 50 entries after every non-empty sequence
of calls. -/
theorem history_never_exceeds_capacity (env : Env) (g : GitIntegration)
    (result : CommandResult) (later : List CommandResult) :
    (GitIntegration.logToHistory env result g).history.length =
      min (g.history.length + 1) 50 ∧
    ((result :: later).foldl (fun g result => GitIntegration.logToHistory env result g)
      g).history.length ≤ 50 := by
  refine ⟨GitIntegration.logToHistory_length env result g, ?_⟩
  rw [List.foldl_cons]
  apply GitIntegration.foldl_logToHistory_length
  rw [GitIntegration.logToHistory_length]
  exact Nat.min_le_right _ _

theorem GitIntegration.currentBranchOr_of_nonempty (fallback : String) (g : GitIntegration)
    (h : ∀ status, g.currentStatus = some status → status.currentBranch ≠ "") :
    GitIntegration.currentBranchOr fallback g =
      (match g.currentStatus with
        | some status => status.currentBranch
        | none => fallback) := by
  unfold GitIntegration.currentBranchOr
  cases hs : g.currentStatus with
  | none => rfl
  | some status =>
    dsimp only
    rw [if_pos ((jsTruthy_iff _).mpr (h status hs))]

theorem JsStr.or_text_ne_empty (x : JsStr) : (x.or (.str "unknown")).text ≠ "" := by
  unfold JsStr.or
  cases x with
  | undefined => decide
  | null => decide
  | str s =>
    by_cases hs : jsTruthy s = true
    · simp only [JsStr.truthy, hs, if_true, JsStr.text]
      exact (jsTruthy_iff s).mp hs
    · simp only [JsStr.truthy, hs, Bool.false_eq_true, if_false, JsStr.text]
      decide

theorem GitIntegration.composeStatus_currentBranch (now : String)
    (a b c d e : CommandResult) (status : GitStatus)
    (h : GitIntegration.composeStatus now a b c d e = .ok status) :
    status.currentBranch = (a.stdout.or (.str "unknown")).text := by
  unfold GitIntegration.composeStatus GitIntegration.stdoutLines at h
  cases hb : b.stdout <;> cases hc : c.stdout <;> cases hd : d.stdout <;>
    cases he : e.stdout <;>
    simp [hb, hc, hd, he, bind, Except.bind, pure, Except.pure, throw, throwThe,
      MonadExceptOf.throw] at h
  subst h
  rfl

/-- The snapshot `getGitStatus` stores never has an empty `currentBranch`: the only writer of
`currentStatus` keeps what the ledger assumes of it. -/
theorem GitIntegration.getGitStatus_currentBranch_ne (env : Env) (g : GitIntegration)
    (h : ∀ status, g.currentStatus = some status → status.currentBranch ≠ "") :
    ∀ status, (GitIntegration.getGitStatus env g).2.currentStatus = some status →
      status.currentBranch ≠ "" := by
  intro status hs
  have hg : ({ g with currentStatus := g.currentStatus } : GitIntegration) = g := by
    cases g; rfl
  have h1 := GitIntegration.getGitStatus_fst env g g.currentStatus
  have h2 := (GitIntegration.getGitStatus_frame env g).2.2
  rw [hg] at h1
  rw [h1, hs] at h2
  cases hc : GitIntegration.composedStatus env g with
  | none =>
    rw [hc] at h2
    exact h status h2.symm
  | some st =>
    rw [hc] at h2
    simp only [Option.some.injEq] at h2
    subst h2
    unfold GitIntegration.composedStatus at hc
    split at hc
    · rename_i a b c d e _ _ _ _ _
      cases hcs : GitIntegration.composeStatus (env.now g.ticks) a b c d e with
      | error err => simp [hcs, Except.toOption] at hc
      | ok st =>
        simp only [hcs, Except.toOption, Option.some.injEq] at hc
        subst hc
        rw [GitIntegration.composeStatus_currentBranch _ _ _ _ _ _ _ hcs]
        exact JsStr.or_text_ne_empty _
    · exact absurd hc (by simp)

/-- C8: `logToHistory` stores the first 50 elements of `e :: h`, where `h` is the ledger
stored before and `e` carries the fields of the result, the time of the call, and as
`branch` the `currentBranch` of the current snapshot, or `unknown` when there is none; so
the new entry is first and the older entries follow in their order, the oldest dropped. The
snapshot is one `getGitStatus` can have stored: its `currentBranch` is not empty. -/
theorem logToHistory_inserts_at_front (env : Env) (g : GitIntegration)
    (result : CommandResult)
    (hbranch : ∀ status, g.currentStatus = some status → status.currentBranch ≠ "") :
    (GitIntegration.logToHistory env result g).history =
      (({ result with
          timestamp := .str (env.now g.ticks)
          branch := match g.currentStatus with
            | some status => status.currentBranch
            | none => "unknown" } : HistoryEntry) :: g.history).take 50 ∧
    (GitIntegration.logToHistory env result g).history.tail = g.history.take 49 := by
  have hb := GitIntegration.currentBranchOr_of_nonempty "unknown" g hbranch
  have h : (GitIntegration.logToHistory env result g).history =
      (({ result with
          timestamp := .str (env.now g.ticks)
          branch := GitIntegration.currentBranchOr "unknown" g } : HistoryEntry)
        :: g.history).take 50 := by
    unfold GitIntegration.logToHistory
    simp only [List.length_cons]
    split_ifs with h
    · rfl
    · rw [List.take_of_length_le]
      simp only [List.length_cons]; omega
  rw [hb] at h
  refine ⟨h, ?_⟩
  rw [h]
  rfl

/-- C8 at a concrete state: with a snapshot on `develop` the new entry is tagged `develop`
and put before the stored one. -/
theorem logToHistory_inserts_at_front_witness :
    (GitIntegration.logToHistory Samples.allSucceed Samples.pullFailure
        { Samples.localIntegration with currentStatus := some Samples.developStatus }).history =
      [({ Samples.pullFailure with
          timestamp := .str "2024-01-01T12:00:00.000Z", branch := "develop" } : HistoryEntry)] :=
  (logToHistory_inserts_at_front Samples.allSucceed
    { Samples.localIntegration with currentStatus := some Samples.developStatus }
    Samples.pullFailure (fun status hs => by
      have : status = Samples.developStatus := (Option.some.inj hs).symm
      subst this
      decide)).1

/-! ### Declared commands -/

/-- C9: `createBranch` declares three commands, checkout and pull of `startFrom` (default
`develop`) and `checkout -b` of the full name, which is `kind/name` (default kind `feature`)
or `personal/user/name` for kind `personal`; the commands it issues are the first `k` of
them, all three followed by the status queries when it succeeds, and it succeeds with
`branchName` the full name under the Local strategy when no command fails. -/
theorem createBranch_declares_three_commands (env : Env) (g : GitIntegration)
    (branchName : String) (startFrom branchType : Option String) :
    GitIntegration.getCurrentUser = "user" ∧
    GitIntegration.fullBranchName branchName (branchType.getD "feature") =
      (if branchType.getD "feature" = "personal" then
        "personal/" ++ GitIntegration.getCurrentUser ++ "/" ++ branchName
      else branchType.getD "feature" ++ "/" ++ branchName) ∧
    GitIntegration.createBranchCommands (startFrom.getD "develop")
        (GitIntegration.fullBranchName branchName (branchType.getD "feature")) =
      ["git checkout " ++ startFrom.getD "develop",
        "git pull origin " ++ startFrom.getD "develop",
        "git checkout -b " ++
          GitIntegration.fullBranchName branchName (branchType.getD "feature")] ∧
    (((GitIntegration.createBranch env branchName startFrom branchType g).1 =
          ⟨true, some (GitIntegration.fullBranchName branchName (branchType.getD "feature")),
            none⟩ ∧
        (GitIntegration.createBranch env branchName startFrom branchType g).2.issued =
          g.issued ++ GitIntegration.createBranchCommands (startFrom.getD "develop")
            (GitIntegration.fullBranchName branchName (branchType.getD "feature")) ++
            GitIntegration.statusCommands) ∨
      (∃ e k, (GitIntegration.createBranch env branchName startFrom branchType g).1 =
          ⟨false, none, some e⟩ ∧ k ≤ 3 ∧
        (GitIntegration.createBranch env branchName startFrom branchType g).2.issued =
          g.issued ++ (GitIntegration.createBranchCommands (startFrom.getD "develop")
            (GitIntegration.fullBranchName branchName (branchType.getD "feature"))).take k)) ∧
    (∀ w, env.processCwd = some w → g.canExecuteCommands = true →
      (∀ i c,
        (GitIntegration.createBranchCommands (startFrom.getD "develop")
          (GitIntegration.fullBranchName branchName (branchType.getD "feature")))[i]? = some c →
        (env.exec (g.issued.length + i) c).error = none) →
      (GitIntegration.createBranch env branchName startFrom branchType g).1 =
        ⟨true, some (GitIntegration.fullBranchName branchName (branchType.getD "feature")),
          none⟩) := by
  have hI := GitIntegration.runCommands_issued env
    (GitIntegration.createBranchCommands (startFrom.getD "develop")
      (GitIntegration.fullBranchName branchName (branchType.getD "feature"))) g
  refine ⟨rfl, rfl, rfl, ?_, fun w hw hl hall => ?_⟩
  · unfold GitIntegration.createBranch
    dsimp only
    generalize GitIntegration.runCommands env
      (GitIntegration.createBranchCommands (startFrom.getD "develop")
        (GitIntegration.fullBranchName branchName (branchType.getD "feature"))) g = out at hI
    obtain ⟨res, g1⟩ := out
    rcases hI with ⟨h1, h2, h3⟩ | ⟨e, k, h1, h2, h3⟩
    · dsimp only at h1 h2
      subst h1
      left
      refine ⟨rfl, ?_⟩
      dsimp only
      rw [GitIntegration.refreshStatus_issued, h3 (by simp [GitIntegration.createBranchCommands])]
      simp [GitIntegration.showNotification, h2]
    · dsimp only at h1 h3
      subst h1
      right
      exact ⟨e, k, rfl, h2, h3⟩
  · have hL := (GitIntegration.runCommands_local env w hw
      (GitIntegration.createBranchCommands (startFrom.getD "develop")
        (GitIntegration.fullBranchName branchName (branchType.getD "feature"))) g hl).2 hall
    unfold GitIntegration.createBranch
    dsimp only
    generalize GitIntegration.runCommands env
      (GitIntegration.createBranchCommands (startFrom.getD "develop")
        (GitIntegration.fullBranchName branchName (branchType.getD "feature"))) g = out at hL
    obtain ⟨res, g1⟩ := out
    dsimp only at hL
    rw [hL.1]

/-- C9 at a concrete run: `createBranch("login", "develop", "feature")` under the Local
strategy with no failing command returns `feature/login` and has issued the three commands
in order before the status queries. -/
theorem createBranch_declares_three_commands_witness :
    (GitIntegration.createBranch Samples.allSucceed "login" (some "develop") (some "feature")
        Samples.localIntegration).1 = ⟨true, some "feature/login", none⟩ ∧
      (GitIntegration.createBranch Samples.allSucceed "login" (some "develop")
        (some "feature") Samples.localIntegration).2.issued =
        ["git checkout develop", "git pull origin develop", "git checkout -b feature/login",
          "git branch --show-current", "git status --porcelain", "git branch -a",
          "git log --oneline -5", "git stash list"] ∧
      GitIntegration.fullBranchName "x" "personal" = "personal/user/x" := by
  have h := (createBranch_declares_three_commands Samples.allSucceed Samples.localIntegration
    "login" (some "develop") (some "feature")).2.2.2.2 "/repo" rfl rfl
    (fun i c hc => by
      have hi : i < 3 := by
        by_contra hge
        rw [List.getElem?_eq_none (by simpa [GitIntegration.createBranchCommands] using hge)]
          at hc
        exact Option.noConfusion hc
      have : i = 0 ∨ i = 1 ∨ i = 2 := by omega
      rcases this with rfl | rfl | rfl <;>
        (simp only [GitIntegration.createBranchCommands, List.getElem?_cons_zero,
          List.getElem?_cons_succ, Option.some.injEq] at hc
         subst hc
         decide))
  exact ⟨h, by decide, by decide⟩

/-! ### Branch list -/

theorem mapThrowing_error_of_mem {α β : Type} (f : α → Except Thrown β) :
    ∀ (items : List α) (a : α), a ∈ items → (∃ e, f a = .error e) →
      ∃ e, mapThrowing f items = .error e := by
  intro items
  induction items with
  | nil => intro a ha; simp at ha
  | cons b rest ih =>
    intro a ha hf
    unfold mapThrowing
    cases hb : f b with
    | error e => exact ⟨e, rfl⟩
    | ok v =>
      have hmem : a ∈ rest := by
        rcases List.mem_cons.mp ha with rfl | h
        · obtain ⟨e, he⟩ := hf
          rw [he] at hb
          exact Except.noConfusion hb
        · exact h
      obtain ⟨e, he⟩ := ih a hmem hf
      exact ⟨e, by simp only [he]⟩

theorem mapThrowing_ok_forall₂ {α β : Type} (f : α → Except Thrown β) (P : β → α → Prop) :
    ∀ (items : List α), (∀ a ∈ items, ∃ b, f a = .ok b ∧ P b a) →
      ∃ bs, mapThrowing f items = .ok bs ∧ List.Forall₂ P bs items := by
  intro items
  induction items with
  | nil => intro _; exact ⟨[], rfl, List.Forall₂.nil⟩
  | cons a rest ih =>
    intro h
    obtain ⟨b, hb, hP⟩ := h a (List.mem_cons_self a rest)
    obtain ⟨bs, hbs, hF⟩ := ih fun x hx => h x (List.mem_cons_of_mem a hx)
    refine ⟨b :: bs, ?_, List.Forall₂.cons hP hF⟩
    unfold mapThrowing
    simp only [hb, hbs]

theorem forall₂_exists_of_mem_left {α β : Type} {P : β → α → Prop} {bs : List β}
    {items : List α} (h : List.Forall₂ P bs items) :
    ∀ b ∈ bs, ∃ a ∈ items, P b a := by
  induction h with
  | nil => intro b hb; simp at hb
  | cons hP _ ih =>
    intro b hb
    rcases List.mem_cons.mp hb with rfl | hb
    · exact ⟨_, List.mem_cons_self _ _, hP⟩
    · obtain ⟨a, ha, hPa⟩ := ih b hb
      exact ⟨a, List.mem_cons_of_mem _ ha, hPa⟩

theorem GitIntegration.branchInfo_error_of_short (g : GitIntegration) (line : String)
    (h : (jsSplit '|' line).length < 4) : ∃ e, GitIntegration.branchInfo g line = .error e := by
  unfold GitIntegration.branchInfo
  rcases hs : jsSplit '|' line with _ | ⟨a, _ | ⟨b, _ | ⟨c, _ | ⟨d, rest⟩⟩⟩⟩
  · exact ⟨_, rfl⟩
  · exact ⟨_, rfl⟩
  · exact ⟨_, rfl⟩
  · exact ⟨_, rfl⟩
  · rw [hs] at h
    simp only [List.length_cons] at h
    omega

/-- What an element of the result of `getBranches` has to do with the line it comes from. -/
theorem GitIntegration.branchInfo_of_four (g : GitIntegration) (line : String)
    (h : (jsSplit '|' line).length = 4) :
    ∃ info, GitIntegration.branchInfo g line = .ok info ∧
      ∃ a b c d, jsSplit '|' line = [a, b, c, d] ∧ info.name = jsTrim a ∧
        info.lastCommit = jsTrim b ∧ info.author = jsTrim c ∧ info.subject = jsTrim d ∧
        info.type = GitIntegration.getBranchType (jsTrim a) ∧
        (info.isCurrent = true ↔
          ∃ status, g.currentStatus = some status ∧ status.currentBranch = jsTrim a) := by
  unfold GitIntegration.branchInfo
  rcases hs : jsSplit '|' line with _ | ⟨a, _ | ⟨b, _ | ⟨c, _ | ⟨d, _ | ⟨e, rest⟩⟩⟩⟩⟩ <;>
    rw [hs] at h <;> simp only [List.length_cons, List.length_nil] at h <;> try omega
  refine ⟨_, rfl, a, b, c, d, rfl, rfl, rfl, rfl, rfl, rfl, ?_⟩
  cases hc : g.currentStatus with
  | none => simp
  | some status =>
    simp only [decide_eq_true_eq, Option.some.injEq, exists_eq_left']
    exact eq_comm

/-- C11: when the branch query resolves with an output each non-blank line of which splits
at `|` into exactly four fields, `getBranches` returns one element per non-blank line, in the
order of the lines: its `name`, `lastCommit`, `author` and `subject` are the four trimmed
fields, its `type` is `getBranchType` of the trimmed name, and `isCurrent` holds exactly when
the trimmed name is the `currentBranch` of the stored snapshot; without a snapshot every
`isCurrent` is false. -/
theorem getBranches_lists_every_line (env : Env) (g : GitIntegration) (result : CommandResult)
    (output : String)
    (hquery : (GitIntegration.executeCommand env GitIntegration.branchListCommand
      ⟨some false, none⟩ g).1 = .ok result)
    (houtput : result.stdout = .str output)
    (hfields : ∀ line ∈ GitIntegration.linesNotBlank output, (jsSplit '|' line).length = 4) :
    List.Forall₂
        (fun info line =>
          ∃ a b c d, jsSplit '|' line = [a, b, c, d] ∧ info.name = jsTrim a ∧
            info.lastCommit = jsTrim b ∧ info.author = jsTrim c ∧ info.subject = jsTrim d ∧
            info.type = GitIntegration.getBranchType (jsTrim a) ∧
            (info.isCurrent = true ↔
              ∃ status, g.currentStatus = some status ∧ status.currentBranch = jsTrim a))
        (GitIntegration.getBranches env g).1 (GitIntegration.linesNotBlank output) ∧
      (g.currentStatus = none →
        ∀ info ∈ (GitIntegration.getBranches env g).1, info.isCurrent = false) := by
  have hfr := (GitIntegration.executeCommand_frame env GitIntegration.branchListCommand
    ⟨some false, none⟩ g).1
  unfold GitIntegration.getBranches
  generalize GitIntegration.executeCommand env GitIntegration.branchListCommand
    ⟨some false, none⟩ g = out at hquery hfr
  obtain ⟨res, g1⟩ := out
  dsimp only at hquery hfr
  subst hquery
  dsimp only
  rw [houtput]
  dsimp only
  rw [nonBlankLines_eq]
  obtain ⟨infos, hmap, hall⟩ := mapThrowing_ok_forall₂ (GitIntegration.branchInfo g1)
    (fun info line =>
      ∃ a b c d, jsSplit '|' line = [a, b, c, d] ∧ info.name = jsTrim a ∧
        info.lastCommit = jsTrim b ∧ info.author = jsTrim c ∧ info.subject = jsTrim d ∧
        info.type = GitIntegration.getBranchType (jsTrim a) ∧
        (info.isCurrent = true ↔
          ∃ status, g.currentStatus = some status ∧ status.currentBranch = jsTrim a))
    (GitIntegration.linesNotBlank output)
    (fun line hl => by
      have := GitIntegration.branchInfo_of_four g1 line (hfields line hl)
      rw [hfr] at this
      exact this)
  rw [hmap]
  refine ⟨hall, fun hnone info hinfo => ?_⟩
  obtain ⟨line, _, a, b, c, d, _, _, _, _, _, _, hcur⟩ :=
    forall₂_exists_of_mem_left hall info hinfo
  cases hi : info.isCurrent with
  | false => rfl
  | true =>
    obtain ⟨status, hs, _⟩ := hcur.mp hi
    rw [hnone] at hs
    exact Option.noConfusion hs

/-- C11 at a concrete run: two branches among a blank line, none of them current without a
snapshot. -/
theorem getBranches_lists_every_line_witness :
    (GitIntegration.getBranches Samples.twoBranches Samples.localIntegration).1 =
      [⟨"main", "2 days ago", "Alice", "initial commit", "core", false⟩,
        ⟨"feature/login", "3 hours ago", "Bob", "add login", "feature", false⟩] ∧
    (∀ info ∈ (GitIntegration.getBranches Samples.twoBranches Samples.localIntegration).1,
      info.isCurrent = false) :=
  ⟨by decide,
    (getBranches_lists_every_line Samples.twoBranches Samples.localIntegration
      (GitIntegration.localResult GitIntegration.branchListCommand
        ⟨none,
          "main|2 days ago|Alice|initial commit\n\n feature/login |3 hours ago|Bob|add login\n",
          ""⟩)
      "main|2 days ago|Alice|initial commit\n\n feature/login |3 hours ago|Bob|add login"
      rfl (by decide) (by decide)).2 rfl⟩

/-- C12: `getBranches` is total (it never raises) and returns the empty list when the
branch query rejects, and when the query resolves with an output one non-blank line of which
has fewer than four fields between `|`, whatever the other lines are. -/
theorem getBranches_empty_on_failure (env : Env) (g : GitIntegration) :
    (∀ e, (GitIntegration.executeCommand env GitIntegration.branchListCommand
        ⟨some false, none⟩ g).1 = .error e →
      (GitIntegration.getBranches env g).1 = []) ∧
    (∀ result output line,
      (GitIntegration.executeCommand env GitIntegration.branchListCommand
        ⟨some false, none⟩ g).1 = .ok result →
      result.stdout = .str output → line ∈ GitIntegration.linesNotBlank output →
      (jsSplit '|' line).length < 4 →
      (GitIntegration.getBranches env g).1 = []) := by
  unfold GitIntegration.getBranches
  generalize GitIntegration.executeCommand env GitIntegration.branchListCommand
    ⟨some false, none⟩ g = out
  obtain ⟨res, g1⟩ := out
  dsimp only
  constructor
  · intro e he
    subst he
    rfl
  · intro result output line hres hout hline hshort
    subst hres
    dsimp only
    rw [hout]
    dsimp only
    rw [nonBlankLines_eq]
    obtain ⟨e, he⟩ := mapThrowing_error_of_mem (GitIntegration.branchInfo g1)
      (GitIntegration.linesNotBlank output) line hline
      (GitIntegration.branchInfo_error_of_short g1 line hshort)
    rw [he]

/-- C12 at concrete runs: a failing query, and an output whose second line has three
fields after a well-formed first line. -/
theorem getBranches_empty_on_failure_witness :
    (GitIntegration.getBranches Samples.alwaysFails Samples.localIntegration).1 = [] ∧
      (GitIntegration.getBranches Samples.shortBranchLine Samples.localIntegration).1 = [] :=
  ⟨(getBranches_empty_on_failure Samples.alwaysFails Samples.localIntegration).1 _ rfl,
    (getBranches_empty_on_failure Samples.shortBranchLine Samples.localIntegration).2
      (GitIntegration.localResult GitIntegration.branchListCommand
        ⟨none, "main|2 days ago|Alice|initial commit\ndevelop|1 day ago|Bob\n", ""⟩)
      "main|2 days ago|Alice|initial commit\ndevelop|1 day ago|Bob" "develop|1 day ago|Bob"
      rfl (by decide) (by decide) (by decide)⟩

/-! ### The command runner -/

/-- C13 as stated fails: under the Local strategy a command whose process ends with an error
makes `executeCommand` reject; the call does not resolve. -/
theorem executeCommand_rejects_on_process_error :
    (GitIntegration.executeCommand Samples.alwaysFails "git pull origin main" ⟨none, none⟩
        Samples.localIntegration).1 =
      .error (.result (GitIntegration.localResult "git pull origin main"
        ⟨some "Command failed", "", "fatal: not a git repository\n"⟩)) ∧
    ¬ ∃ result, (GitIntegration.executeCommand Samples.alwaysFails "git pull origin main"
        ⟨none, none⟩ Samples.localIntegration).1 = .ok result := by
  have h : (GitIntegration.executeCommand Samples.alwaysFails "git pull origin main"
      ⟨none, none⟩ Samples.localIntegration).1 =
      .error (.result (GitIntegration.localResult "git pull origin main"
        ⟨some "Command failed", "", "fatal: not a git repository\n"⟩)) := rfl
  refine ⟨h, ?_⟩
  rintro ⟨result, hr⟩
  rw [h] at hr
  exact Except.noConfusion hr

theorem GitIntegration.executeCommand_local_outcome (env : Env) (command : String)
    (options : Options) (g : GitIntegration)
    (hcwd : (options.cwd.orElse fun _ => env.processCwd).isSome = true)
    (hlocal : g.canExecuteCommands = true) :
    (GitIntegration.executeCommand env command options g).1 =
      (if (env.exec g.issued.length command).error.isSome then
        .error (.result (GitIntegration.localResult command (env.exec g.issued.length command)))
      else .ok (GitIntegration.localResult command (env.exec g.issued.length command))) := by
  unfold GitIntegration.executeCommand
  cases hw : options.cwd.orElse fun _ => env.processCwd with
  | none => rw [hw] at hcwd; exact absurd hcwd (by simp)
  | some w =>
    simp only [hlocal, if_true]
    split_ifs <;> rfl

/-- C13 as amended: under the Local strategy, a command whose process ends with an error
makes `executeCommand` reject with the result object, whose `success` is false, whose
`stderr` is the trimmed error stream and whose `error` is the message; a command whose
process ends without error resolves with the result object, whose `success` is true. The
caller halts in its `catch`. -/
theorem executeCommand_local_rejects_with_result (env : Env) (command : String)
    (options : Options) (g : GitIntegration)
    (hcwd : (options.cwd.orElse fun _ => env.processCwd).isSome = true)
    (hlocal : g.canExecuteCommands = true) :
    (∀ message, (env.exec g.issued.length command).error = some message →
      ∃ result, (GitIntegration.executeCommand env command options g).1 =
          .error (.result result) ∧
        result.command = .str command ∧ result.success = some false ∧
        result.stdout = .str (jsTrim (env.exec g.issued.length command).stdout) ∧
        result.stderr = .str (jsTrim (env.exec g.issued.length command).stderr) ∧
        result.error = .str message) ∧
    ((env.exec g.issued.length command).error = none →
      ∃ result, (GitIntegration.executeCommand env command options g).1 = .ok result ∧
        result.command = .str command ∧ result.success = some true ∧
        result.stdout = .str (jsTrim (env.exec g.issued.length command).stdout) ∧
        result.stderr = .str (jsTrim (env.exec g.issued.length command).stderr)) := by
  have h := GitIntegration.executeCommand_local_outcome env command options g hcwd hlocal
  constructor
  · intro message hm
    rw [h, hm]
    exact ⟨_, rfl, rfl, by simp [GitIntegration.localResult, hm], rfl, rfl,
      by simp [GitIntegration.localResult, hm]⟩
  · intro hn
    rw [h, hn]
    exact ⟨_, rfl, rfl, by simp [GitIntegration.localResult, hn], rfl, rfl⟩

/-- C13 as amended, at a concrete run: the failed pull is rejected with its result. -/
theorem executeCommand_local_rejects_with_result_witness :
    ∃ result, (GitIntegration.executeCommand Samples.alwaysFails "git pull origin main"
        ⟨none, none⟩ Samples.localIntegration).1 = .error (.result result) ∧
      result.command = .str "git pull origin main" ∧ result.success = some false ∧
      result.stdout = .str "" ∧ result.stderr = .str "fatal: not a git repository" ∧
      result.error = .str "Command failed" :=
  (executeCommand_local_rejects_with_result Samples.alwaysFails "git pull origin main"
    ⟨none, none⟩ Samples.localIntegration rfl rfl).1 "Command failed" rfl

/-- Once the default of `cwd` is evaluated, what `executeCommand` settles with is the
outcome of the variant resolved from the two flags alone, Local when process execution is
present whatever the probe says, Remote when it is absent and the cached probe is `true`,
Manual otherwise, also while the probe has not answered; no call changes the two flags. -/
theorem GitIntegration.executeCommand_variant_of_cwd (env : Env) (command : String)
    (options : Options) (g : GitIntegration)
    (hcwd : (options.cwd.orElse fun _ => env.processCwd).isSome = true) :
    (GitIntegration.executeCommand env command options g).1 =
      GitIntegration.variantOutcome env
        (GitIntegration.resolveVariant g.canExecuteCommands g.serverAvailable)
        g.issued.length command ∧
    (∀ probe, GitIntegration.resolveVariant true probe = .localProcess) ∧
    GitIntegration.resolveVariant false (some true) = .remote ∧
    GitIntegration.resolveVariant false (some false) = .manual ∧
    GitIntegration.resolveVariant false none = .manual ∧
    (GitIntegration.executeCommand env command options g).2.serverAvailable =
      g.serverAvailable ∧
    (GitIntegration.executeCommand env command options g).2.canExecuteCommands =
      g.canExecuteCommands := by
  have hf := GitIntegration.executeCommand_frame env command options g
  refine ⟨?_, fun _ => rfl, rfl, rfl, rfl, hf.2.2.2, hf.2.2.1⟩
  unfold GitIntegration.executeCommand GitIntegration.resolveVariant
    GitIntegration.variantOutcome
  cases hw : options.cwd.orElse fun _ => env.processCwd with
  | none => rw [hw] at hcwd; exact absurd hcwd (by simp)
  | some w =>
    dsimp only
    cases hc : g.canExecuteCommands with
    | true => simp only [if_true]; split_ifs <;> rfl
    | false =>
      rcases hs : g.serverAvailable with _ | _ | _ <;> simp [flag]

/-- Where a global `process` exists: a new object without process execution is Manual,
Remote after a successful probe, Manual after a failed one; with process execution it is
Local. -/
theorem GitIntegration.executeCommand_variant_of_cwd_at_samples :
    (GitIntegration.executeCommand Samples.shimmedBrowser "git status" ⟨none, none⟩
        (GitIntegration.init false)).1 = .ok (GitIntegration.manualResult "git status") ∧
    (GitIntegration.executeCommand Samples.shimmedBrowser "git status" ⟨none, none⟩
        (GitIntegration.testServerConnection (.response true) (GitIntegration.init false))).1 =
      .error (.error "TypeError" "Failed to fetch") ∧
    (GitIntegration.executeCommand Samples.shimmedBrowser "git status" ⟨none, none⟩
        (GitIntegration.testServerConnection .failed (GitIntegration.init false))).1 =
      .ok (GitIntegration.manualResult "git status") ∧
    (GitIntegration.executeCommand Samples.shimmedBrowser "git status" ⟨none, none⟩
        (GitIntegration.testServerConnection (.response true) (GitIntegration.init true))).1 =
      .ok (GitIntegration.localResult "git status" Samples.quietExit) :=
  ⟨(GitIntegration.executeCommand_variant_of_cwd Samples.shimmedBrowser "git status"
      ⟨none, none⟩ (GitIntegration.init false) rfl).1,
    (GitIntegration.executeCommand_variant_of_cwd Samples.shimmedBrowser "git status"
      ⟨none, none⟩ _ rfl).1,
    (GitIntegration.executeCommand_variant_of_cwd Samples.shimmedBrowser "git status"
      ⟨none, none⟩ _ rfl).1,
    (GitIntegration.executeCommand_variant_of_cwd Samples.shimmedBrowser "git status"
      ⟨none, none⟩ _ rfl).1⟩

/-- C14, the code at a failing input: on a page without a global `process` whose service
answers, the flags select Remote after a successful probe and Manual while the probe has not
answered, and the selected variant would resolve the command; `executeCommand` rejects with
a `ReferenceError` on the default of `cwd` in both states, before either flag is read: the
service is not asked, no command is issued, the state is unchanged. -/
theorem executeCommand_rejects_before_variant_without_process :
    GitIntegration.resolveVariant Samples.remoteIntegration.canExecuteCommands
        Samples.remoteIntegration.serverAvailable = .remote ∧
    (GitIntegration.variantOutcome Samples.browserWithService .remote
        Samples.remoteIntegration.issued.length "git status").toOption.map
        (fun result => result.success) = some (some true) ∧
    GitIntegration.executeCommand Samples.browserWithService "git status" ⟨none, none⟩
        Samples.remoteIntegration =
      (.error (.error "ReferenceError" "process is not defined"), Samples.remoteIntegration) ∧
    (GitIntegration.executeCommand Samples.browserWithService "git status" ⟨none, none⟩
        Samples.remoteIntegration).2.issued = [] ∧
    GitIntegration.resolveVariant (GitIntegration.init false).canExecuteCommands
        (GitIntegration.init false).serverAvailable = .manual ∧
    GitIntegration.variantOutcome Samples.browserWithService .manual
        (GitIntegration.init false).issued.length "git status" =
      .ok (GitIntegration.manualResult "git status") ∧
    GitIntegration.executeCommand Samples.browserWithService "git status" ⟨none, none⟩
        (GitIntegration.init false) =
      (.error (.error "ReferenceError" "process is not defined"),
        GitIntegration.init false) ∧
    (GitIntegration.executeCommand Samples.browserWithService "git status" ⟨none, none⟩
        Samples.remoteIntegration).1.toOption.isSome = false ∧
    (GitIntegration.executeCommand Samples.browserWithService "git status" ⟨none, none⟩
        (GitIntegration.init false)).1.toOption.isSome = false :=
  ⟨rfl, by decide, rfl, by decide, rfl, rfl, rfl, by decide, by decide⟩

/-- C15, the code at a failing input: on a page without a global `process`, under the Manual
strategy, `executeCommand` rejects with a `ReferenceError` while evaluating the default of
`cwd`; the command is not shown and the state is unchanged. -/
theorem executeCommand_manual_rejects_without_process :
    GitIntegration.executeCommand Samples.plainBrowser "git status" ⟨none, none⟩
        Samples.manualIntegration =
      (.error (.error "ReferenceError" "process is not defined"), Samples.manualIntegration) ∧
    GitIntegration.resolveVariant Samples.manualIntegration.canExecuteCommands
        Samples.manualIntegration.serverAvailable = .manual ∧
    ¬ ∃ result, (GitIntegration.executeCommand Samples.plainBrowser "git status" ⟨none, none⟩
        Samples.manualIntegration).1 = .ok result := by
  have h : GitIntegration.executeCommand Samples.plainBrowser "git status" ⟨none, none⟩
      Samples.manualIntegration =
      (.error (.error "ReferenceError" "process is not defined"),
        Samples.manualIntegration) := rfl
  refine ⟨h, rfl, ?_⟩
  rintro ⟨result, hr⟩
  rw [h] at hr
  exact Except.noConfusion hr

/-- Where the default of `cwd` can be evaluated, the Manual strategy resolves every command
with the placeholder result and shows the command. -/
theorem GitIntegration.executeCommand_manual_of_cwd (env : Env) (command : String)
    (options : Options) (g : GitIntegration)
    (hcwd : (options.cwd.orElse fun _ => env.processCwd).isSome = true)
    (hcan : g.canExecuteCommands = false) (hprobe : g.serverAvailable ≠ some true) :
    GitIntegration.executeCommand env command options g =
      (.ok (GitIntegration.manualResult command), { g with issued := g.issued ++ [command] }) ∧
    (GitIntegration.manualResult command).command = .str command ∧
    (GitIntegration.manualResult command).success = some true ∧
    (GitIntegration.manualResult command).manual = some true ∧
    (GitIntegration.manualResult command).stdout =
      .str "Command prepared for manual execution" := by
  refine ⟨?_, rfl, rfl, rfl, rfl⟩
  unfold GitIntegration.executeCommand
  cases hw : options.cwd.orElse fun _ => env.processCwd with
  | none => rw [hw] at hcwd; exact absurd hcwd (by simp)
  | some w =>
    have hflag : flag g.serverAvailable = false := by
      rcases hs : g.serverAvailable with _ | _ | _
      · rfl
      · rfl
      · exact absurd hs hprobe
    simp [hcan, hflag]

theorem GitIntegration.executeCommand_quiet_writes (env : Env) (command : String)
    (cwd : Option String) (g : GitIntegration) :
    (GitIntegration.executeCommand env command ⟨some false, cwd⟩ g).2.notifications =
        g.notifications ∧
      (GitIntegration.executeCommand env command ⟨some false, cwd⟩ g).2.history =
        g.history := by
  unfold GitIntegration.executeCommand
  cases cwd.orElse fun _ => env.processCwd with
  | none => simp
  | some w =>
    simp only [Option.getD_some, Bool.false_eq_true, if_false]
    split_ifs <;> simp

theorem GitIntegration.executeCommand_not_local_writes (env : Env) (command : String)
    (options : Options) (g : GitIntegration) (hcan : g.canExecuteCommands = false) :
    (GitIntegration.executeCommand env command options g).2.notifications =
        g.notifications ∧
      (GitIntegration.executeCommand env command options g).2.history = g.history := by
  unfold GitIntegration.executeCommand
  cases options.cwd.orElse fun _ => env.processCwd with
  | none => simp
  | some w =>
    simp only [hcan, Bool.false_eq_true, if_false]
    split_ifs <;> simp

/-- C16 as stated fails: under the Local strategy a call with `showOutput: false` forwards
nothing to the notification collaborator and leaves the ledger as it is; so does a call
under the Manual strategy. -/
theorem executeCommand_quiet_call_logs_nothing :
    (GitIntegration.executeCommand Samples.allSucceed "git status --porcelain"
        ⟨some false, none⟩ Samples.localIntegration).1 =
      .ok (GitIntegration.localResult "git status --porcelain"
        ⟨none, " M a.txt\n\n?? b.txt\n", ""⟩) ∧
    (GitIntegration.executeCommand Samples.allSucceed "git status --porcelain"
        ⟨some false, none⟩ Samples.localIntegration).2.notifications = [] ∧
    (GitIntegration.executeCommand Samples.allSucceed "git status --porcelain"
        ⟨some false, none⟩ Samples.localIntegration).2.history = [] ∧
    (GitIntegration.executeCommand Samples.shimmedBrowser "git status" ⟨none, none⟩
        Samples.manualIntegration).2.notifications = [] ∧
    (GitIntegration.executeCommand Samples.shimmedBrowser "git status" ⟨none, none⟩
        Samples.manualIntegration).2.history = [] := by
  refine ⟨rfl, by decide, by decide, by decide, by decide⟩

theorem GitIntegration.logToHistory_history (env : Env) (result : CommandResult)
    (g : GitIntegration) :
    (GitIntegration.logToHistory env result g).history =
      (({ result with
          timestamp := .str (env.now g.ticks)
          branch := GitIntegration.currentBranchOr "unknown" g } : HistoryEntry)
        :: g.history).take 50 := by
  unfold GitIntegration.logToHistory
  simp only [List.length_cons]
  split_ifs with h
  · rfl
  · rw [List.take_of_length_le]
    simp only [List.length_cons]; omega

theorem GitIntegration.displayCommandResult_writes (env : Env) (result : CommandResult)
    (g : GitIntegration) :
    (∃ message, (GitIntegration.displayCommandResult env result g).notifications =
      g.notifications ++ [(message, if flag result.success then "success" else "error")]) ∧
    (GitIntegration.displayCommandResult env result g).history =
      (({ result with
          timestamp := .str (env.now g.ticks)
          branch := GitIntegration.currentBranchOr "unknown" g } : HistoryEntry)
        :: g.history).take 50 := by
  unfold GitIntegration.displayCommandResult
  dsimp only
  rw [GitIntegration.logToHistory_history]
  by_cases hs : flag result.success = true
  · simp only [hs, if_true]
    exact ⟨⟨_, rfl⟩, rfl⟩
  · simp only [hs, Bool.false_eq_true, if_false]
    exact ⟨⟨_, rfl⟩, rfl⟩

/-- C16 as amended: under the Local strategy a call of `executeCommand` with `showOutput`
true or absent forwards the result to the notification collaborator, as a success or as an
error, and puts one entry at the front of the ledger, of which the first 50 are kept, tagged
with the `currentBranch` of the snapshot known at the call or with `unknown` without one; a
call with `showOutput: false` forwards nothing and adds no entry; under the Manual strategy
the call forwards nothing and adds no entry, the entry is added by `markCommandAsExecuted`. -/
theorem executeCommand_local_logs_when_shown (env : Env) (command : String)
    (options : Options) (g : GitIntegration)
    (hcwd : (options.cwd.orElse fun _ => env.processCwd).isSome = true)
    (hbranch : ∀ status, g.currentStatus = some status → status.currentBranch ≠ "") :
    (g.canExecuteCommands = true → options.showOutput.getD true = true →
      (∃ message, (GitIntegration.executeCommand env command options g).2.notifications =
        g.notifications ++
          [(message, if (env.exec g.issued.length command).error.isNone then "success"
            else "error")]) ∧
      (GitIntegration.executeCommand env command options g).2.history =
        (({ GitIntegration.localResult command (env.exec g.issued.length command) with
            timestamp := .str (env.now g.ticks)
            branch := match g.currentStatus with
              | some status => status.currentBranch
              | none => "unknown" } : HistoryEntry) :: g.history).take 50) ∧
    (options.showOutput = some false →
      (GitIntegration.executeCommand env command options g).2.notifications =
          g.notifications ∧
        (GitIntegration.executeCommand env command options g).2.history = g.history) ∧
    (g.canExecuteCommands = false → g.serverAvailable ≠ some true →
      (GitIntegration.executeCommand env command options g).1 =
          .ok (GitIntegration.manualResult command) ∧
        (GitIntegration.executeCommand env command options g).2.notifications =
          g.notifications ∧
        (GitIntegration.executeCommand env command options g).2.history = g.history ∧
        (GitIntegration.markCommandAsExecuted env command g).history =
          (({ CommandResult.empty with
              command := .str command
              success := some true
              stdout := .str "Manually executed"
              manual := some true
              timestamp := .str (env.now g.ticks)
              branch := match g.currentStatus with
                | some status => status.currentBranch
                | none => "unknown" } : HistoryEntry) :: g.history).take 50) := by
  refine ⟨fun hlocal hshow => ?_, fun hquiet => ?_, fun hcan hprobe => ?_⟩
  · have hb := GitIntegration.currentBranchOr_of_nonempty "unknown" g hbranch
    have hd := GitIntegration.displayCommandResult_writes env
      (GitIntegration.localResult command (env.exec g.issued.length command))
      { g with issued := g.issued ++ [command] }
    have hex : (GitIntegration.executeCommand env command options g).2 =
        GitIntegration.displayCommandResult env
          (GitIntegration.localResult command (env.exec g.issued.length command))
          { g with issued := g.issued ++ [command] } := by
      unfold GitIntegration.executeCommand
      cases hw : options.cwd.orElse fun _ => env.processCwd with
      | none => rw [hw] at hcwd; exact absurd hcwd (by simp)
      | some w =>
        simp only [hlocal, hshow, if_true]
        split_ifs <;> rfl
    rw [hex]
    have hsucc : flag (GitIntegration.localResult command
        (env.exec g.issued.length command)).success =
        (env.exec g.issued.length command).error.isNone := rfl
    rw [hsucc] at hd
    have hb2 : GitIntegration.currentBranchOr "unknown"
        { g with issued := g.issued ++ [command] } =
        (match g.currentStatus with
          | some status => status.currentBranch
          | none => "unknown") := hb
    refine ⟨hd.1, ?_⟩
    rw [hd.2, hb2]
  · obtain ⟨showOutput, cwd⟩ := options
    dsimp only at hquiet
    subst hquiet
    exact GitIntegration.executeCommand_quiet_writes env command cwd g
  · have hm := (GitIntegration.executeCommand_manual_of_cwd env command options g hcwd hcan
      hprobe).1
    have hw := GitIntegration.executeCommand_not_local_writes env command options g hcan
    have hb : GitIntegration.currentBranchOr "unknown" g =
        (match g.currentStatus with
          | some status => status.currentBranch
          | none => "unknown") :=
      GitIntegration.currentBranchOr_of_nonempty "unknown" g hbranch
    refine ⟨by rw [hm], hw.1, hw.2, ?_⟩
    unfold GitIntegration.markCommandAsExecuted
    simp only [GitIntegration.showNotification]
    rw [GitIntegration.logToHistory_history, hb]

/-- C16 as amended, at a concrete run: on `develop`, a failing command is notified as an
error and put first in the ledger with the tag `develop`. -/
theorem executeCommand_local_logs_when_shown_witness :
    (∃ message, (GitIntegration.executeCommand Samples.alwaysFails "git pull origin develop"
        ⟨none, none⟩ Samples.onDevelop).2.notifications = [] ++ [(message, "error")]) ∧
      (GitIntegration.executeCommand Samples.alwaysFails "git pull origin develop"
        ⟨none, none⟩ Samples.onDevelop).2.history =
        [({ GitIntegration.localResult "git pull origin develop"
              ⟨some "Command failed", "", "fatal: not a git repository\n"⟩ with
            timestamp := .str "2024-01-01T12:00:00.000Z", branch := "develop" } :
          HistoryEntry)] :=
  (executeCommand_local_logs_when_shown Samples.alwaysFails "git pull origin develop"
    ⟨none, none⟩ Samples.onDevelop rfl
    (fun status hs => by
      have : status = Samples.developStatus := (Option.some.inj hs).symm
      subst this
      decide)).1 rfl rfl

/-! ### Pull and push -/

/-- C17, the code at a failing input: in a repository with a detached head the
current-branch query prints nothing, the snapshot stores `unknown` as `currentBranch`, and
`pullLatest` and `pushChanges` then issue `git pull origin unknown` and
`git push origin unknown`, not the commands for `main`; without a snapshot they issue the
commands for `main`. -/
theorem pull_and_push_target_unknown_after_empty_branch_query :
    (GitIntegration.statusQuery Samples.detachedHead Samples.localIntegration 0
        "git branch --show-current").toOption.map (fun result => result.stdout) =
      some (.str "") ∧
    (GitIntegration.getGitStatus Samples.detachedHead
        Samples.localIntegration).2.currentStatus.map (fun status => status.currentBranch) =
      some "unknown" ∧
    (GitIntegration.pullLatest Samples.detachedHead
        (GitIntegration.getGitStatus Samples.detachedHead Samples.localIntegration).2).2.issued =
      GitIntegration.statusCommands ++ ["git pull origin unknown"] ++
        GitIntegration.statusCommands ∧
    (GitIntegration.pushChanges Samples.detachedHead
        (GitIntegration.getGitStatus Samples.detachedHead Samples.localIntegration).2).2.issued =
      GitIntegration.statusCommands ++ ["git push origin unknown"] ++
        GitIntegration.statusCommands ∧
    (GitIntegration.pullLatest Samples.detachedHead Samples.localIntegration).2.issued =
      ["git pull origin main"] ++ GitIntegration.statusCommands ∧
    (GitIntegration.pushChanges Samples.detachedHead Samples.localIntegration).2.issued =
      ["git push origin main"] ++ GitIntegration.statusCommands := by
  refine ⟨by decide, by decide, by decide, by decide, by decide, by decide⟩

/-- The command `pullLatest` and `pushChanges` hand to `executeCommand` names the
`currentBranch` of the stored snapshot, `main` without a snapshot; it is the only command of
the operation, the status queries of the refresh follow it when it succeeds. -/
theorem GitIntegration.pull_and_push_issue_one_command (env : Env) (g : GitIntegration)
    (w : String) (hcwd : env.processCwd = some w)
    (hbranch : ∀ status, g.currentStatus = some status → status.currentBranch ≠ "") :
    (∃ tail, (GitIntegration.pullLatest env g).2.issued =
        g.issued ++ ["git pull origin " ++
          (match g.currentStatus with
            | some status => status.currentBranch
            | none => "main")] ++ tail ∧
      (tail = [] ∨ tail = GitIntegration.statusCommands)) ∧
    (∃ tail, (GitIntegration.pushChanges env g).2.issued =
        g.issued ++ ["git push origin " ++
          (match g.currentStatus with
            | some status => status.currentBranch
            | none => "main")] ++ tail ∧
      (tail = [] ∨ tail = GitIntegration.statusCommands)) := by
  have hb : (match g.currentStatus with
      | some status => status.currentBranch
      | none => "main") = GitIntegration.currentBranchOr "main" g :=
    (GitIntegration.currentBranchOr_of_nonempty "main" g hbranch).symm
  constructor
  · have hi := GitIntegration.executeCommand_issued env
      ("git pull origin " ++ GitIntegration.currentBranchOr "main" g) ⟨none, none⟩ g
    simp only [Option.orElse, hcwd, Option.isSome_some, if_true] at hi
    unfold GitIntegration.pullLatest
    dsimp only
    generalize GitIntegration.executeCommand env
      ("git pull origin " ++ GitIntegration.currentBranchOr "main" g) ⟨none, none⟩ g = out at hi
    obtain ⟨res, g1⟩ := out
    dsimp only at hi
    rw [hb]
    cases res with
    | error e =>
      exact ⟨[], by simp [GitIntegration.showNotification, hi], Or.inl rfl⟩
    | ok v =>
      refine ⟨GitIntegration.statusCommands, ?_, Or.inr rfl⟩
      dsimp only
      rw [GitIntegration.refreshStatus_issued, hcwd]
      simp [GitIntegration.showNotification, hi]
  · have hi := GitIntegration.executeCommand_issued env
      ("git push origin " ++ GitIntegration.currentBranchOr "main" g) ⟨none, none⟩ g
    simp only [Option.orElse, hcwd, Option.isSome_some, if_true] at hi
    unfold GitIntegration.pushChanges
    dsimp only
    generalize GitIntegration.executeCommand env
      ("git push origin " ++ GitIntegration.currentBranchOr "main" g) ⟨none, none⟩ g = out at hi
    obtain ⟨res, g1⟩ := out
    dsimp only at hi
    rw [hb]
    cases res with
    | error e =>
      exact ⟨[], by simp [GitIntegration.showNotification, hi], Or.inl rfl⟩
    | ok v =>
      refine ⟨GitIntegration.statusCommands, ?_, Or.inr rfl⟩
      dsimp only
      rw [GitIntegration.refreshStatus_issued, hcwd]
      simp [GitIntegration.showNotification, hi]

/-! ### Tutorial -/

theorem RealGitExecutor.showTutorialPopup_frame (step : TutorialStep) (r : RealGitExecutor) :
    (RealGitExecutor.showTutorialPopup step r).tutorialActive = r.tutorialActive ∧
      (RealGitExecutor.showTutorialPopup step r).currentTutorialStep = r.currentTutorialStep ∧
      (RealGitExecutor.showTutorialPopup step r).currentTutorial = r.currentTutorial ∧
      (RealGitExecutor.showTutorialPopup step r).popup = some step ∧
      (RealGitExecutor.showTutorialPopup step r).notifications = r.notifications := by
  unfold RealGitExecutor.showTutorialPopup
  dsimp only
  cases step.highlight with
  | none => exact ⟨rfl, rfl, rfl, rfl, rfl⟩
  | some selector =>
    dsimp only
    split_ifs <;> exact ⟨rfl, rfl, rfl, rfl, rfl⟩

theorem RealGitExecutor.endTutorial_frame (r : RealGitExecutor) :
    (RealGitExecutor.endTutorial r).tutorialActive = false ∧
      (RealGitExecutor.endTutorial r).currentTutorialStep = 0 ∧
      (RealGitExecutor.endTutorial r).currentTutorial = r.currentTutorial ∧
      (RealGitExecutor.endTutorial r).popup = none ∧
      (RealGitExecutor.endTutorial r).notifications =
        r.notifications ++ [("Tutorial completed! 🎉", "success")] :=
  ⟨rfl, rfl, rfl, rfl, rfl⟩

/-- The method `showTutorialStep()` on an active session over an array of steps. -/
theorem RealGitExecutor.showTutorialStep_steps (r : RealGitExecutor)
    (steps : List TutorialStep) (hactive : r.tutorialActive = true)
    (htut : r.currentTutorial = some (.steps steps)) :
    RealGitExecutor.showTutorialStep r =
      (if h : r.currentTutorialStep < steps.length then
        (.ok (), RealGitExecutor.showTutorialPopup (steps.get ⟨r.currentTutorialStep, h⟩) r)
      else (.ok (), RealGitExecutor.endTutorial r)) := by
  unfold RealGitExecutor.showTutorialStep
  simp only [hactive, Bool.not_true, Bool.false_eq_true, if_false, htut]
  by_cases h : r.currentTutorialStep < steps.length
  · rw [dif_pos h, if_neg (by omega)]
    rw [List.getElem?_eq_getElem h]
    rfl
  · rw [dif_neg h, if_pos (by omega)]

theorem RealGitExecutor.nextTutorialStep_steps (r : RealGitExecutor)
    (steps : List TutorialStep) (hactive : r.tutorialActive = true)
    (htut : r.currentTutorial = some (.steps steps)) :
    (RealGitExecutor.nextTutorialStep r).1 = .ok () ∧
    (r.currentTutorialStep + 1 < steps.length →
      (RealGitExecutor.nextTutorialStep r).2.tutorialActive = true ∧
      (RealGitExecutor.nextTutorialStep r).2.currentTutorialStep = r.currentTutorialStep + 1 ∧
      (RealGitExecutor.nextTutorialStep r).2.currentTutorial = some (.steps steps) ∧
      (RealGitExecutor.nextTutorialStep r).2.popup = steps[r.currentTutorialStep + 1]? ∧
      (RealGitExecutor.nextTutorialStep r).2.notifications = r.notifications) ∧
    (¬ r.currentTutorialStep + 1 < steps.length →
      (RealGitExecutor.nextTutorialStep r).2.tutorialActive = false ∧
      (RealGitExecutor.nextTutorialStep r).2.currentTutorialStep = 0 ∧
      (RealGitExecutor.nextTutorialStep r).2.popup = none ∧
      (RealGitExecutor.nextTutorialStep r).2.notifications =
        r.notifications ++ [("Tutorial completed! 🎉", "success")]) := by
  unfold RealGitExecutor.nextTutorialStep
  rw [RealGitExecutor.showTutorialStep_steps
    { r with currentTutorialStep := r.currentTutorialStep + 1 } steps hactive htut]
  dsimp only
  by_cases h : r.currentTutorialStep + 1 < steps.length
  · rw [dif_pos h]
    have hf := RealGitExecutor.showTutorialPopup_frame
      (steps.get ⟨r.currentTutorialStep + 1, h⟩)
      { r with currentTutorialStep := r.currentTutorialStep + 1 }
    refine ⟨rfl, fun _ => ⟨hf.1.trans hactive, hf.2.1, hf.2.2.1.trans htut, ?_, hf.2.2.2.2⟩,
      fun hn => absurd h hn⟩
    rw [hf.2.2.2.1, List.getElem?_eq_getElem h]
    rfl
  · rw [dif_neg h]
    exact ⟨rfl, fun hp => absurd hp h, fun _ => ⟨rfl, rfl, rfl, rfl⟩⟩

theorem RealGitExecutor.advances_active :
    ∀ (k : Nat) (r : RealGitExecutor) (steps : List TutorialStep),
      r.tutorialActive = true → r.currentTutorial = some (.steps steps) →
      r.currentTutorialStep + k < steps.length →
      (RealGitExecutor.advances k r).tutorialActive = true ∧
        (RealGitExecutor.advances k r).currentTutorialStep = r.currentTutorialStep + k ∧
        (RealGitExecutor.advances k r).currentTutorial = some (.steps steps) := by
  intro k
  induction k with
  | zero => intro r steps ha ht _; exact ⟨ha, rfl, ht⟩
  | succ k ih =>
    intro r steps ha ht hlt
    obtain ⟨_, hstep, _⟩ := RealGitExecutor.nextTutorialStep_steps r steps ha ht
    obtain ⟨h1, h2, h3, _, _⟩ := hstep (by omega)
    unfold RealGitExecutor.advances
    obtain ⟨i1, i2, i3⟩ := ih (RealGitExecutor.nextTutorialStep r).2 steps h1 h3
      (by rw [h2]; omega)
    exact ⟨i1, by rw [i2, h2]; omega, i3⟩

theorem RealGitExecutor.advances_complete (k : Nat) (r : RealGitExecutor)
    (steps : List TutorialStep) (hactive : r.tutorialActive = true)
    (htut : r.currentTutorial = some (.steps steps))
    (hlen : r.currentTutorialStep + k + 1 = steps.length) :
    (RealGitExecutor.advances (k + 1) r).tutorialActive = false ∧
      (RealGitExecutor.advances (k + 1) r).currentTutorialStep = 0 := by
  have hsplit : ∀ (j : Nat) (s : RealGitExecutor),
      RealGitExecutor.advances (j + 1) s =
        (RealGitExecutor.nextTutorialStep (RealGitExecutor.advances j s)).2 := by
    intro j
    induction j with
    | zero => intro s; rfl
    | succ j ih =>
      intro s
      show RealGitExecutor.advances (j + 1) (RealGitExecutor.nextTutorialStep s).2 = _
      rw [ih]
      rfl
  obtain ⟨h1, h2, h3⟩ := RealGitExecutor.advances_active k r steps hactive htut (by omega)
  obtain ⟨_, _, hdone⟩ := RealGitExecutor.nextTutorialStep_steps
    (RealGitExecutor.advances k r) steps h1 h3
  rw [hsplit]
  obtain ⟨d1, d2, _, _⟩ := hdone (by rw [h2]; omega)
  exact ⟨d1, d2⟩

/-- A name whose lookup gives a non-empty array of steps starts an active session at
index 0 of that array, whatever the state before. -/
theorem RealGitExecutor.startTutorial_steps (tutorialName : String) (r : RealGitExecutor)
    (steps : List TutorialStep)
    (hname : RealGitExecutor.tutorialNamed tutorialName = .steps steps)
    (hne : 0 < steps.length) :
    (RealGitExecutor.startTutorial tutorialName r).1 = .ok () ∧
      (RealGitExecutor.startTutorial tutorialName r).2.tutorialActive = true ∧
      (RealGitExecutor.startTutorial tutorialName r).2.currentTutorialStep = 0 ∧
      (RealGitExecutor.startTutorial tutorialName r).2.currentTutorial =
        some (.steps steps) ∧
      (RealGitExecutor.startTutorial tutorialName r).2.popup = steps[0]? := by
  unfold RealGitExecutor.startTutorial
  rw [RealGitExecutor.showTutorialStep_steps
    { r with
      tutorialActive := true
      currentTutorialStep := 0
      currentTutorial := some (RealGitExecutor.tutorialNamed tutorialName) } steps rfl
    (by rw [hname])]
  dsimp only
  rw [dif_pos hne]
  have hf := RealGitExecutor.showTutorialPopup_frame (steps.get ⟨0, hne⟩)
    { r with
      tutorialActive := true
      currentTutorialStep := 0
      currentTutorial := some (RealGitExecutor.tutorialNamed tutorialName) }
  refine ⟨rfl, hf.1, hf.2.1, ?_, ?_⟩
  · rw [hf.2.2.1, hname]
  · rw [hf.2.2.2.1, List.getElem?_eq_getElem hne]
    rfl

/-- C18: on an active session over an array of `n` steps at index `i`, `nextTutorialStep`
does not throw and leaves the session active at index `i + 1` with that step displayed when
`i + 1 < n`, and otherwise completed (`tutorialActive` false, `currentTutorialStep` 0, one
completion notification); from `startTutorial`, after `k` advances with `k < n` the session
is active at index `k`, and it is completed after `n` advances, `n` being 6 for
`basic-workflow`, 5 for `individual-chaos` and 4 for `team-coordination`. -/
theorem nextTutorialStep_advances_or_completes (r : RealGitExecutor)
    (steps : List TutorialStep) (hactive : r.tutorialActive = true)
    (htut : r.currentTutorial = some (.steps steps)) (start : RealGitExecutor) :
    (RealGitExecutor.nextTutorialStep r).1 = .ok () ∧
    (r.currentTutorialStep + 1 < steps.length →
      (RealGitExecutor.nextTutorialStep r).2.tutorialActive = true ∧
      (RealGitExecutor.nextTutorialStep r).2.currentTutorialStep = r.currentTutorialStep + 1 ∧
      (RealGitExecutor.nextTutorialStep r).2.currentTutorial = some (.steps steps) ∧
      (RealGitExecutor.nextTutorialStep r).2.popup = steps[r.currentTutorialStep + 1]? ∧
      (RealGitExecutor.nextTutorialStep r).2.notifications = r.notifications) ∧
    (¬ r.currentTutorialStep + 1 < steps.length →
      (RealGitExecutor.nextTutorialStep r).2.tutorialActive = false ∧
      (RealGitExecutor.nextTutorialStep r).2.currentTutorialStep = 0 ∧
      (RealGitExecutor.nextTutorialStep r).2.popup = none ∧
      (RealGitExecutor.nextTutorialStep r).2.notifications =
        r.notifications ++ [("Tutorial completed! 🎉", "success")]) ∧
    (∀ name n, (name, n) ∈ [("basic-workflow", 6), ("individual-chaos", 5),
        ("team-coordination", 4)] →
      (∀ k, k < n →
        (RealGitExecutor.advances k
          (RealGitExecutor.startTutorial name start).2).tutorialActive = true ∧
        (RealGitExecutor.advances k
          (RealGitExecutor.startTutorial name start).2).currentTutorialStep = k) ∧
      (RealGitExecutor.advances n
        (RealGitExecutor.startTutorial name start).2).tutorialActive = false ∧
      (RealGitExecutor.advances n
        (RealGitExecutor.startTutorial name start).2).currentTutorialStep = 0) := by
  obtain ⟨h1, h2, h3⟩ := RealGitExecutor.nextTutorialStep_steps r steps hactive htut
  refine ⟨h1, h2, h3, ?_⟩
  have key : ∀ (name : String) (tutorial : List TutorialStep) (n : Nat),
      RealGitExecutor.tutorialNamed name = .steps tutorial → tutorial.length = n + 1 →
      (∀ k, k < n + 1 →
        (RealGitExecutor.advances k
          (RealGitExecutor.startTutorial name start).2).tutorialActive = true ∧
        (RealGitExecutor.advances k
          (RealGitExecutor.startTutorial name start).2).currentTutorialStep = k) ∧
      (RealGitExecutor.advances (n + 1)
        (RealGitExecutor.startTutorial name start).2).tutorialActive = false ∧
      (RealGitExecutor.advances (n + 1)
        (RealGitExecutor.startTutorial name start).2).currentTutorialStep = 0 := by
    intro name tutorial n hname hlen
    obtain ⟨_, s1, s2, s3, _⟩ := RealGitExecutor.startTutorial_steps name start tutorial hname
      (by omega)
    refine ⟨fun k hk => ?_, ?_⟩
    · obtain ⟨a1, a2, _⟩ := RealGitExecutor.advances_active k _ tutorial s1 s3
        (by rw [s2]; omega)
      exact ⟨a1, by rw [a2, s2]; omega⟩
    · exact RealGitExecutor.advances_complete n _ tutorial s1 s3 (by rw [s2]; omega)
  intro name n hmem
  simp only [List.mem_cons, Prod.mk.injEq, List.mem_singleton, List.not_mem_nil, or_false]
    at hmem
  rcases hmem with ⟨rfl, rfl⟩ | ⟨rfl, rfl⟩ | ⟨rfl, rfl⟩
  · exact key _ RealGitExecutor.getBasicWorkflowTutorial 5 rfl rfl
  · exact key _ RealGitExecutor.getIndividualChaosTutorial 4 rfl rfl
  · exact key _ RealGitExecutor.getTeamCoordinationTutorial 3 rfl rfl

/-- C18 at a concrete session: the first advance of the basic workflow shows its second
step, and the sixth advance completes it. -/
theorem nextTutorialStep_advances_or_completes_witness :
    (RealGitExecutor.nextTutorialStep
        (RealGitExecutor.startTutorial "basic-workflow"
          (RealGitExecutor.init false)).2).2.currentTutorialStep = 1 ∧
      (RealGitExecutor.advances 6
        (RealGitExecutor.startTutorial "basic-workflow"
          (RealGitExecutor.init false)).2).tutorialActive = false := by
  have h := nextTutorialStep_advances_or_completes
    (RealGitExecutor.startTutorial "basic-workflow" (RealGitExecutor.init false)).2
    RealGitExecutor.getBasicWorkflowTutorial (by decide) (by decide)
    (RealGitExecutor.init false)
  exact ⟨(h.2.1 (by decide)).2.1, (h.2.2.2 "basic-workflow" 6 (by decide)).2.1⟩

/-- C19 as stated fails: after `startTutorial` and `endTutorial`, `nextTutorialStep` goes
through `endTutorial` once more and emits a second completion notification. -/
theorem advance_after_skip_notifies_again :
    (RealGitExecutor.endTutorial
        (RealGitExecutor.startTutorial "basic-workflow"
          (RealGitExecutor.init false)).2).notifications =
      [("Tutorial completed! 🎉", "success")] ∧
    (RealGitExecutor.nextTutorialStep
        (RealGitExecutor.endTutorial
          (RealGitExecutor.startTutorial "basic-workflow"
            (RealGitExecutor.init false)).2)).2.notifications =
      [("Tutorial completed! 🎉", "success"), ("Tutorial completed! 🎉", "success")] ∧
    (RealGitExecutor.nextTutorialStep
        (RealGitExecutor.endTutorial
          (RealGitExecutor.startTutorial "basic-workflow"
            (RealGitExecutor.init false)).2)).2 ≠
      RealGitExecutor.endTutorial
        (RealGitExecutor.startTutorial "basic-workflow" (RealGitExecutor.init false)).2 := by
  refine ⟨by decide, by decide, by decide⟩

/-- C19 as amended: from every state `endTutorial` gives the completed state
(`tutorialActive` false, `currentTutorialStep` 0, no popup); a `nextTutorialStep` after it
does not throw and changes nothing of that state but the notifications, to which it adds the
completion notification once more. -/
theorem endTutorial_completes_and_advance_renotifies (r : RealGitExecutor) :
    (RealGitExecutor.endTutorial r).tutorialActive = false ∧
    (RealGitExecutor.endTutorial r).currentTutorialStep = 0 ∧
    (RealGitExecutor.endTutorial r).popup = none ∧
    (RealGitExecutor.nextTutorialStep (RealGitExecutor.endTutorial r)).1 = .ok () ∧
    (RealGitExecutor.nextTutorialStep (RealGitExecutor.endTutorial r)).2 =
      { RealGitExecutor.endTutorial r with
        notifications := (RealGitExecutor.endTutorial r).notifications ++
          [("Tutorial completed! 🎉", "success")] } :=
  ⟨rfl, rfl, rfl, rfl, rfl⟩

/-- C20, the code at a failing input: `startTutorial("constructor")` finds the function
`Object` under that name, takes it for the sequence and throws when it shows the step at
index 0, which does not exist, leaving the session marked active; under `toString` it finds
a function of length 0 and completes at once. Neither loads the basic workflow. -/
theorem startTutorial_fails_on_inherited_name :
    (RealGitExecutor.startTutorial "constructor" (RealGitExecutor.init false)).1 =
      .error (.error "TypeError" "Cannot read properties of undefined (reading title)") ∧
    (RealGitExecutor.startTutorial "constructor" (RealGitExecutor.init false)).2.tutorialActive
      = true ∧
    (RealGitExecutor.startTutorial "constructor" (RealGitExecutor.init false)).2.currentTutorial
      = some (.inherited (some 1)) ∧
    (RealGitExecutor.startTutorial "constructor" (RealGitExecutor.init false)).2.popup = none ∧
    (RealGitExecutor.startTutorial "toString" (RealGitExecutor.init false)).2.tutorialActive
      = false ∧
    (RealGitExecutor.startTutorial "toString" (RealGitExecutor.init false)).2.currentTutorial
      = some (.inherited (some 0)) := by
  refine ⟨rfl, by decide, by decide, by decide, by decide, by decide⟩

/-- For a name that is not a member of `Object.prototype`, `startTutorial` starts, from any
state, an active session at index 0 of the sequence of that name, 6, 5 or 4 steps long, and
of the basic workflow for any other name. -/
theorem RealGitExecutor.startTutorial_of_own_name (tutorialName : String)
    (r : RealGitExecutor)
    (hown : RealGitExecutor.objectPrototypeKeys.contains tutorialName = false) :
    ∃ steps, RealGitExecutor.tutorialNamed tutorialName = .steps steps ∧
      steps =
        (if tutorialName = "individual-chaos" then RealGitExecutor.getIndividualChaosTutorial
        else if tutorialName = "team-coordination" then
          RealGitExecutor.getTeamCoordinationTutorial
        else RealGitExecutor.getBasicWorkflowTutorial) ∧
      RealGitExecutor.getBasicWorkflowTutorial.length = 6 ∧
      RealGitExecutor.getIndividualChaosTutorial.length = 5 ∧
      RealGitExecutor.getTeamCoordinationTutorial.length = 4 ∧
      (RealGitExecutor.startTutorial tutorialName r).1 = .ok () ∧
      (RealGitExecutor.startTutorial tutorialName r).2.tutorialActive = true ∧
      (RealGitExecutor.startTutorial tutorialName r).2.currentTutorialStep = 0 ∧
      (RealGitExecutor.startTutorial tutorialName r).2.currentTutorial = some (.steps steps) ∧
      (RealGitExecutor.startTutorial tutorialName r).2.popup = steps[0]? := by
  have hname : RealGitExecutor.tutorialNamed tutorialName = .steps
      (if tutorialName = "individual-chaos" then RealGitExecutor.getIndividualChaosTutorial
      else if tutorialName = "team-coordination" then
        RealGitExecutor.getTeamCoordinationTutorial
      else RealGitExecutor.getBasicWorkflowTutorial) := by
    unfold RealGitExecutor.tutorialNamed
    rw [hown]
    by_cases h1 : tutorialName = "basic-workflow"
    · subst h1; decide
    · by_cases h2 : tutorialName = "individual-chaos"
      · subst h2; decide
      · by_cases h3 : tutorialName = "team-coordination"
        · subst h3; decide
        · simp [h1, h2, h3]
  have hlen : 0 < (if tutorialName = "individual-chaos" then
        RealGitExecutor.getIndividualChaosTutorial
      else if tutorialName = "team-coordination" then
        RealGitExecutor.getTeamCoordinationTutorial
      else RealGitExecutor.getBasicWorkflowTutorial).length := by
    split_ifs <;> decide
  obtain ⟨s0, s1, s2, s3, s4⟩ := RealGitExecutor.startTutorial_steps tutorialName r _ hname hlen
  exact ⟨_, hname, rfl, rfl, rfl, rfl, s0, s1, s2, s3, s4⟩

/-! ### The action of a tutorial step -/

theorem RealGitExecutor.withLogsOf_self (r : RealGitExecutor) :
    RealGitExecutor.withLogsOf r r = r := by
  cases r; rfl

theorem RealGitExecutor.withLogsOf_trans (r r1 r2 : RealGitExecutor)
    (h1 : r1 = RealGitExecutor.withLogsOf r r1) (h2 : r2 = RealGitExecutor.withLogsOf r1 r2) :
    r2 = RealGitExecutor.withLogsOf r r2 := by
  rw [h2, h1]
  rfl

theorem RealGitExecutor.executeGitCommand_logs (env : Env) (command : String)
    (options : GitOptions) (r : RealGitExecutor) :
    (RealGitExecutor.executeGitCommand env command options r).2 =
      RealGitExecutor.withLogsOf r
        (RealGitExecutor.executeGitCommand env command options r).2 := by
  unfold RealGitExecutor.executeGitCommand RealGitExecutor.showCommandDialog
    RealGitExecutor.executeDirectly RealGitExecutor.simulateExecution
    RealGitExecutor.logResult RealGitExecutor.logCommand RealGitExecutor.withLogsOf
  dsimp only
  split_ifs <;> (try split) <;> rfl

theorem RealGitExecutor.runCommands_logs (env : Env) (description : String) :
    ∀ (commands : List String) (results : List CommandResult) (r : RealGitExecutor),
      (RealGitExecutor.runCommands env description commands results r).2 =
        RealGitExecutor.withLogsOf r
          (RealGitExecutor.runCommands env description commands results r).2 := by
  intro commands
  induction commands with
  | nil => intro results r; exact (RealGitExecutor.withLogsOf_self r).symm
  | cons command rest ih =>
    intro results r
    have hstep := RealGitExecutor.executeGitCommand_logs env command
      ⟨some true, none, none, some description⟩ r
    simp only [RealGitExecutor.runCommands]
    generalize RealGitExecutor.executeGitCommand env command
      ⟨some true, none, none, some description⟩ r = step at hstep
    obtain ⟨result, r1⟩ := step
    dsimp only at hstep ⊢
    split_ifs
    · exact hstep
    · exact RealGitExecutor.withLogsOf_trans r r1 _ hstep (ih _ r1)

theorem RealGitExecutor.runAction_logs (env : Env) (action : TutorialAction)
    (r : RealGitExecutor) :
    RealGitExecutor.runAction env action r =
      RealGitExecutor.withLogsOf r (RealGitExecutor.runAction env action r) := by
  cases action with
  | executeGitCommand command => exact RealGitExecutor.executeGitCommand_logs env _ _ r
  | createBranch branchName => exact RealGitExecutor.runCommands_logs env _ _ _ r
  | commitChanges type message => exact RealGitExecutor.runCommands_logs env _ _ _ r
  | mergeBranch sourceBranch => exact RealGitExecutor.runCommands_logs env _ _ _ r

theorem RealGitExecutor.showTutorialStep_withLogsOf (r logs : RealGitExecutor) :
    RealGitExecutor.showTutorialStep (RealGitExecutor.withLogsOf r logs) =
      ((RealGitExecutor.showTutorialStep r).1,
        RealGitExecutor.withLogsOf (RealGitExecutor.showTutorialStep r).2 logs) := by
  obtain ⟨can, history, active, index, tutorial, dialogs, executed, notes, ticks, popup,
    highlight⟩ := r
  unfold RealGitExecutor.showTutorialStep RealGitExecutor.withLogsOf
  dsimp only
  cases active with
  | false => rfl
  | true =>
    simp only [Bool.not_true, Bool.false_eq_true, if_false]
    rcases tutorial with _ | ⟨steps⟩ | ⟨_ | length⟩
    · rfl
    · dsimp only
      split_ifs
      · rfl
      · cases hs : steps[index]? with
        | none => rfl
        | some step =>
          dsimp only
          unfold RealGitExecutor.showTutorialPopup
          dsimp only
          cases step.highlight with
          | none => rfl
          | some selector => dsimp only; split_ifs <;> rfl
    · rfl
    · dsimp only
      split_ifs <;> rfl

/-- C21: the handler of the Try It! button of a step with a bound action, whatever the
commands of the action end with (success, failure, cancelled dialog), settles as
`nextTutorialStep` does from the state before the click and leaves the state
`nextTutorialStep` leaves, apart from what the action wrote to the logs (command history,
dialogs, executed commands, clock); on an active session over an array of steps it does not
throw. -/
theorem runStepAction_advances_like_next (env : Env) (r : RealGitExecutor)
    (step : TutorialStep) (action : TutorialAction) (haction : step.action = some action) :
    (RealGitExecutor.runStepAction env step r).1 = (RealGitExecutor.nextTutorialStep r).1 ∧
    (RealGitExecutor.runStepAction env step r).2 =
      RealGitExecutor.withLogsOf (RealGitExecutor.nextTutorialStep r).2
        (RealGitExecutor.runAction env action r) ∧
    (RealGitExecutor.runStepAction env step r).2.tutorialActive =
      (RealGitExecutor.nextTutorialStep r).2.tutorialActive ∧
    (RealGitExecutor.runStepAction env step r).2.currentTutorialStep =
      (RealGitExecutor.nextTutorialStep r).2.currentTutorialStep ∧
    (RealGitExecutor.runStepAction env step r).2.currentTutorial =
      (RealGitExecutor.nextTutorialStep r).2.currentTutorial ∧
    (RealGitExecutor.runStepAction env step r).2.popup =
      (RealGitExecutor.nextTutorialStep r).2.popup ∧
    (RealGitExecutor.runStepAction env step r).2.notifications =
      (RealGitExecutor.nextTutorialStep r).2.notifications ∧
    (∀ steps, r.tutorialActive = true → r.currentTutorial = some (.steps steps) →
      (RealGitExecutor.runStepAction env step r).1 = .ok ()) := by
  have hlogs := RealGitExecutor.runAction_logs env action r
  have hrun : RealGitExecutor.runStepAction env step r =
      ((RealGitExecutor.nextTutorialStep r).1,
        RealGitExecutor.withLogsOf (RealGitExecutor.nextTutorialStep r).2
          (RealGitExecutor.runAction env action r)) := by
    unfold RealGitExecutor.runStepAction
    rw [haction]
    dsimp only
    unfold RealGitExecutor.nextTutorialStep
    have hshift : ({ RealGitExecutor.runAction env action r with
        currentTutorialStep :=
          (RealGitExecutor.runAction env action r).currentTutorialStep + 1 } :
          RealGitExecutor) =
        RealGitExecutor.withLogsOf
          { r with currentTutorialStep := r.currentTutorialStep + 1 }
          (RealGitExecutor.runAction env action r) := by
      rw [hlogs]
      rfl
    rw [hshift, RealGitExecutor.showTutorialStep_withLogsOf]
  rw [hrun]
  refine ⟨rfl, rfl, rfl, rfl, rfl, rfl, rfl, fun steps ha ht => ?_⟩
  exact (RealGitExecutor.nextTutorialStep_steps r steps ha ht).1

/-- C21 at a concrete run: at the step `Create a Feature Branch` of the basic tutorial the
pull of the bound `createBranch` fails, the operation stops after two commands, and the
handler still resolves and shows the fourth step, as a click on Next does. -/
theorem runStepAction_advances_like_next_witness :
    Samples.atBranchStep.popup = some Samples.branchStep ∧
    ((RealGitExecutor.createBranch Samples.pullFails "tutorial/my-first-feature" none
        Samples.atBranchStep).1.map (fun result => result.success)) =
      [some true, some false] ∧
    (RealGitExecutor.runStepAction Samples.pullFails Samples.branchStep
        Samples.atBranchStep).2.tutorialActive = true ∧
    (RealGitExecutor.runStepAction Samples.pullFails Samples.branchStep
        Samples.atBranchStep).2.currentTutorialStep = 3 ∧
    (RealGitExecutor.runStepAction Samples.pullFails Samples.branchStep
        Samples.atBranchStep).2.popup = RealGitExecutor.getBasicWorkflowTutorial[3]? ∧
    (RealGitExecutor.runStepAction Samples.pullFails Samples.branchStep
        Samples.atBranchStep).1 = .ok () := by
  obtain ⟨_, _, hactive, hindex, _, hpopup, _, hok⟩ :=
    runStepAction_advances_like_next Samples.pullFails Samples.atBranchStep
      Samples.branchStep (.createBranch "tutorial/my-first-feature") rfl
  refine ⟨by decide, by decide, ?_, ?_, ?_, hok RealGitExecutor.getBasicWorkflowTutorial
    (by decide) (by decide)⟩
  · rw [hactive]; decide
  · rw [hindex]; decide
  · rw [hpopup]; decide

/-! ### Command history of `RealGitExecutor` -/

theorem RealGitExecutor.logCommand_length (env : Env) (command description : String)
    (r : RealGitExecutor) :
    (RealGitExecutor.logCommand env command description r).commandHistory.length =
      r.commandHistory.length + 1 := by
  simp [RealGitExecutor.logCommand]

/-- After `logResult` the history is the last 100 of the entries it had and the new one. -/
theorem RealGitExecutor.logResult_keeps_last_100 (result : CommandResult)
    (r : RealGitExecutor) :
    (RealGitExecutor.logResult result r).commandHistory =
        (r.commandHistory ++ [LogEntry.result result]).drop
          (r.commandHistory.length + 1 - 100) ∧
      (RealGitExecutor.logResult result r).commandHistory.length =
        min (r.commandHistory.length + 1) 100 := by
  unfold RealGitExecutor.logResult
  simp only [List.length_append, List.length_singleton]
  split_ifs with h
  · simp only [List.length_drop, List.length_append, List.length_singleton]
    exact ⟨trivial, by omega⟩
  · have h0 : r.commandHistory.length + 1 - 100 = 0 := by omega
    rw [h0, List.drop_zero]
    simp only [List.length_append, List.length_singleton]
    exact ⟨trivial, by omega⟩

theorem RealGitExecutor.logCalls_commands_length (env : Env) (command description : String) :
    ∀ (n : Nat) (r : RealGitExecutor),
      (RealGitExecutor.logCalls env (List.replicate n (.command command description))
        r).commandHistory.length = r.commandHistory.length + n := by
  intro n
  induction n with
  | zero => intro r; rfl
  | succ n ih =>
    intro r
    unfold RealGitExecutor.logCalls
    rw [List.replicate_succ, List.foldl_cons]
    have := ih (RealGitExecutor.logCall env (.command command description) r)
    unfold RealGitExecutor.logCalls at this
    rw [this]
    simp only [RealGitExecutor.logCall, RealGitExecutor.logCommand_length]
    omega

theorem RealGitExecutor.repeatCommand_cancelled_length (env : Env) (command : String)
    (hcancel : ∀ k c, env.dialog k c = .cancel) :
    ∀ (n : Nat) (r : RealGitExecutor),
      (RealGitExecutor.repeatCommand env command n r).commandHistory.length =
        r.commandHistory.length + n := by
  intro n
  induction n with
  | zero => intro r; rfl
  | succ n ih =>
    intro r
    unfold RealGitExecutor.repeatCommand
    rw [ih]
    simp only [RealGitExecutor.executeGitCommand, RealGitExecutor.showCommandDialog,
      Option.getD_none, Bool.not_false, Bool.and_self, if_true, hcancel,
      RealGitExecutor.logCommand, List.length_append, List.length_singleton]
    omega

/-- C22, the code at a failing input: `logCommand` pushes without cutting, so after 101
calls of `logCommand` from the empty history, or after 101 calls of `executeGitCommand`
whose dialogs the user closes, or after one `logCommand` that follows a `logResult` on a
full history, `commandHistory` holds 101 entries. -/
theorem commandHistory_exceeds_100_after_logCommand :
    (RealGitExecutor.logCalls Samples.plainBrowser
        (List.replicate 101 (.command "git status" ""))
        (RealGitExecutor.init false)).commandHistory.length = 101 ∧
    (RealGitExecutor.repeatCommand Samples.plainBrowser "git status" 101
        (RealGitExecutor.init false)).commandHistory.length = 101 ∧
    (RealGitExecutor.logCommand Samples.plainBrowser "git status" ""
        (RealGitExecutor.logResult RealGitExecutor.cancelledResult
          (RealGitExecutor.logCalls Samples.plainBrowser
            (List.replicate 101 (.command "git status" ""))
            (RealGitExecutor.init false)))).commandHistory.length = 101 := by
  have h1 := RealGitExecutor.logCalls_commands_length Samples.plainBrowser "git status" ""
    101 (RealGitExecutor.init false)
  have h2 := RealGitExecutor.repeatCommand_cancelled_length Samples.plainBrowser "git status"
    (fun _ _ => rfl) 101 (RealGitExecutor.init false)
  refine ⟨h1, h2, ?_⟩
  rw [RealGitExecutor.logCommand_length, (RealGitExecutor.logResult_keeps_last_100 _ _).2, h1]
  rfl

/-! ### Clean working tree -/

theorem splitChars_ne_nil (sep : Char) (cs : List Char) : splitChars sep cs ≠ [] := by
  cases cs with
  | nil => simp [splitChars]
  | cons c rest =>
    unfold splitChars
    split_ifs
    · simp
    · split <;> simp

theorem splitChars_forall (sep : Char) (p : Char → Prop) :
    ∀ cs : List Char,
      (∀ line ∈ splitChars sep cs, ∀ c ∈ line, p c) ↔ (∀ c ∈ cs, c ≠ sep → p c) := by
  intro cs
  induction cs with
  | nil => simp [splitChars]
  | cons a rest ih =>
    unfold splitChars
    by_cases ha : a = sep
    · simp only [ha, if_true, List.mem_cons, forall_eq_or_imp, List.not_mem_nil,
        IsEmpty.forall_iff, implies_true, true_and, ne_eq, not_true_eq_false]
      exact ih
    · simp only [ha, if_false]
      rcases hs : splitChars sep rest with _ | ⟨l, ls⟩
      · exact absurd hs (splitChars_ne_nil sep rest)
      · rw [hs] at ih
        simp only [List.mem_cons, forall_eq_or_imp, ne_eq, ha, not_false_eq_true,
          forall_const] at ih ⊢
        constructor
        · rintro ⟨⟨hpa, hl⟩, hls⟩
          exact ⟨hpa, ih.mp ⟨hl, hls⟩⟩
        · rintro ⟨hpa, hrest⟩
          obtain ⟨hl, hls⟩ := ih.mpr hrest
          exact ⟨⟨hpa, hl⟩, hls⟩

/-- An output trims to the empty string exactly when it has no non-blank line. -/
theorem jsTrim_eq_empty_iff (output : String) :
    jsTrim output = "" ↔ (nonBlankLines output).length = 0 := by
  have hnl : jsIsWhiteSpace '\n' = true := by decide
  have h1 : jsTrim output = "" ↔ ∀ c ∈ output.data, jsIsWhiteSpace c = true := by
    unfold jsTrim
    rw [← trimChars_eq_nil_iff]
    constructor
    · intro h; exact congrArg String.data h
    · intro h; exact String.ext h
  have h2 : (nonBlankLines output).length = 0 ↔
      ∀ line ∈ splitChars '\n' output.data, ∀ c ∈ line, jsIsWhiteSpace c = true := by
    rw [List.length_eq_zero, nonBlankLines_eq]
    unfold GitIntegration.linesNotBlank jsSplit GitIntegration.isBlank
    simp only [List.filter_eq_nil_iff, List.mem_map, Bool.not_eq_true', Bool.not_eq_false,
      forall_exists_index, and_imp, forall_apply_eq_imp_iff₂, List.all_eq_true]
  rw [h1, h2, splitChars_forall]
  constructor
  · intro h c hc _; exact h c hc
  · intro h c hc
    by_cases hn : c = '\n'
    · rw [hn]; exact hnl
    · exact h c hc hn

theorem GitIntegration.composeStatus_files (now : String) (a b c d e : CommandResult)
    (status : GitStatus) (h : GitIntegration.composeStatus now a b c d e = .ok status) :
    ∃ files, b.stdout = .str files ∧
      status.uncommittedFiles = (nonBlankLines files).length ∧
      status.isClean = (jsTrim files == "") := by
  unfold GitIntegration.composeStatus GitIntegration.stdoutLines at h
  cases hb : b.stdout <;> cases hc : c.stdout <;> cases hd : d.stdout <;>
    cases he : e.stdout <;>
    simp [hb, hc, hd, he, bind, Except.bind, pure, Except.pure, throw, throwThe,
      MonadExceptOf.throw] at h
  subst h
  exact ⟨_, rfl, rfl, rfl⟩

/-- C23: in every snapshot `getGitStatus` composes, returns and stores, `isClean` is true
exactly when `uncommittedFiles` is 0. -/
theorem snapshot_clean_iff_no_uncommitted_files (env : Env) (g : GitIntegration)
    (status : GitStatus) (h : (GitIntegration.getGitStatus env g).1 = some status) :
    (GitIntegration.getGitStatus env g).2.currentStatus = some status ∧
      (status.isClean = true ↔ status.uncommittedFiles = 0) := by
  have hg : ({ g with currentStatus := g.currentStatus } : GitIntegration) = g := by
    cases g; rfl
  have h1 := GitIntegration.getGitStatus_fst env g g.currentStatus
  have h2 := (GitIntegration.getGitStatus_frame env g).2.2
  rw [hg] at h1
  rw [h] at h2 h1
  refine ⟨h2, ?_⟩
  unfold GitIntegration.composedStatus at h1
  split at h1
  · rename_i a b c d e _ _ _ _ _
    cases hcs : GitIntegration.composeStatus (env.now g.ticks) a b c d e with
    | error err => simp [hcs, Except.toOption] at h1
    | ok st =>
      simp only [hcs, Except.toOption, Option.some.injEq] at h1
      subst h1
      obtain ⟨files, _, hcount, hclean⟩ :=
        GitIntegration.composeStatus_files _ _ _ _ _ _ _ hcs
      rw [hclean, hcount, ← jsTrim_eq_empty_iff]
      simp
  · exact absurd h1 (by simp)

/-- C23 at concrete runs: a snapshot with two changed files is not clean, one without
output is clean. -/
theorem snapshot_clean_iff_no_uncommitted_files_witness :
    (∃ status, (GitIntegration.getGitStatus Samples.allSucceed Samples.localIntegration).1 =
        some status ∧ status.uncommittedFiles = 2 ∧
        (status.isClean = true ↔ status.uncommittedFiles = 0)) ∧
    (∃ status, (GitIntegration.getGitStatus Samples.detachedHead Samples.localIntegration).1 =
        some status ∧ status.uncommittedFiles = 0 ∧
        (status.isClean = true ↔ status.uncommittedFiles = 0)) :=
  ⟨⟨_, rfl, by decide,
      (snapshot_clean_iff_no_uncommitted_files Samples.allSucceed Samples.localIntegration _
        rfl).2⟩,
    ⟨_, rfl, by decide,
      (snapshot_clean_iff_no_uncommitted_files Samples.detachedHead Samples.localIntegration _
        rfl).2⟩⟩

/-! ### Construction and classification of branch names -/

theorem String.append_ne_of_head (p s t : String)
    (h : ∀ c, p.data.head? = some c → t.data.head? ≠ some c) (hp : p.data ≠ []) :
    p ++ s ≠ t := by
  intro heq
  have hd : (p ++ s).data = t.data := congrArg String.data heq
  rw [String.data_append] at hd
  cases hpd : p.data with
  | nil => exact hp hpd
  | cons c rest =>
    rw [hpd] at hd
    have := h c (by rw [hpd]; rfl)
    rw [← hd] at this
    exact this rfl

theorem jsStartsWith_append (p s : String) : jsStartsWith (p ++ s) p = true := by
  unfold jsStartsWith
  rw [String.data_append, List.isPrefixOf_iff_prefix]
  exact List.prefix_append _ _

theorem jsStartsWith_false_of_head (p q s : String)
    (h : ∀ c, p.data.head? = some c → q.data.head? ≠ some c) (hp : p.data ≠ [])
    (hq : q.data ≠ []) : jsStartsWith (p ++ s) q = false := by
  unfold jsStartsWith
  rw [String.data_append]
  cases hpd : p.data with
  | nil => exact absurd hpd hp
  | cons c rest =>
    cases hqd : q.data with
    | nil => exact absurd hqd hq
    | cons d rest' =>
      have := h c (by rw [hpd]; rfl)
      rw [hqd] at this
      have hcd : d ≠ c := fun hdc => this (by rw [hdc]; rfl)
      simp [List.isPrefixOf, hcd]

theorem GitIntegration.not_core_of_head (folder rest : String) (hne : folder.data ≠ [])
    (h : ∀ core ∈ ["main", "master", "staging", "develop", "draft"],
      ∀ c, folder.data.head? = some c → (core : String).data.head? ≠ some c) :
    ["main", "master", "staging", "develop", "draft"].contains (folder ++ rest) = false := by
  rw [Bool.eq_false_iff]
  intro hmem
  have hm : folder ++ rest ∈ ["main", "master", "staging", "develop", "draft"] := by
    simpa using hmem
  exact String.append_ne_of_head folder rest _ (h _ hm) hne rfl

/-- C24: for every name and every kind among `feature`, `experiment`, `personal` and
`hotfix`, the full branch name `createBranch` builds, `kind/name` or `personal/user/name`,
is classified by `getBranchType` as that kind, and so never as `core`. -/
theorem fullBranchName_classified_as_kind (branchName kind : String)
    (hkind : kind ∈ ["feature", "experiment", "personal", "hotfix"]) :
    GitIntegration.getBranchType (GitIntegration.fullBranchName branchName kind) = kind ∧
      GitIntegration.getBranchType (GitIntegration.fullBranchName branchName kind) ≠ "core" := by
  have hmain : GitIntegration.getBranchType (GitIntegration.fullBranchName branchName kind) =
      kind := by
    simp only [List.mem_cons, List.mem_singleton, List.not_mem_nil, or_false] at hkind
    rcases hkind with rfl | rfl | rfl | rfl
    · have hfull : GitIntegration.fullBranchName branchName "feature" =
          "feature/" ++ branchName := by
        unfold GitIntegration.fullBranchName
        rw [if_neg (by decide)]
        rfl
      rw [hfull]
      unfold GitIntegration.getBranchType
      rw [GitIntegration.not_core_of_head "feature/" branchName (by decide) (by decide),
        jsStartsWith_append]
      rfl
    · have hfull : GitIntegration.fullBranchName branchName "experiment" =
          "experiment/" ++ branchName := by
        unfold GitIntegration.fullBranchName
        rw [if_neg (by decide)]
        rfl
      rw [hfull]
      unfold GitIntegration.getBranchType
      rw [GitIntegration.not_core_of_head "experiment/" branchName (by decide) (by decide),
        jsStartsWith_false_of_head "experiment/" "feature/" branchName (by decide)
          (by decide) (by decide),
        jsStartsWith_append]
      rfl
    · have hfull : GitIntegration.fullBranchName branchName "personal" =
          "personal/user/" ++ branchName := by
        unfold GitIntegration.fullBranchName GitIntegration.getCurrentUser
        rw [if_pos rfl]
        rfl
      have hstart : jsStartsWith ("personal/user/" ++ branchName) "personal/" = true := by
        have h := jsStartsWith_append "personal/" ("user/" ++ branchName)
        rw [← String.append_assoc] at h
        exact h
      rw [hfull]
      unfold GitIntegration.getBranchType
      rw [GitIntegration.not_core_of_head "personal/user/" branchName (by decide) (by decide),
        jsStartsWith_false_of_head "personal/user/" "feature/" branchName (by decide)
          (by decide) (by decide),
        jsStartsWith_false_of_head "personal/user/" "experiment/" branchName (by decide)
          (by decide) (by decide),
        hstart]
      rfl
    · have hfull : GitIntegration.fullBranchName branchName "hotfix" =
          "hotfix/" ++ branchName := by
        unfold GitIntegration.fullBranchName
        rw [if_neg (by decide)]
        rfl
      rw [hfull]
      unfold GitIntegration.getBranchType
      rw [GitIntegration.not_core_of_head "hotfix/" branchName (by decide) (by decide),
        jsStartsWith_false_of_head "hotfix/" "feature/" branchName (by decide)
          (by decide) (by decide),
        jsStartsWith_false_of_head "hotfix/" "experiment/" branchName (by decide)
          (by decide) (by decide),
        jsStartsWith_false_of_head "hotfix/" "personal/" branchName (by decide)
          (by decide) (by decide),
        jsStartsWith_append]
      rfl
  refine ⟨hmain, ?_⟩
  rw [hmain]
  simp only [List.mem_cons, List.mem_singleton, List.not_mem_nil, or_false] at hkind
  rcases hkind with rfl | rfl | rfl | rfl <;> decide

/-- C24 at concrete names: `login` as a feature and as a personal branch, and a name that
is itself the name of a core branch. -/
theorem fullBranchName_classified_as_kind_witness :
    GitIntegration.getBranchType (GitIntegration.fullBranchName "login" "feature") =
        "feature" ∧
      GitIntegration.getBranchType (GitIntegration.fullBranchName "main" "personal") =
        "personal" ∧
      GitIntegration.fullBranchName "main" "personal" = "personal/user/main" :=
  ⟨(fullBranchName_classified_as_kind "login" "feature" (by decide)).1,
    (fullBranchName_classified_as_kind "main" "personal" (by decide)).1, by decide⟩

/-! ### Invariant of the tutorial state -/

/-- C25, the code at a failing input: after `startTutorial("__proto__")` from the initial
state the session is active while the loaded value has no length; further advances raise the
index without bound; after `startTutorial("constructor")` the session is active at index 0
of a value of length 1 that has no step, and no step is displayed. -/
theorem tutorial_invariant_broken_by_inherited_name :
    RealGitExecutor.tutorialInvariant
        (RealGitExecutor.tutorialCalls [.start "__proto__"] (RealGitExecutor.init false)) =
      false ∧
    (RealGitExecutor.tutorialCalls [.start "__proto__", .next, .next, .next]
        (RealGitExecutor.init false)).tutorialActive = true ∧
    (RealGitExecutor.tutorialCalls [.start "__proto__", .next, .next, .next]
        (RealGitExecutor.init false)).currentTutorialStep = 3 ∧
    RealGitExecutor.tutorialLength
        (RealGitExecutor.tutorialCalls [.start "__proto__", .next, .next, .next]
          (RealGitExecutor.init false)) = none ∧
    (RealGitExecutor.tutorialCalls [.start "constructor"]
        (RealGitExecutor.init false)).tutorialActive = true ∧
    RealGitExecutor.stepDisplayed
        (RealGitExecutor.tutorialCalls [.start "constructor"] (RealGitExecutor.init false)) =
      false ∧
    (RealGitExecutor.tutorialCalls [.start "constructor"]
        (RealGitExecutor.init false)).popup = none := by
  refine ⟨by decide, by decide, by decide, by decide, by decide, by decide, by decide⟩

theorem RealGitExecutor.nextTutorialStep_inactive (r : RealGitExecutor)
    (h : r.tutorialActive = false) :
    (RealGitExecutor.nextTutorialStep r).2.tutorialActive = false ∧
      (RealGitExecutor.nextTutorialStep r).2.currentTutorialStep = 0 := by
  unfold RealGitExecutor.nextTutorialStep RealGitExecutor.showTutorialStep
  simp only [h, Bool.not_false, if_true]
  exact ⟨rfl, rfl⟩

/-- Over names that are not members of `Object.prototype`, every sequence of calls of
`startTutorial`, `nextTutorialStep` and `endTutorial` from the initial state leaves an
active session with its index below the length of the loaded sequence and the step at that
index displayed, and an inactive session with index 0. -/
theorem RealGitExecutor.tutorialInvariant_of_own_names (calls : List TutorialCall)
    (canExecuteDirectly : Bool)
    (hown : ∀ tutorialName, TutorialCall.start tutorialName ∈ calls →
      RealGitExecutor.objectPrototypeKeys.contains tutorialName = false) :
    RealGitExecutor.tutorialInvariant
        (RealGitExecutor.tutorialCalls calls (RealGitExecutor.init canExecuteDirectly)) = true ∧
      ((RealGitExecutor.tutorialCalls calls
          (RealGitExecutor.init canExecuteDirectly)).tutorialActive = true →
        RealGitExecutor.stepDisplayed
          (RealGitExecutor.tutorialCalls calls (RealGitExecutor.init canExecuteDirectly)) =
          true) := by
  have key : ∀ (calls : List TutorialCall) (r : RealGitExecutor),
      (∀ tutorialName, TutorialCall.start tutorialName ∈ calls →
        RealGitExecutor.objectPrototypeKeys.contains tutorialName = false) →
      ((r.tutorialActive = true → ∃ steps, r.currentTutorial = some (.steps steps) ∧
          r.currentTutorialStep < steps.length ∧ r.popup = steps[r.currentTutorialStep]?) ∧
        (r.tutorialActive = false → r.currentTutorialStep = 0)) →
      (((RealGitExecutor.tutorialCalls calls r).tutorialActive = true →
          ∃ steps, (RealGitExecutor.tutorialCalls calls r).currentTutorial =
              some (.steps steps) ∧
            (RealGitExecutor.tutorialCalls calls r).currentTutorialStep < steps.length ∧
            (RealGitExecutor.tutorialCalls calls r).popup =
              steps[(RealGitExecutor.tutorialCalls calls r).currentTutorialStep]?) ∧
        ((RealGitExecutor.tutorialCalls calls r).tutorialActive = false →
          (RealGitExecutor.tutorialCalls calls r).currentTutorialStep = 0)) := by
    intro calls
    induction calls with
    | nil => intro r _ h; exact h
    | cons call rest ih =>
      intro r hnames hinv
      unfold RealGitExecutor.tutorialCalls
      rw [List.foldl_cons]
      apply ih (RealGitExecutor.tutorialCall call r)
        (fun name hn => hnames name (List.mem_cons_of_mem _ hn))
      cases call with
      | start tutorialName =>
        obtain ⟨steps, _, hsteps, _, _, _, _, h1, h2, h3, h4⟩ :=
          RealGitExecutor.startTutorial_of_own_name tutorialName r
            (hnames tutorialName (List.mem_cons_self _ _))
        have hlen : 0 < steps.length := by
          rw [hsteps]; split_ifs <;> decide
        refine ⟨fun _ => ⟨steps, h3, ?_, ?_⟩, fun hf => ?_⟩
        · show (RealGitExecutor.startTutorial tutorialName r).2.currentTutorialStep < _
          rw [h2]; exact hlen
        · show (RealGitExecutor.startTutorial tutorialName r).2.popup = steps[
            (RealGitExecutor.startTutorial tutorialName r).2.currentTutorialStep]?
          rw [h2, h4]
        · exact h2
      | next =>
        have hcall : RealGitExecutor.tutorialCall TutorialCall.next r =
            (RealGitExecutor.nextTutorialStep r).2 := rfl
        rw [hcall]
        cases ha : r.tutorialActive with
        | false =>
          obtain ⟨n1, n2⟩ := RealGitExecutor.nextTutorialStep_inactive r ha
          exact ⟨fun h => by rw [n1] at h; exact Bool.noConfusion h, fun _ => n2⟩
        | true =>
          obtain ⟨steps, ht, _, _⟩ := hinv.1 ha
          obtain ⟨_, hstep, hdone⟩ := RealGitExecutor.nextTutorialStep_steps r steps ha ht
          by_cases hlt : r.currentTutorialStep + 1 < steps.length
          · obtain ⟨a1, a2, a3, a4, _⟩ := hstep hlt
            exact ⟨fun _ => ⟨steps, a3, by rw [a2]; exact hlt, by rw [a2, a4]⟩,
              fun hf => by rw [a1] at hf; exact Bool.noConfusion hf⟩
          · obtain ⟨d1, d2, _, _⟩ := hdone hlt
            exact ⟨fun h => by rw [d1] at h; exact Bool.noConfusion h, fun _ => d2⟩
      | skip =>
        exact ⟨fun h => Bool.noConfusion h, fun _ => rfl⟩
  obtain ⟨hact, hinact⟩ := key calls (RealGitExecutor.init canExecuteDirectly) hown
    ⟨fun h => Bool.noConfusion h, fun _ => rfl⟩
  generalize RealGitExecutor.tutorialCalls calls (RealGitExecutor.init canExecuteDirectly) = s
    at hact hinact
  unfold RealGitExecutor.tutorialInvariant RealGitExecutor.stepDisplayed
    RealGitExecutor.tutorialLength
  cases ha : s.tutorialActive with
  | false =>
    simp only [Bool.false_eq_true, if_false, beq_iff_eq, false_implies, and_true]
    exact hinact ha
  | true =>
    obtain ⟨steps, ht, hlt, hp⟩ := hact ha
    simp only [if_true, ht, decide_eq_true_eq, true_implies]
    refine ⟨hlt, ?_⟩
    rw [List.getElem?_eq_getElem hlt] at hp ⊢
    simp [hp]

/-! ### Simulated execution -/

theorem RealGitExecutor.not_inherited_of_head (command : String)
    (h : command.data.head? = some 'g') :
    RealGitExecutor.objectPrototypeKeys.contains command = false := by
  rw [Bool.eq_false_iff]
  intro hmem
  have hm : command ∈ RealGitExecutor.objectPrototypeKeys := by simpa using hmem
  simp only [RealGitExecutor.objectPrototypeKeys, List.mem_cons, List.mem_singleton,
    List.not_mem_nil, or_false] at hm
  rcases hm with rfl | rfl | rfl | rfl | rfl | rfl | rfl | rfl | rfl | rfl | rfl | rfl <;>
    exact absurd h (by decide)

theorem RealGitExecutor.simulationFor_success (command : String)
    (h : RealGitExecutor.objectPrototypeKeys.contains command = false) :
    (RealGitExecutor.simulationFor command).success = some true := by
  unfold RealGitExecutor.simulationFor
  rw [h]
  split_ifs <;> first | rfl | contradiction

/-- Without process execution, a dialog of a compound operation settles with the
cancellation object or with a simulated success; nothing is handed to `exec`. -/
theorem RealGitExecutor.executeGitCommand_simulated (env : Env) (command description : String)
    (r : RealGitExecutor) (hcan : r.canExecuteDirectly = false)
    (hown : RealGitExecutor.objectPrototypeKeys.contains command = false) :
    ((RealGitExecutor.executeGitCommand env command ⟨some true, none, none, some description⟩
          r).1 = RealGitExecutor.cancelledResult ∨
        (RealGitExecutor.executeGitCommand env command
          ⟨some true, none, none, some description⟩ r).1.success = some true) ∧
      (RealGitExecutor.executeGitCommand env command
        ⟨some true, none, none, some description⟩ r).2.canExecuteDirectly = false ∧
      (RealGitExecutor.executeGitCommand env command
        ⟨some true, none, none, some description⟩ r).2.executed = r.executed ∧
      (RealGitExecutor.executeGitCommand env command
        ⟨some true, none, none, some description⟩ r).2.dialogs = r.dialogs ++ [command] := by
  have hs := RealGitExecutor.simulationFor_success command hown
  simp only [RealGitExecutor.executeGitCommand, RealGitExecutor.showCommandDialog,
    Option.getD_some, Option.getD_none, Bool.not_false, Bool.and_self, if_true,
    RealGitExecutor.logCommand]
  cases env.dialog r.dialogs.length command with
  | cancel => exact ⟨Or.inl rfl, hcan, rfl, rfl⟩
  | execute =>
    simp only [RealGitExecutor.executeDirectly, hcan, Bool.not_false, if_true,
      RealGitExecutor.simulateExecution, RealGitExecutor.logResult]
    exact ⟨Or.inr hs, trivial, trivial, trivial⟩

theorem RealGitExecutor.runCommands_simulated (env : Env) (description : String) :
    ∀ (commands : List String) (results : List CommandResult) (r : RealGitExecutor),
      r.canExecuteDirectly = false →
      (∀ command ∈ commands,
        RealGitExecutor.objectPrototypeKeys.contains command = false) →
      ∃ new, (RealGitExecutor.runCommands env description commands results r).1 =
          results ++ new ∧
        new.length = commands.length ∧
        (∀ result ∈ new, result = RealGitExecutor.cancelledResult ∨
          result.success = some true) ∧
        (RealGitExecutor.runCommands env description commands results r).2.dialogs =
          r.dialogs ++ commands ∧
        (RealGitExecutor.runCommands env description commands results r).2.executed =
          r.executed := by
  intro commands
  induction commands with
  | nil => intro results r _ _; exact ⟨[], by simp [RealGitExecutor.runCommands]⟩
  | cons command rest ih =>
    intro results r hcan hown
    obtain ⟨hres, hcan1, hexec, hdial⟩ := RealGitExecutor.executeGitCommand_simulated env
      command description r hcan (hown command (List.mem_cons_self _ _))
    simp only [RealGitExecutor.runCommands]
    generalize RealGitExecutor.executeGitCommand env command
      ⟨some true, none, none, some description⟩ r = step at hres hcan1 hexec hdial
    obtain ⟨result, r1⟩ := step
    dsimp only at hres hcan1 hexec hdial ⊢
    have hstop : RealGitExecutor.stops result = false := by
      rcases hres with rfl | hs
      · decide
      · simp [RealGitExecutor.stops, flag, hs]
    rw [hstop]
    simp only [Bool.false_eq_true, if_false]
    obtain ⟨new, h1, h2, h3, h4, h5⟩ := ih (results ++ [result]) r1 hcan1
      (fun c hc => hown c (List.mem_cons_of_mem _ hc))
    refine ⟨result :: new, by rw [h1]; simp, by simp [h2], ?_, by rw [h4, hdial]; simp,
      by rw [h5, hexec]⟩
    intro x hx
    rcases List.mem_cons.mp hx with rfl | hx
    · exact hres
    · exact h3 x hx

/-- Without process execution every command that is not the name of a member of
`Object.prototype` is simulated with `success` true and nothing is handed to `exec`; so,
whatever the user clicks in the dialogs, `createBranch`, `commitChanges` and `mergeBranch`
show the dialogs of all their commands and return 3, 2 and 4 results, each of them the
cancellation object or a success. -/
theorem RealGitExecutor.compound_operations_complete_when_simulated (env : Env)
    (r : RealGitExecutor)
    (hcan : r.canExecuteDirectly = false) :
    (∀ command, RealGitExecutor.objectPrototypeKeys.contains command = false →
      (RealGitExecutor.executeDirectly env command r).1.success = some true ∧
      (RealGitExecutor.executeDirectly env command r).2.executed = r.executed) ∧
    (∀ (branchName : String) (startFrom : Option String),
      (RealGitExecutor.createBranch env branchName startFrom r).1.length = 3 ∧
      (∀ result ∈ (RealGitExecutor.createBranch env branchName startFrom r).1,
        result = RealGitExecutor.cancelledResult ∨ result.success = some true) ∧
      (RealGitExecutor.createBranch env branchName startFrom r).2.dialogs =
        r.dialogs ++ RealGitExecutor.createBranchCommands branchName
          (startFrom.getD "develop") ∧
      (RealGitExecutor.createBranch env branchName startFrom r).2.executed = r.executed) ∧
    (∀ (type message : String) (files : Option String),
      (RealGitExecutor.commitChanges env type message files r).1.length = 2 ∧
      (∀ result ∈ (RealGitExecutor.commitChanges env type message files r).1,
        result = RealGitExecutor.cancelledResult ∨ result.success = some true) ∧
      (RealGitExecutor.commitChanges env type message files r).2.dialogs =
        r.dialogs ++ RealGitExecutor.commitCommands type message (files.getD ".") ∧
      (RealGitExecutor.commitChanges env type message files r).2.executed = r.executed) ∧
    (∀ (sourceBranch : String) (targetBranch : Option String),
      (RealGitExecutor.mergeBranch env sourceBranch targetBranch r).1.length = 4 ∧
      (∀ result ∈ (RealGitExecutor.mergeBranch env sourceBranch targetBranch r).1,
        result = RealGitExecutor.cancelledResult ∨ result.success = some true) ∧
      (RealGitExecutor.mergeBranch env sourceBranch targetBranch r).2.dialogs =
        r.dialogs ++ RealGitExecutor.mergeBranchCommands sourceBranch
          (targetBranch.getD "develop") ∧
      (RealGitExecutor.mergeBranch env sourceBranch targetBranch r).2.executed =
        r.executed) := by
  refine ⟨fun command hown => ?_, fun branchName startFrom => ?_,
    fun type message files => ?_, fun sourceBranch targetBranch => ?_⟩
  · simp only [RealGitExecutor.executeDirectly, hcan, Bool.not_false, if_true,
      RealGitExecutor.simulateExecution, RealGitExecutor.logResult]
    exact ⟨RealGitExecutor.simulationFor_success command hown, trivial⟩
  · obtain ⟨new, h1, h2, h3, h4, h5⟩ := RealGitExecutor.runCommands_simulated env
      ("Creating branch " ++ branchName ++ " from " ++ startFrom.getD "develop")
      (RealGitExecutor.createBranchCommands branchName (startFrom.getD "develop")) [] r hcan
      (fun c hc => by
        apply RealGitExecutor.not_inherited_of_head
        simp only [RealGitExecutor.createBranchCommands, List.mem_cons, List.mem_singleton,
          List.not_mem_nil, or_false] at hc
        rcases hc with rfl | rfl | rfl <;> (simp only [String.data_append]; rfl))
    unfold RealGitExecutor.createBranch
    rw [List.nil_append] at h1
    rw [h1]
    exact ⟨h2, h3, h4, h5⟩
  · obtain ⟨new, h1, h2, h3, h4, h5⟩ := RealGitExecutor.runCommands_simulated env
      ("Committing changes: " ++ type ++ ": " ++ message)
      (RealGitExecutor.commitCommands type message (files.getD ".")) [] r hcan
      (fun c hc => by
        apply RealGitExecutor.not_inherited_of_head
        simp only [RealGitExecutor.commitCommands, List.mem_cons, List.mem_singleton,
          List.not_mem_nil, or_false] at hc
        rcases hc with rfl | rfl <;> (simp only [String.data_append]; rfl))
    unfold RealGitExecutor.commitChanges
    rw [List.nil_append] at h1
    rw [h1]
    exact ⟨h2, h3, h4, h5⟩
  · obtain ⟨new, h1, h2, h3, h4, h5⟩ := RealGitExecutor.runCommands_simulated env
      ("Merging " ++ sourceBranch ++ " to " ++ targetBranch.getD "develop")
      (RealGitExecutor.mergeBranchCommands sourceBranch (targetBranch.getD "develop")) [] r
      hcan
      (fun c hc => by
        apply RealGitExecutor.not_inherited_of_head
        simp only [RealGitExecutor.mergeBranchCommands, List.mem_cons, List.mem_singleton,
          List.not_mem_nil, or_false] at hc
        rcases hc with rfl | rfl | rfl | rfl <;> (simp only [String.data_append]; rfl))
    unfold RealGitExecutor.mergeBranch
    rw [List.nil_append] at h1
    rw [h1]
    exact ⟨h2, h3, h4, h5⟩

/-- At a concrete run: in the browser, with every dialog cancelled, `mergeBranch` shows
four dialogs and returns four cancellations. -/
theorem RealGitExecutor.compound_operations_complete_when_simulated_at_samples :
    (RealGitExecutor.mergeBranch Samples.plainBrowser "feature/login" none
        (RealGitExecutor.init false)).1.length = 4 ∧
      (RealGitExecutor.mergeBranch Samples.plainBrowser "feature/login" none
        (RealGitExecutor.init false)).1 =
        List.replicate 4 RealGitExecutor.cancelledResult ∧
      (RealGitExecutor.createBranch Samples.pullFails "login" none
        (RealGitExecutor.init false)).1.length = 3 :=
  ⟨((RealGitExecutor.compound_operations_complete_when_simulated Samples.plainBrowser
      (RealGitExecutor.init false) rfl).2.2.2 "feature/login" none).1,
    by decide,
    ((RealGitExecutor.compound_operations_complete_when_simulated Samples.pullFails
      (RealGitExecutor.init false) rfl).2.1 "login" none).1⟩

/-- C26, the code at a failing input: without process execution, the command `constructor`
(as every name of a member of `Object.prototype`) is simulated with the inherited member in
place of a result, which has no `success`; the loop of the compound operations breaks on
such a result, so that a sequence of two simulated commands stops after the first. -/
theorem simulated_command_has_no_success_on_inherited_name :
    (RealGitExecutor.init false).canExecuteDirectly = false ∧
    (RealGitExecutor.executeGitCommand Samples.plainBrowser "constructor"
        ⟨none, some true, none, none⟩ (RealGitExecutor.init false)).1.success = none ∧
    (RealGitExecutor.executeGitCommand Samples.plainBrowser "constructor"
        ⟨none, some true, none, none⟩ (RealGitExecutor.init false)).1.command =
      .str "constructor" ∧
    (RealGitExecutor.executeGitCommand Samples.plainBrowser "constructor"
        ⟨none, some true, none, none⟩ (RealGitExecutor.init false)).2.executed = [] ∧
    (RealGitExecutor.executeDirectly Samples.plainBrowser "constructor"
        (RealGitExecutor.init false)).1.success = none ∧
    RealGitExecutor.stops (RealGitExecutor.executeDirectly Samples.plainBrowser "constructor"
        (RealGitExecutor.init false)).1 = true ∧
    (RealGitExecutor.runCommands Samples.allSucceed "" ["toString", "git status"] []
        (RealGitExecutor.init false)).1.length = 1 ∧
    (RealGitExecutor.runCommands Samples.allSucceed "" ["toString", "git status"] []
        (RealGitExecutor.init false)).2.dialogs = ["toString"] ∧
    (RealGitExecutor.runCommands Samples.allSucceed "" ["toString", "git status"] []
        (RealGitExecutor.init false)).2.executed = [] ∧
    ∀ command ∈ RealGitExecutor.objectPrototypeKeys,
      (RealGitExecutor.simulationFor command).success = none := by
  refine ⟨rfl, by decide, by decide, by decide, by decide, by decide, by decide, by decide,
    by decide, ?_⟩
  decide

/-! ### Status refresh under the Manual strategy -/

/-- C27, the code at a failing input: on a page of a browser without a global `process`
and without service the Manual strategy is selected, every status query rejects before the
manual branch is reached, and `getGitStatus` fails soft: it returns no snapshot, stores
none and issues nothing, and `pullLatest` fails without issuing a command. Where a global
`process` exists, the refresh stores the snapshot composed from the placeholder text and
`pullLatest` then targets that text. -/
theorem getGitStatus_manual_fails_soft_without_process :
    GitIntegration.resolveVariant Samples.manualIntegration.canExecuteCommands
        Samples.manualIntegration.serverAvailable = .manual ∧
    (GitIntegration.getGitStatus Samples.plainBrowser Samples.manualIntegration).1.isNone =
      true ∧
    (GitIntegration.getGitStatus Samples.plainBrowser
        Samples.manualIntegration).2.currentStatus.isNone = true ∧
    (GitIntegration.getGitStatus Samples.plainBrowser Samples.manualIntegration).2.issued =
      [] ∧
    (GitIntegration.pullLatest Samples.plainBrowser Samples.manualIntegration).1.success =
      false ∧
    (GitIntegration.pullLatest Samples.plainBrowser Samples.manualIntegration).2.issued =
      [] ∧
    (GitIntegration.getGitStatus Samples.shimmedBrowser Samples.manualIntegration).1.map
        (fun status => status.currentBranch) =
      some "Command prepared for manual execution" ∧
    (GitIntegration.getGitStatus Samples.shimmedBrowser Samples.manualIntegration).1.map
        (fun status => [status.uncommittedFiles, status.totalBranches, status.stashCount]) =
      some [1, 1, 1] ∧
    (GitIntegration.getGitStatus Samples.shimmedBrowser Samples.manualIntegration).1.map
        (fun status => status.recentCommits) =
      some ["Command prepared for manual execution"] ∧
    (GitIntegration.getGitStatus Samples.shimmedBrowser Samples.manualIntegration).1.map
        (fun status => status.isClean) = some false ∧
    (GitIntegration.pullLatest Samples.shimmedBrowser
        (GitIntegration.getGitStatus Samples.shimmedBrowser
          Samples.manualIntegration).2).2.issued =
      GitIntegration.statusCommands ++
        ["git pull origin Command prepared for manual execution"] ++
        GitIntegration.statusCommands := by
  refine ⟨rfl, by decide, by decide, by decide, by decide, by decide, by decide, by decide,
    by decide, by decide, by decide⟩

theorem GitIntegration.statusQuery_manual_of_cwd (env : Env) (g : GitIntegration)
    (w : String) (hcwd : env.processCwd = some w) (hcan : g.canExecuteCommands = false)
    (hprobe : g.serverAvailable ≠ some true) (i : Nat) (command : String) :
    GitIntegration.statusQuery env g i command =
      .ok (GitIntegration.manualResult command) := by
  unfold GitIntegration.statusQuery
  rw [(GitIntegration.executeCommand_manual_of_cwd env command ⟨some false, none⟩
    { g with issued := g.issued ++ GitIntegration.statusCommands.take i }
    (by simp [Option.orElse, hcwd]) hcan hprobe).1]

/-- Where the default of `cwd` can be evaluated, a status refresh under the Manual strategy
returns and stores the snapshot composed from the placeholder text of the five manual
results, and `pullLatest` after it issues the pull for that text. -/
theorem GitIntegration.getGitStatus_manual_of_cwd (env : Env) (g : GitIntegration)
    (w : String) (hcwd : env.processCwd = some w) (hcan : g.canExecuteCommands = false)
    (hprobe : g.serverAvailable ≠ some true) :
    ∃ status, (GitIntegration.getGitStatus env g).1 = some status ∧
      (GitIntegration.getGitStatus env g).2.currentStatus = some status ∧
      status.currentBranch = "Command prepared for manual execution" ∧
      status.uncommittedFiles = 1 ∧ status.totalBranches = 1 ∧ status.stashCount = 1 ∧
      status.recentCommits = ["Command prepared for manual execution"] ∧
      status.isClean = false ∧
      ∃ tail, (GitIntegration.pullLatest env (GitIntegration.getGitStatus env g).2).2.issued =
        g.issued ++ GitIntegration.statusCommands ++
          ["git pull origin Command prepared for manual execution"] ++ tail := by
  have hq := GitIntegration.statusQuery_manual_of_cwd env g w hcwd hcan hprobe
  have h1 := GitIntegration.getGitStatus_of_queries env g _ _ _ _ _ (hq 0 _) (hq 1 _)
    (hq 2 _) (hq 3 _) (hq 4 _)
  rw [GitIntegration.composeStatus_ok (env.now g.ticks) _ _ _ _ _
    "Command prepared for manual execution" "Command prepared for manual execution"
    "Command prepared for manual execution" "Command prepared for manual execution"
    rfl rfl rfl rfl] at h1
  have hlines : GitIntegration.linesNotBlank "Command prepared for manual execution" =
      ["Command prepared for manual execution"] := by decide
  have hclean : (jsTrim "Command prepared for manual execution" == "") = false := by decide
  have hbranch : ((GitIntegration.manualResult "git branch --show-current").stdout.or
      (.str "unknown")).text = "Command prepared for manual execution" := rfl
  rw [hlines, hclean, hbranch] at h1
  obtain ⟨_, hissued, hstored⟩ := GitIntegration.getGitStatus_frame env g
  rw [h1] at hstored
  simp only [hcwd, Option.isSome_some, if_true] at hissued
  refine ⟨_, h1, hstored, rfl, rfl, rfl, rfl, rfl, rfl, ?_⟩
  obtain ⟨⟨tail, htail, _⟩, _⟩ := GitIntegration.pull_and_push_issue_one_command env
    (GitIntegration.getGitStatus env g).2 w hcwd (by
      intro status hs
      rw [hstored] at hs
      cases hs
      show "Command prepared for manual execution" ≠ ""
      decide)
  refine ⟨tail, ?_⟩
  rw [htail, hissued, hstored]
  rfl

/-! ### The commit operation -/

theorem GitIntegration.runCommands_manual (env : Env) (w : String)
    (hw : env.processCwd = some w) :
    ∀ (cs : List String) (g : GitIntegration), g.canExecuteCommands = false →
      g.serverAvailable ≠ some true →
      GitIntegration.runCommands env cs g = (.ok (), { g with issued := g.issued ++ cs }) := by
  intro cs
  induction cs with
  | nil => intro g _ _; simp [GitIntegration.runCommands]
  | cons c rest ih =>
    intro g hcan hprobe
    have hstep := (GitIntegration.executeCommand_manual_of_cwd env c ⟨none, none⟩ g
      (by simp [Option.orElse, hw]) hcan hprobe).1
    simp only [GitIntegration.runCommands]
    rw [hstep]
    dsimp only
    rw [ih { g with issued := g.issued ++ [c] } hcan hprobe]
    simp [List.append_assoc]

/-- C10: the commit command of both classes is `git commit -m "<type>: <message>"`, its
quoted text being `type`, a colon and a blank, then `message`; `GitIntegration.commitChanges`
(type default `feat`) hands to `executeCommand` the stage-all command `git add .` first
exactly when `addAll` (default true) is true, then the commit command: it issues the first
`k` of these, all of them when it succeeds; under the Local strategy it succeeds and has
issued all of them, then the status queries, when no command fails, and it has issued the
commands up to the first failing one and returns that failure otherwise; under the Manual
strategy, where the default of `cwd` can be evaluated, it succeeds and has issued all of
them; `RealGitExecutor.commitChanges` shows the dialogs of `git add <files>` and of the commit
command, in this order, up to the first failure. -/
theorem commit_command_has_type_and_message (env : Env) (g : GitIntegration)
    (r : RealGitExecutor) (message : String) (type : Option String) (addAll : Option Bool)
    (files : Option String) (type' message' : String) :
    GitIntegration.commitCommands (type.getD "feat" ++ ": " ++ message) true =
      ["git add .", "git commit -m \"" ++ (type.getD "feat" ++ ": " ++ message) ++ "\""] ∧
    GitIntegration.commitCommands (type.getD "feat" ++ ": " ++ message) false =
      ["git commit -m \"" ++ (type.getD "feat" ++ ": " ++ message) ++ "\""] ∧
    (((GitIntegration.commitChanges env message type addAll g).1 = ⟨true, none, none⟩ ∧
        (GitIntegration.commitChanges env message type addAll g).2.issued =
          g.issued ++
            GitIntegration.commitCommands (type.getD "feat" ++ ": " ++ message)
              (addAll.getD true) ++
            GitIntegration.statusCommands) ∨
      (∃ e k, (GitIntegration.commitChanges env message type addAll g).1 =
          ⟨false, none, some e⟩ ∧
        k ≤ (GitIntegration.commitCommands (type.getD "feat" ++ ": " ++ message)
          (addAll.getD true)).length ∧
        (GitIntegration.commitChanges env message type addAll g).2.issued =
          g.issued ++ (GitIntegration.commitCommands (type.getD "feat" ++ ": " ++ message)
            (addAll.getD true)).take k)) ∧
    (∀ w, env.processCwd = some w → g.canExecuteCommands = true →
      (∀ i c,
        (GitIntegration.commitCommands (type.getD "feat" ++ ": " ++ message)
          (addAll.getD true))[i]? = some c →
        (env.exec (g.issued.length + i) c).error = none) →
      (GitIntegration.commitChanges env message type addAll g).1 = ⟨true, none, none⟩ ∧
      (GitIntegration.commitChanges env message type addAll g).2.issued =
        g.issued ++
          GitIntegration.commitCommands (type.getD "feat" ++ ": " ++ message)
            (addAll.getD true) ++
          GitIntegration.statusCommands) ∧
    (∀ w, env.processCwd = some w → g.canExecuteCommands = true →
      ∀ k c,
        (GitIntegration.commitCommands (type.getD "feat" ++ ": " ++ message)
          (addAll.getD true))[k]? = some c →
        (∀ i c', i < k →
          (GitIntegration.commitCommands (type.getD "feat" ++ ": " ++ message)
            (addAll.getD true))[i]? = some c' →
          (env.exec (g.issued.length + i) c').error = none) →
        (env.exec (g.issued.length + k) c).error.isSome = true →
        (GitIntegration.commitChanges env message type addAll g).1 =
          ⟨false, none, some (.result
            (GitIntegration.localResult c (env.exec (g.issued.length + k) c)))⟩ ∧
        (GitIntegration.commitChanges env message type addAll g).2.issued =
          g.issued ++ (GitIntegration.commitCommands (type.getD "feat" ++ ": " ++ message)
            (addAll.getD true)).take (k + 1)) ∧
    (∀ w, env.processCwd = some w → g.canExecuteCommands = false →
      g.serverAvailable ≠ some true →
      (GitIntegration.commitChanges env message type addAll g).1 = ⟨true, none, none⟩ ∧
      (GitIntegration.commitChanges env message type addAll g).2.issued =
        g.issued ++
          GitIntegration.commitCommands (type.getD "feat" ++ ": " ++ message)
            (addAll.getD true) ++
          GitIntegration.statusCommands) ∧
    RealGitExecutor.commitCommands type' message' (files.getD ".") =
      ["git add " ++ files.getD ".", "git commit -m \"" ++ (type' ++ ": " ++ message') ++ "\""] ∧
    RealGitExecutor.StopsAtFirstFailure
      ["git add " ++ files.getD ".", "git commit -m \"" ++ (type' ++ ": " ++ message') ++ "\""] r
      (RealGitExecutor.commitChanges env type' message' files r).2
      (RealGitExecutor.commitChanges env type' message' files r).1 ∧
    GitIntegration.commitCommands ("feat" ++ ": " ++ "add x") true =
      ["git add .", "git commit -m \"feat: add x\""] ∧
    RealGitExecutor.commitCommands "feat" "add x" "." =
      ["git add .", "git commit -m \"feat: add x\""] := by
  have hcmd : RealGitExecutor.commitCommands type' message' (files.getD ".") =
      ["git add " ++ files.getD ".",
        "git commit -m \"" ++ (type' ++ ": " ++ message') ++ "\""] := by
    simp only [RealGitExecutor.commitCommands, String.append_assoc]
  have hI := GitIntegration.runCommands_issued env
    (GitIntegration.commitCommands (type.getD "feat" ++ ": " ++ message) (addAll.getD true)) g
  have hne : GitIntegration.commitCommands (type.getD "feat" ++ ": " ++ message)
      (addAll.getD true) ≠ [] := by simp [GitIntegration.commitCommands]
  have hdisj : ((GitIntegration.commitChanges env message type addAll g).1 =
        ⟨true, none, none⟩ ∧
      (GitIntegration.commitChanges env message type addAll g).2.issued =
        g.issued ++
          GitIntegration.commitCommands (type.getD "feat" ++ ": " ++ message)
            (addAll.getD true) ++
          GitIntegration.statusCommands) ∨
    (∃ e k, (GitIntegration.commitChanges env message type addAll g).1 =
        ⟨false, none, some e⟩ ∧
      k ≤ (GitIntegration.commitCommands (type.getD "feat" ++ ": " ++ message)
        (addAll.getD true)).length ∧
      (GitIntegration.commitChanges env message type addAll g).2.issued =
        g.issued ++ (GitIntegration.commitCommands (type.getD "feat" ++ ": " ++ message)
          (addAll.getD true)).take k) := by
    unfold GitIntegration.commitChanges
    dsimp only
    generalize GitIntegration.runCommands env
      (GitIntegration.commitCommands (type.getD "feat" ++ ": " ++ message) (addAll.getD true))
      g = out at hI
    obtain ⟨res, g1⟩ := out
    rcases hI with ⟨h1, h2, h3⟩ | ⟨e, k, h1, h2, h3⟩
    · dsimp only at h1 h2
      subst h1
      left
      refine ⟨rfl, ?_⟩
      dsimp only
      rw [GitIntegration.refreshStatus_issued, h3 hne]
      simp [GitIntegration.showNotification, h2]
    · dsimp only at h1 h3
      subst h1
      right
      exact ⟨e, k, rfl, h2, h3⟩
  refine ⟨rfl, rfl, hdisj, fun w hw hl hall => ?_, fun w hw hl k c hk hprev herr => ?_,
    fun w hw hcan hprobe => ?_, hcmd, ?_, by decide, by decide⟩
  · have hL := (GitIntegration.runCommands_local env w hw
      (GitIntegration.commitCommands (type.getD "feat" ++ ": " ++ message) (addAll.getD true))
      g hl).2 hall
    have hfirst : (GitIntegration.commitChanges env message type addAll g).1 =
        ⟨true, none, none⟩ := by
      unfold GitIntegration.commitChanges
      dsimp only
      generalize GitIntegration.runCommands env
        (GitIntegration.commitCommands (type.getD "feat" ++ ": " ++ message)
          (addAll.getD true)) g = out at hL
      obtain ⟨res, g1⟩ := out
      dsimp only at hL
      rw [hL.1]
    rcases hdisj with ⟨_, h2⟩ | ⟨e, k, h1, _, _⟩
    · exact ⟨hfirst, h2⟩
    · rw [hfirst] at h1
      exact absurd (congrArg OpResult.success h1) Bool.noConfusion
  · have hL := (GitIntegration.runCommands_local env w hw
      (GitIntegration.commitCommands (type.getD "feat" ++ ": " ++ message) (addAll.getD true))
      g hl).1 k c hk hprev herr
    unfold GitIntegration.commitChanges
    dsimp only
    generalize GitIntegration.runCommands env
      (GitIntegration.commitCommands (type.getD "feat" ++ ": " ++ message)
        (addAll.getD true)) g = out at hL
    obtain ⟨res, g1⟩ := out
    dsimp only at hL
    rw [hL.1]
    exact ⟨rfl, by simp [GitIntegration.showNotification, hL.2]⟩
  · have hM := GitIntegration.runCommands_manual env w hw
      (GitIntegration.commitCommands (type.getD "feat" ++ ": " ++ message) (addAll.getD true))
      g hcan hprobe
    have hfirst : (GitIntegration.commitChanges env message type addAll g).1 =
        ⟨true, none, none⟩ := by
      unfold GitIntegration.commitChanges
      dsimp only
      rw [hM]
    rcases hdisj with ⟨_, h2⟩ | ⟨e, k, h1, _, _⟩
    · exact ⟨hfirst, h2⟩
    · rw [hfirst] at h1
      exact absurd (congrArg OpResult.success h1) Bool.noConfusion
  · obtain ⟨new, hnew, hspec⟩ := RealGitExecutor.runCommands_spec env
      ("Committing changes: " ++ type' ++ ": " ++ message')
      (RealGitExecutor.commitCommands type' message' (files.getD ".")) [] r
    rw [List.nil_append] at hnew
    unfold RealGitExecutor.commitChanges
    rw [hnew, ← hcmd]
    exact hspec

/-- C10 at concrete runs: under the Local strategy with no failing command
`commitChanges("add x")` succeeds and has issued `git add .`, then
`git commit -m "feat: add x"`, then the status queries; with `addAll` false it has issued
the commit command alone before them; when the commit command fails, `git add .` and the
commit command have been issued and the operation returns the failure; under the Manual
strategy both are issued; `RealGitExecutor.commitChanges("feat", "add x")` has shown the dialogs of both commands. -/
theorem commit_command_has_type_and_message_witness :
    ((GitIntegration.commitChanges Samples.allSucceed "add x" none none
        Samples.localIntegration).1 = ⟨true, none, none⟩ ∧
      (GitIntegration.commitChanges Samples.allSucceed "add x" none none
        Samples.localIntegration).2.issued =
        [] ++ GitIntegration.commitCommands ("feat" ++ ": " ++ "add x") true ++
          GitIntegration.statusCommands) ∧
    (GitIntegration.commitChanges Samples.allSucceed "add x" none none
        Samples.localIntegration).2.issued =
      ["git add .", "git commit -m \"feat: add x\"", "git branch --show-current",
        "git status --porcelain", "git branch -a", "git log --oneline -5",
        "git stash list"] ∧
    (GitIntegration.commitChanges Samples.allSucceed "add x" (some "fix") (some false)
        Samples.localIntegration).2.issued =
      ["git commit -m \"fix: add x\"", "git branch --show-current",
        "git status --porcelain", "git branch -a", "git log --oneline -5",
        "git stash list"] ∧
    (GitIntegration.commitChanges Samples.pullFails "add x" none none
        Samples.localIntegration).1.success = false ∧
    (GitIntegration.commitChanges Samples.pullFails "add x" none none
        Samples.localIntegration).2.issued =
      ["git add .", "git commit -m \"feat: add x\""] ∧
    (GitIntegration.commitChanges Samples.shimmedBrowser "add x" none none
        Samples.manualIntegration).2.issued =
      ["git add .", "git commit -m \"feat: add x\"", "git branch --show-current",
        "git status --porcelain", "git branch -a", "git log --oneline -5",
        "git stash list"] ∧
    (RealGitExecutor.commitChanges Samples.allSucceed "feat" "add x" none
        (RealGitExecutor.init true)).2.dialogs =
      ["git add .", "git commit -m \"feat: add x\""] ∧
    (RealGitExecutor.commitChanges Samples.allSucceed "feat" "add x" none
        (RealGitExecutor.init true)).2.executed =
      ["git add .", "git commit -m \"feat: add x\""] := by
  have h := (commit_command_has_type_and_message Samples.allSucceed
    Samples.localIntegration (RealGitExecutor.init true) "add x" none none none "feat"
    "add x").2.2.2.1 "/repo" rfl rfl
    (fun i c hc => by
      have hi : i < 2 := by
        by_contra hge
        rw [List.getElem?_eq_none (by simpa [GitIntegration.commitCommands] using hge)] at hc
        exact Option.noConfusion hc
      have : i = 0 ∨ i = 1 := by omega
      rcases this with rfl | rfl <;>
        (simp only [GitIntegration.commitCommands, Option.getD_none, if_true,
          List.singleton_append, List.getElem?_cons_zero, List.getElem?_cons_succ,
          Option.some.injEq] at hc
         subst hc
         decide))
  exact ⟨h, by decide, by decide, by decide, by decide, by decide, by decide, by decide⟩
